import Mathlib

/-!
# Galaxy Organizer: state, migration, history, kinematics and placement engine

A shallow embedding of `src/main.js`, read as a classic (sloppy-mode) browser script: a
top-level `function` is a property of `window`, so the assignment `window.save = ...`
replaces the `save` that every handler calls, and an assignment to a property of a
primitive value is silently dropped.

Modelling conventions

* A JavaScript value is a `Val`.  Numbers are finite decimals (`Num`); `NaN` and the
  infinities are not values of the model.  An array carries its indexed items and the named
  properties that were assigned to it; a plain object carries its own properties in
  enumeration order (index keys ascending, then string keys in creation order, which is
  what `setProp` maintains).
* A JSON text is represented by the tree it denotes: `jsonStringify` maps a value to the tree
  whose text `JSON.stringify` writes (it drops `undefined` members and the named properties of
  arrays), two texts are equal exactly when their trees are, and `JSON.parse` is the identity
  on such trees.
* Built-ins whose result depends on floating point, on randomness or on the DOM are fields
  of `Host`: `uid`, `Number::toString`, `Math.hypot`, `Math.atan2`, `Math.random`, and whether
  drawing a state raises.
* Rebinding the prototype of the `systems` object (a system stored under the key
  `__proto__`) is not represented: `migrateLoaded` then answers `JsError.unmodelled`.
* Values are trees: object identity and aliasing are not represented.  In particular
  `DEFAULT_STATE` is the literal of the source (no handler has written through a `keybinds`
  object that a migrated state shares with it).
* The history functions are those in force after start-up, when `save` is the wrapped
  function that ends with `__snapshot('save')`.
* In the frame loop (`elapsed`, `animatePlanet`) and in the drag listener, arithmetic is
  exact: `+`, `-`, `*`, and a division by 2 or by a power of ten are computed on finite decimals
  without rounding error.  In placement (`calculateSize`, `findNonOverlapping`) and in
  `autoArrange` the four operations are those of the host's floating point, `Host.add`,
  `Host.sub`, `Host.mul` and `Host.div`: a `Num` stands there for the double nearest to it
  (the literal `0.3` for the double that the source text `0.3` denotes), and the result is the
  double that the operation returns, whenever that is finite.  `Host.Rounds` states what the
  proofs use of IEEE rounding, and `doubleHost` computes it (round to nearest, ties to even).
  Comparisons, `Math.min`, `Math.max` and `Math.round` are exact on every finite number.
  `Math.cos`, `Math.sin`, `Math.PI` and `Math.random()` are results of the host.  An operand
  whose conversion to a number gives `NaN`, or goes through the text of a string or an
  object, is outside the model: the embedded function answers `JsError.unmodelled` (in
  placement, `JsError.typeError` where the conversion raises).
* The DOM is not represented: of a handler, only the effect on `state` is embedded.
-/

namespace Galaxy

/-! ## Values -/

/-- A finite JavaScript number, written `mant / 10 ^ exp`. -/
structure Num where
  mant : Int
  exp : Nat
deriving DecidableEq, Repr

/-- JavaScript values reachable from parsed JSON by the code of `main.js`. -/
inductive Val where
  | undefined
  | null
  | bool (b : Bool)
  | num (n : Num)
  | str (s : String)
  | arr (items : List Val) (props : List (String × Val))
  | obj (props : List (String × Val))
deriving Repr

/-- Own properties of an object, in enumeration order. -/
abbrev Props := List (String × Val)

/-- Outcome of a call that does not return normally. -/
inductive JsError where
  | typeError
  | unmodelled
deriving DecidableEq, Repr

mutual
/-- Decision procedure for equality of values. -/
def Val.decEq : (a b : Val) → Decidable (a = b)
  | .undefined, .undefined => isTrue rfl
  | .null, .null => isTrue rfl
  | .bool a, .bool b =>
    if h : a = b then isTrue (by rw [h]) else isFalse (by intro e; cases e; exact h rfl)
  | .num a, .num b =>
    if h : a = b then isTrue (by rw [h]) else isFalse (by intro e; cases e; exact h rfl)
  | .str a, .str b =>
    if h : a = b then isTrue (by rw [h]) else isFalse (by intro e; cases e; exact h rfl)
  | .arr a p, .arr b q =>
    match Val.decEqList a b, Val.decEqProps p q with
    | isTrue h1, isTrue h2 => isTrue (by rw [h1, h2])
    | isFalse h1, _ => isFalse (by intro e; cases e; exact h1 rfl)
    | _, isFalse h2 => isFalse (by intro e; cases e; exact h2 rfl)
  | .obj p, .obj q =>
    match Val.decEqProps p q with
    | isTrue h => isTrue (by rw [h])
    | isFalse h => isFalse (by intro e; cases e; exact h rfl)
  | .undefined, .null => isFalse (by intro e; cases e)
  | .undefined, .bool _ => isFalse (by intro e; cases e)
  | .undefined, .num _ => isFalse (by intro e; cases e)
  | .undefined, .str _ => isFalse (by intro e; cases e)
  | .undefined, .arr _ _ => isFalse (by intro e; cases e)
  | .undefined, .obj _ => isFalse (by intro e; cases e)
  | .null, .undefined => isFalse (by intro e; cases e)
  | .null, .bool _ => isFalse (by intro e; cases e)
  | .null, .num _ => isFalse (by intro e; cases e)
  | .null, .str _ => isFalse (by intro e; cases e)
  | .null, .arr _ _ => isFalse (by intro e; cases e)
  | .null, .obj _ => isFalse (by intro e; cases e)
  | .bool _, .undefined => isFalse (by intro e; cases e)
  | .bool _, .null => isFalse (by intro e; cases e)
  | .bool _, .num _ => isFalse (by intro e; cases e)
  | .bool _, .str _ => isFalse (by intro e; cases e)
  | .bool _, .arr _ _ => isFalse (by intro e; cases e)
  | .bool _, .obj _ => isFalse (by intro e; cases e)
  | .num _, .undefined => isFalse (by intro e; cases e)
  | .num _, .null => isFalse (by intro e; cases e)
  | .num _, .bool _ => isFalse (by intro e; cases e)
  | .num _, .str _ => isFalse (by intro e; cases e)
  | .num _, .arr _ _ => isFalse (by intro e; cases e)
  | .num _, .obj _ => isFalse (by intro e; cases e)
  | .str _, .undefined => isFalse (by intro e; cases e)
  | .str _, .null => isFalse (by intro e; cases e)
  | .str _, .bool _ => isFalse (by intro e; cases e)
  | .str _, .num _ => isFalse (by intro e; cases e)
  | .str _, .arr _ _ => isFalse (by intro e; cases e)
  | .str _, .obj _ => isFalse (by intro e; cases e)
  | .arr _ _, .undefined => isFalse (by intro e; cases e)
  | .arr _ _, .null => isFalse (by intro e; cases e)
  | .arr _ _, .bool _ => isFalse (by intro e; cases e)
  | .arr _ _, .num _ => isFalse (by intro e; cases e)
  | .arr _ _, .str _ => isFalse (by intro e; cases e)
  | .arr _ _, .obj _ => isFalse (by intro e; cases e)
  | .obj _, .undefined => isFalse (by intro e; cases e)
  | .obj _, .null => isFalse (by intro e; cases e)
  | .obj _, .bool _ => isFalse (by intro e; cases e)
  | .obj _, .num _ => isFalse (by intro e; cases e)
  | .obj _, .str _ => isFalse (by intro e; cases e)
  | .obj _, .arr _ _ => isFalse (by intro e; cases e)
/-- Decision procedure for equality of item lists. -/
def Val.decEqList : (a b : List Val) → Decidable (a = b)
  | [], [] => isTrue rfl
  | [], _ :: _ => isFalse (by intro e; cases e)
  | _ :: _, [] => isFalse (by intro e; cases e)
  | a :: as, b :: bs =>
    match Val.decEq a b, Val.decEqList as bs with
    | isTrue h1, isTrue h2 => isTrue (by rw [h1, h2])
    | isFalse h1, _ => isFalse (by intro e; cases e; exact h1 rfl)
    | _, isFalse h2 => isFalse (by intro e; cases e; exact h2 rfl)
/-- Decision procedure for equality of property lists. -/
def Val.decEqProps : (a b : List (String × Val)) → Decidable (a = b)
  | [], [] => isTrue rfl
  | [], _ :: _ => isFalse (by intro e; cases e)
  | _ :: _, [] => isFalse (by intro e; cases e)
  | (k, a) :: as, (l, b) :: bs =>
    if hk : k = l then
      match Val.decEq a b, Val.decEqProps as bs with
      | isTrue h1, isTrue h2 => isTrue (by rw [hk, h1, h2])
      | isFalse h1, _ => isFalse (by intro e; cases e; exact h1 rfl)
      | _, isFalse h2 => isFalse (by intro e; cases e; exact h2 rfl)
    else isFalse (by intro e; cases e; exact hk rfl)
end

instance : DecidableEq Val := Val.decEq

/-- The integer literal `k` as a JavaScript number. -/
def Val.int (k : Int) : Val := Val.num ⟨k, 0⟩

/-- ToBoolean. -/
def Val.truthy : Val → Bool
  | .undefined => false
  | .null => false
  | .bool b => b
  | .num n => n.mant != 0
  | .str s => s != ""
  | .arr _ _ => true
  | .obj _ => true

/-- The operator `a || b` on already evaluated operands. -/
def Val.orElse (a b : Val) : Val := if a.truthy then a else b

/-- The operator `a && b` on already evaluated operands. -/
def Val.andAlso (a b : Val) : Val := if a.truthy then b else a

/-- The test `Array.isArray(v)`. -/
def Val.isArray : Val → Bool
  | .arr _ _ => true
  | _ => false

/-- True for `null` and `undefined`, on which every property access raises. -/
def Val.isNullish : Val → Bool
  | .undefined => true
  | .null => true
  | _ => false

/-- True for arrays and plain objects. -/
def Val.isObject : Val → Bool
  | .arr _ _ => true
  | .obj _ => true
  | _ => false

/-- First entry stored under key `k`. -/
def lookupProp : Props → String → Option Val
  | [], _ => none
  | (k2, v) :: rest, k => if k2 = k then some v else lookupProp rest k

/-- The canonical array index denoted by a property key, if it is one
(decimal digits, no leading zero, below `2^32 - 1`). -/
def arrayIndex (k : String) : Option Nat :=
  match k.data with
  | [] => none
  | c :: cs =>
    if (c :: cs).all Char.isDigit && (cs.isEmpty || c != '0') then
      let n := (c :: cs).foldl (fun acc d => 10 * acc + (d.toNat - 48)) 0
      if n < 4294967295 then some n else none
    else none

/-- Overwrite the value of the first entry stored under `k`. -/
def replaceProp : Props → String → Val → Props
  | [], _, _ => []
  | (k2, v2) :: rest, k, v =>
    if k2 = k then (k2, v) :: rest else (k2, v2) :: replaceProp rest k v

/-- Create an integer-indexed property: it goes before the first key that is not an
index or is a larger index. -/
def insertIndex (n : Nat) (k : String) (v : Val) : Props → Props
  | [] => [(k, v)]
  | (k2, v2) :: rest =>
    match arrayIndex k2 with
    | some m => if n < m then (k, v) :: (k2, v2) :: rest
                else (k2, v2) :: insertIndex n k v rest
    | none => (k, v) :: (k2, v2) :: rest

/-- The assignment `o[k] = v` on the own properties of an ordinary object: an existing
property keeps its place, a new index key is placed in ascending order before all
string keys, a new string key goes last. -/
def setProp (ps : Props) (k : String) (v : Val) : Props :=
  match lookupProp ps k with
  | some _ => replaceProp ps k v
  | none =>
    match arrayIndex k with
    | some n => insertIndex n k v ps
    | none => ps ++ [(k, v)]

/-- The read `v.k` for a named key `k` (not an index, not `length`, not a member of a
built-in prototype) on a value that is not `null` or `undefined`. -/
def Val.get (v : Val) (k : String) : Val :=
  match v with
  | .arr _ ps => (lookupProp ps k).getD .undefined
  | .obj ps => (lookupProp ps k).getD .undefined
  | _ => .undefined

/-- The sloppy-mode assignment `v.k = x` for a named key `k`: it is silently dropped on a
primitive. -/
def Val.set (v : Val) (k : String) (x : Val) : Val :=
  match v with
  | .arr items ps => .arr items (setProp ps k x)
  | .obj ps => .obj (setProp ps k x)
  | other => other

/-- Index entries `(from, c0), (from+1, c1), ...` of a string or an array. -/
def indexEntries : Nat → List Val → Props
  | _, [] => []
  | i, v :: vs => (toString i, v) :: indexEntries (i + 1) vs

/-- Own enumerable string-keyed properties, the order of `Object.keys`, `Object.values`,
`Object.entries` and of the source argument of `Object.assign`. -/
def ownProps : Val → Props
  | .obj ps => ps
  | .arr items ps => indexEntries 0 items ++ ps
  | .str s => indexEntries 0 (s.data.map (fun c => Val.str (String.singleton c)))
  | _ => []

/-- Names that every ordinary object inherits from `Object.prototype`. -/
def objectPrototypeNames : List String :=
  ["constructor", "hasOwnProperty", "isPrototypeOf", "propertyIsEnumerable",
   "toLocaleString", "toString", "valueOf", "__defineGetter__", "__defineSetter__",
   "__lookupGetter__", "__lookupSetter__", "__proto__"]

/-- Truthiness of the dynamic read `o[k]` on an ordinary object with own properties `ps`:
an own property decides, otherwise the members inherited from `Object.prototype` count. -/
def truthyAt (ps : Props) (k : String) : Bool :=
  match lookupProp ps k with
  | some v => v.truthy
  | none => objectPrototypeNames.contains k

/-- One assignment `target[k] = v` made by `Object.assign`: assigning `__proto__` reaches
the inherited setter and creates no own property. -/
def assignStep (t : Props) (kv : String × Val) : Props :=
  if kv.1 = "__proto__" then t else setProp t kv.1 kv.2

/-- The call `Object.assign(target, src)` given the own properties of both: every source
property is assigned in order. -/
def objectAssign (target : Props) (src : Props) : Props := src.foldl assignStep target

/-! ## Arithmetic -/

/-- The number `m / 10 ^ e` in lowest decimal terms: trailing zeros of the mantissa are
removed, so that equal numbers have equal representations. -/
def normDecimal (m : Int) : Nat → Num
  | 0 => ⟨m, 0⟩
  | e + 1 => if m % 10 = 0 then normDecimal (m / 10) e else ⟨m, e + 1⟩

/-- The rational number that a `Num` denotes. -/
def Num.toRat (a : Num) : ℚ := a.mant / 10 ^ a.exp

/-- The sum `a + b`. -/
def Num.add (a b : Num) : Num :=
  normDecimal (a.mant * 10 ^ b.exp + b.mant * 10 ^ a.exp) (a.exp + b.exp)

/-- The difference `a - b`. -/
def Num.sub (a b : Num) : Num :=
  normDecimal (a.mant * 10 ^ b.exp - b.mant * 10 ^ a.exp) (a.exp + b.exp)

/-- The product `a * b`. -/
def Num.mul (a b : Num) : Num := normDecimal (a.mant * b.mant) (a.exp + b.exp)

/-- The comparison `a < b`. -/
def Num.lt (a b : Num) : Bool := decide (a.mant * 10 ^ b.exp < b.mant * 10 ^ a.exp)

/-- The comparison `a <= b`. -/
def Num.le (a b : Num) : Bool := decide (a.mant * 10 ^ b.exp ≤ b.mant * 10 ^ a.exp)

/-- The call `Math.min(a, b)`. -/
def Num.min (a b : Num) : Num := if Num.lt b a then b else a

/-- The call `Math.max(a, b)`. -/
def Num.max (a b : Num) : Num := if Num.lt a b then b else a

/-- The quotient `a / 10 ^ k`. -/
def Num.scale (a : Num) (k : Nat) : Num := normDecimal a.mant (a.exp + k)

/-- The quotient `a / 2`. -/
def Num.half (a : Num) : Num := normDecimal (a.mant * 5) (a.exp + 1)

/-- The call `Math.round(a)`: the nearest integer, a tie going up. -/
def Num.round (a : Num) : Num := ⟨(2 * a.mant + 10 ^ a.exp) / (2 * 10 ^ a.exp), 0⟩

/-- The call `clamp(v, a, b)`, which is `Math.max(a, Math.min(b, v))`. -/
def clamp (v a b : Num) : Num := Num.max a (Num.min b v)

/-- ToNumber on the values for which it is a number of the model without reading a text:
`none` for `undefined` (`NaN`), strings, arrays and objects. -/
def Val.toNumber? : Val → Option Num
  | .num n => some n
  | .null => some ⟨0, 0⟩
  | .bool b => some ⟨if b then 1 else 0, 0⟩
  | _ => none

/-! ## JSON serialisation and string coercion -/

mutual
/-- The tree of the text `JSON.stringify(v)` for a value `v` that is not `undefined`:
members whose value is `undefined` are left out of objects and written `null` in arrays,
and the named properties of an array are not written. -/
def jsonStringify : Val → Val
  | .undefined => .undefined
  | .null => .null
  | .bool b => .bool b
  | .num n => .num n
  | .str s => .str s
  | .arr items _ => .arr (jsonItems items) []
  | .obj ps => .obj (jsonMembers ps)
/-- Elements of a serialised array. -/
def jsonItems : List Val → List Val
  | [] => []
  | .undefined :: vs => .null :: jsonItems vs
  | v :: vs => jsonStringify v :: jsonItems vs
/-- Members of a serialised object. -/
def jsonMembers : List (String × Val) → List (String × Val)
  | [] => []
  | (_, .undefined) :: ps => jsonMembers ps
  | (k, v) :: ps => (k, jsonStringify v) :: jsonMembers ps
end

/-- The call `JSON.parse(text)` on the tree of a text. -/
def jsonParse (text : Val) : Val := text

mutual
/-- ToString; `none` when ToPrimitive raises a TypeError (an object whose own `toString`
member, coming from JSON, is not callable). -/
def toStringJs (numToString : Num → String) : Val → Option String
  | .undefined => some "undefined"
  | .null => some "null"
  | .bool b => some (if b then "true" else "false")
  | .num n => some (numToString n)
  | .str s => some s
  | .arr items ps =>
    if (lookupProp ps "toString").isSome then none
    else if (lookupProp ps "join").isSome then some "[object Array]"
    else joinItems numToString items
  | .obj ps => if (lookupProp ps "toString").isSome then none else some "[object Object]"
/-- The call `Array.prototype.join` with the default separator. -/
def joinItems (numToString : Num → String) : List Val → Option String
  | [] => some ""
  | .undefined :: vs => joinRest numToString vs ""
  | .null :: vs => joinRest numToString vs ""
  | v :: vs =>
    match toStringJs numToString v with
    | some s => joinRest numToString vs s
    | none => none
/-- Remaining elements of a join, after the text `acc` of the leading ones. -/
def joinRest (numToString : Num → String) : List Val → String → Option String
  | [], acc => some acc
  | .undefined :: vs, acc => joinRest numToString vs (acc ++ ",")
  | .null :: vs, acc => joinRest numToString vs (acc ++ ",")
  | v :: vs, acc =>
    match toStringJs numToString v with
    | some s => joinRest numToString vs (acc ++ "," ++ s)
    | none => none
end

/-! ## Application state and host -/

/-- The global `state` object: its five fields, and any further own properties that a
loaded blob carried along. -/
structure AppState where
  systems : Val
  current : Val
  editMode : Val
  linkMode : Val
  adv : Val
  extra : Props
deriving DecidableEq, Repr

/-- Built-ins of the browser that the embedding does not compute. -/
structure Host where
  /-- Successive results of `uid()`. -/
  uid : Nat → String
  /-- A generated id is a non-empty string. -/
  uid_ne : ∀ n, uid n ≠ ""
  /-- A generated id is not the name `__proto__`. -/
  uid_plain : ∀ n, uid n ≠ "__proto__"
  /-- Number::toString. -/
  numToString : Num → String
  /-- The call `Math.hypot(a, b)` on coercible arguments, `none` for `NaN`. -/
  hypot : Val → Val → Option Num
  /-- The call `Math.atan2(a, b)` on coercible arguments, `none` for `NaN`. -/
  atan2 : Val → Val → Option Num
  /-- The value of `(Math.random()*0.4)+0.1` when `Math.random()` has been called the given
  number of times. -/
  orbitSpeed : Nat → Num
  /-- The value of `randomColorHsl()`, which draws three random numbers, when
  `Math.random()` has been called the given number of times. -/
  randomColorHsl : Nat → String
  /-- Whether drawing the given state raises (DOM rendering is not modelled). -/
  renderRaises : AppState → Bool
  /-- The result of `Math.random()` when it has been called the given number of times. -/
  random : Nat → Num
  /-- The call `Math.cos(a)`. -/
  cos : Num → Num
  /-- The call `Math.sin(a)`. -/
  sin : Num → Num
  /-- The constant `Math.PI`. -/
  pi : Num
  /-- The quotient `a / b` in the host's floating point. -/
  div : Num → Num → Num
  /-- The sum `a + b` in the host's floating point. -/
  add : Num → Num → Num
  /-- The difference `a - b` in the host's floating point. -/
  sub : Num → Num → Num
  /-- The product `a * b` in the host's floating point. -/
  mul : Num → Num → Num
  /-- The width `space.clientWidth` of the drawing area. -/
  spaceWidth : Num
  /-- The height `space.clientHeight` of the drawing area. -/
  spaceHeight : Num

/-- ToPropertyKey, `none` when it raises. -/
def Host.toPropertyKey (h : Host) (v : Val) : Option String := toStringJs h.numToString v

/-- A number-valued oracle result with `NaN` replaced: the idiom `f(..) || d`. -/
def numberOr (r : Option Num) (d : Val) : Val :=
  match r with
  | some n => (Val.num n).orElse d
  | none => d

/-- Whether ToNumber of the value returns (it raises exactly when ToString does). -/
def Host.coercible (h : Host) (v : Val) : Bool := (toStringJs h.numToString v).isSome

/-! ## Default state -/

/-- The object `DEFAULT_STATE.adv`. -/
def DEFAULT_ADV : Props :=
  [("showHex", .bool false),
   ("speedMult", .int 1),
   ("font", .str "Inter,system-ui,Arial"),
   ("disableOrbits", .bool true),
   ("partyGlobal", .bool false),
   ("lockLayout", .bool false),
   ("keybinds", .obj [("modifier", .str "ctrl"), ("undo", .str "z"), ("redo", .str "y")])]

/-- The object `DEFAULT_STATE`. -/
def DEFAULT_STATE : Props :=
  [("systems", .obj []),
   ("current", .null),
   ("editMode", .bool false),
   ("linkMode", .bool true),
   ("adv", .obj DEFAULT_ADV)]

/-! ## State load and migration -/

/-- The orbit literal that `migrateLoaded` writes on a planet `p` without one:
`{ radius: Math.hypot(p.x||0, p.y||0) || 200, angle: Math.atan2(p.y||0, p.x||0) || 0,
speed: (p.orbit && p.orbit.speed) || 0.2, rotating: !(merged.adv && merged.adv.disableOrbits),
reverse: false, showRing: false }`. -/
def synthOrbit (h : Host) (adv : Val) (p : Val) : Except JsError Val :=
  let x := (p.get "x").orElse (.int 0)
  let y := (p.get "y").orElse (.int 0)
  if h.coercible x && h.coercible y then
    .ok (.obj
      [("radius", numberOr (h.hypot x y) (.int 200)),
       ("angle", numberOr (h.atan2 y x) (.int 0)),
       ("speed", ((p.get "orbit").andAlso ((p.get "orbit").get "speed")).orElse (.num ⟨2, 1⟩)),
       ("rotating", .bool (!(adv.andAlso (adv.get "disableOrbits")).truthy)),
       ("reverse", .bool false),
       ("showRing", .bool false)])
  else .error .typeError

/-- The callback of `sys.planets.map` in `migrateLoaded`; `n` counts the calls of `uid()`
made so far. -/
def migratePlanet (h : Host) (adv : Val) (p : Val) (n : Nat) : Except JsError (Val × Nat) :=
  if p.isNullish then .error .typeError
  else
    let idOld := p.get "id"
    let p1 := p.set "id" (if idOld.truthy then idOld else .str (h.uid n))
    let n1 := if idOld.truthy then n else n + 1
    let p2 := p1.set "sizePercent" ((p1.get "sizePercent").orElse (.int 18))
    if (p2.get "orbit").truthy then .ok (p2.set "orbit" (p2.get "orbit"), n1)
    else
      match synthOrbit h adv p2 with
      | .ok o => .ok (p2.set "orbit" o, n1)
      | .error e => .error e

/-- The call `sys.planets.map(...)` of `migrateLoaded`, element by element. -/
def migratePlanets (h : Host) (adv : Val) : List Val → Nat → Except JsError (List Val × Nat)
  | [], n => .ok ([], n)
  | p :: ps, n =>
    match migratePlanet h adv p n with
    | .error e => .error e
    | .ok (q, n1) =>
      match migratePlanets h adv ps n1 with
      | .error e => .error e
      | .ok (qs, n2) => .ok (q :: qs, n2)

/-- Body of the final validation loop of `migrateLoaded` for one entry `[id, sys]`. -/
def validateSystem (h : Host) (adv : Val) (id : String) (sys : Val) (n : Nat) :
    Except JsError (Val × Nat) :=
  if sys.isNullish then .error .typeError
  else
    let s1 := sys.set "id" ((sys.get "id").orElse (.str id))
    match s1.get "planets" with
    | .arr items _ =>
      match migratePlanets h adv items n with
      | .error e => .error e
      | .ok (qs, n1) => .ok (s1.set "planets" (.arr qs []), n1)
    | _ => .ok (s1.set "planets" (.arr [] []), n)

/-- The final validation loop of `migrateLoaded` over `Object.entries(merged.systems)`. -/
def validateSystems (h : Host) (adv : Val) : Props → Nat → Except JsError (Props × Nat)
  | [], n => .ok ([], n)
  | (id, sys) :: rest, n =>
    match validateSystem h adv id sys n with
    | .error e => .error e
    | .ok (sys1, n1) =>
      match validateSystems h adv rest n1 with
      | .error e => .error e
      | .ok (rest1, n2) => .ok ((id, sys1) :: rest1, n2)

/-- The loop `loaded.systems.forEach(s => { if(s && s.id) systems[s.id] = s; })`, started
with the properties `acc` of `systems`. -/
def collectArray (h : Host) : List Val → Props → Except JsError Props
  | [], acc => .ok acc
  | s :: rest, acc =>
    if (s.andAlso (s.get "id")).truthy then
      match h.toPropertyKey (s.get "id") with
      | none => .error .typeError
      | some k =>
        if k = "__proto__" then .error .unmodelled
        else collectArray h rest (setProp acc k s)
    else collectArray h rest acc

/-- The value `Array.isArray(v.planets) ? v.planets : (v.planets ? Object.values(v.planets) : [])`. -/
def coercePlanets (planets : Val) : Val :=
  if planets.isArray then planets
  else if planets.truthy then .arr ((ownProps planets).map Prod.snd) []
  else .arr [] []

/-- The two assignments `v.id = v.id || k; v.planets = ...` of the loop over
`Object.entries(loaded.systems)`, giving the updated `v`. -/
def normaliseSystem (k : String) (v : Val) : Val :=
  (v.set "id" ((v.get "id").orElse (.str k))).set "planets"
    (coercePlanets ((v.set "id" ((v.get "id").orElse (.str k))).get "planets"))

/-- The loop over `Object.entries(loaded.systems)` of `migrateLoaded`, started with the
properties `acc` of `systems`. -/
def collectMapping : Props → Props → Except JsError Props
  | [], acc => .ok acc
  | (k, v) :: rest, acc =>
    if !v.truthy then collectMapping rest acc
    else if k = "__proto__" then
      if (normaliseSystem k v).isObject then .error .unmodelled else collectMapping rest acc
    else collectMapping rest (setProp acc k (normaliseSystem k v))

/-- The block `if(loaded && loaded.systems){ ... }` of `migrateLoaded`: the own properties
of the local `systems`. -/
def collectSystems (h : Host) (loaded : Val) : Except JsError Props :=
  let ls := loaded.andAlso (loaded.get "systems")
  if ls.truthy then
    match ls with
    | .arr items _ => collectArray h items []
    | .obj ps => collectMapping ps []
    | _ => .ok []
  else .ok []

/-- The value `Object.keys(systems)[0] || null`. -/
def firstKeyOrNull (systems : Props) : Val :=
  match systems with
  | [] => .null
  | (k, _) :: _ => (Val.str k).orElse .null

/-- The last statement of `migrateLoaded`: `if(!merged.current || !merged.systems[merged.current])
merged.current = Object.keys(merged.systems)[0] || null;` giving the new `current`. -/
def ensureCurrent (h : Host) (current : Val) (systems : Props) : Except JsError Val :=
  if !current.truthy then .ok (firstKeyOrNull systems)
  else
    match h.toPropertyKey current with
    | none => .error .typeError
    | some k => if truthyAt systems k then .ok current else .ok (firstKeyOrNull systems)

/-- The function `migrateLoaded(loaded)`; `n` counts the calls of `uid()` made before,
and the result carries the count after. -/
def migrateLoaded (h : Host) (loaded : Val) (n : Nat) : Except JsError (Val × Nat) :=
  let merged0 := objectAssign (objectAssign [] DEFAULT_STATE) (ownProps (loaded.orElse (.obj [])))
  let adv := Val.obj (objectAssign (objectAssign [] DEFAULT_ADV)
    (ownProps ((loaded.andAlso (loaded.get "adv")).orElse (.obj []))))
  let merged1 := setProp merged0 "adv" adv
  match collectSystems h loaded with
  | .error e => .error e
  | .ok systems =>
    match validateSystems h adv systems n with
    | .error e => .error e
    | .ok (systems1, n1) =>
      let merged2 := setProp merged1 "systems" (.obj systems1)
      match ensureCurrent h ((lookupProp merged2 "current").getD .undefined) systems1 with
      | .error e => .error e
      | .ok cur => .ok (.obj (setProp merged2 "current" cur), n1)

/-! ## Parsed JSON and the layout of object keys -/

mutual
/-- Whether a value is a tree that `JSON.parse` can return: no `undefined` inside, no named
property on an array. -/
def Val.isJson : Val → Bool
  | .undefined => false
  | .null => true
  | .bool _ => true
  | .num _ => true
  | .str _ => true
  | .arr items ps => isJsonItems items && ps.isEmpty
  | .obj ps => isJsonMembers ps
/-- All items are JSON trees. -/
def isJsonItems : List Val → Bool
  | [] => true
  | v :: vs => v.isJson && isJsonItems vs
/-- All member values are JSON trees. -/
def isJsonMembers : List (String × Val) → Bool
  | [] => true
  | (_, v) :: ps => v.isJson && isJsonMembers ps
end

/-- True for plain objects only. -/
def Val.isPlainObject : Val → Bool
  | .obj _ => true
  | _ => false

/-- The items of `sys.planets` when it is an array. -/
def planetItems (sys : Val) : List Val :=
  match sys.get "planets" with
  | .arr items _ => items
  | _ => []

/-- Whether every planet entry of every system of the state object `m` is a plain object. -/
def planetsAreObjects (m : Val) : Bool :=
  (ownProps (m.get "systems")).all fun kv => (planetItems kv.2).all Val.isPlainObject

/-- Keys of a property list, in order. -/
def keysOf (ps : Props) : List String := ps.map Prod.fst

/-- The index of a key, `0` for a key that is not an index. -/
def indexOf (k : String) : Nat := (arrayIndex k).getD 0

/-- The key list `K` has the layout of an object that started with the string keys `B`:
index keys in ascending order, then `B`, then the other string keys; no key twice. -/
def CanonKeys (B K : List String) : Prop :=
  ∃ I R, K = I ++ (B ++ R) ∧ (∀ k ∈ I, (arrayIndex k).isSome = true) ∧
    I.Pairwise (fun a b => indexOf a ≤ indexOf b) ∧
    (∀ k ∈ B ++ R, arrayIndex k = none) ∧ K.Nodup

/-! ## State factories and default data -/

/-- The factory `makeSystem(name, sunColor)` called while `state.adv` is `adv` (an
object) and `uid()` has been called `n` times. -/
def makeSystem (h : Host) (adv : Val) (name sunColor : String) (n : Nat) : Val :=
  .obj
    [("id", .str (h.uid n)),
     ("name", .str name),
     ("sunColor", .str sunColor),
     ("bgSolid", .str "#06102a"),
     ("bgGradient", .str "#08122f"),
     ("bgAngle", .int 120),
     ("outlineColor", .str "#111111"),
     ("partyMode", .bool false),
     ("font", adv.get "font"),
     ("planets", .arr [] [])]

/-- The factory `makePlanet(name, url, x, y, size, color, shape, outline, outlineColor)` as
its call sites use it: string `name`, `url`, `color`, `shape`, `outlineColor` and numeric `x`,
`y`, `size`, `outline`.  `n` counts the calls of `uid()` and `r` those of `Math.random()` made
so far; the result carries the count of `Math.random()` calls after. -/
def makePlanet (h : Host) (adv : Val) (name url : String) (x y size : Num) (color shape : String)
    (outline : Num) (outlineColor : String) (n r : Nat) : Val × Nat :=
  let r1 := if (Val.str color).truthy then r else r + 3
  (.obj
    [("id", .str (h.uid n)),
     ("name", (Val.str name).orElse (.str "New Planet")),
     ("url", (Val.str url).orElse (.str "")),
     ("x", (Val.num x).orElse (.int 0)),
     ("y", (Val.num y).orElse (.int 0)),
     ("sizePercent", (Val.num size).orElse (.int 18)),
     ("color", (Val.str color).orElse (.str (h.randomColorHsl r))),
     ("shape", (Val.str shape).orElse (.str "circle")),
     ("outlineThickness", .num outline),
     ("outlineColor", (Val.str outlineColor).orElse (.str "#ffffff")),
     ("opacity", .int 1),
     ("orbit", .obj
       [("radius", numberOr (h.hypot (.num x) (.num y)) (.int 200)),
        ("angle", numberOr (h.atan2 (.num y) (.num x)) (.int 0)),
        ("speed", .num (h.orbitSpeed r1)),
        ("rotating", .bool (!(adv.get "disableOrbits").truthy)),
        ("reverse", .bool false),
        ("showRing", .bool false)]),
     ("spin", .obj [("enabled", .bool false), ("speed", .num ⟨5, 1⟩)])], r1 + 1)

/-- The statement `sys.planets.push(p)` on a system held by value. -/
def pushPlanet (sys p : Val) : Val :=
  match sys.get "planets" with
  | .arr items ps => sys.set "planets" (.arr (items ++ [p]) ps)
  | _ => sys

/-- The statement `systems[k].planets.push(p)` on the own properties of `systems`. -/
def pushPlanetAt (systems : Props) (k : String) (p : Val) : Props :=
  match lookupProp systems k with
  | some sys => setProp systems k (pushPlanet sys p)
  | none => systems

/-! ## History -/

/-- The running application: the global `state`, the history stacks (top last), the
suppression flag, and the numbers of `uid()` and `Math.random()` calls made so far. -/
structure App where
  state : AppState
  __history : List Val
  __future : List Val
  __suppressHistory : Bool
  uidCount : Nat
  randCount : Nat
deriving DecidableEq, Repr

/-- The constant `__HIST_MAX`. -/
def __HIST_MAX : Nat := 50

/-- The text `JSON.stringify({ systems: state.systems, current: state.current, adv: state.adv })`. -/
def snapshotText (st : AppState) : Val :=
  jsonStringify (.obj [("systems", st.systems), ("current", st.current), ("adv", st.adv)])

/-- The function `__snapshot(label)`. -/
def __snapshot (app : App) : App :=
  if app.__suppressHistory then app
  else
    let snap := snapshotText app.state
    if app.__history.getLast? = some snap then app
    else
      let pushed := app.__history ++ [snap]
      let kept := if pushed.length > __HIST_MAX then pushed.tail else pushed
      { app with __history := kept, __future := [] }

/-- The wrapped `save()`: the original write to `localStorage` (which changes nothing
here and whose failure is caught), then `__snapshot('save')`. -/
def save (app : App) : App := __snapshot app

/-- The state that `createDefaultSystems()` builds before it saves, with the count of
`Math.random()` calls after. -/
def defaultSystemsState (h : Host) (n r : Nat) : AppState × Nat :=
  let adv := Val.obj DEFAULT_ADV
  let w := h.uid n
  let p := h.uid (n + 1)
  let s0 : Props := []
  let s1 := setProp s0 w (makeSystem h adv "School" "#ffcc00" (n + 2))
  let s2 := setProp s1 p (makeSystem h adv "Personal" "#ff9900" (n + 3))
  let email := makePlanet h adv "Email" "https://mail.google.com"
    ⟨200, 0⟩ ⟨0, 0⟩ ⟨15, 0⟩ "#4285F4" "circle" ⟨2, 0⟩ "#111" (n + 4) r
  let s3 := pushPlanetAt s2 w email.1
  let calendar := makePlanet h adv "Calendar" "https://calendar.google.com"
    ⟨0, 0⟩ ⟨200, 0⟩ ⟨15, 0⟩ "#EA4335" "diamond" ⟨2, 0⟩ "#111" (n + 5) email.2
  let s4 := pushPlanetAt s3 w calendar.1
  let drive := makePlanet h adv "Drive" "https://drive.google.com"
    ⟨-200, 0⟩ ⟨0, 0⟩ ⟨15, 0⟩ "#34A853" "square" ⟨2, 0⟩ "#111" (n + 6) calendar.2
  let s5 := pushPlanetAt s4 w drive.1
  ({ systems := .obj s5, current := .str w, editMode := .bool false, linkMode := .bool true,
     adv := adv, extra := [] }, drive.2)

/-- The function `createDefaultSystems()`, with the wrapped `save()` at its end. -/
def createDefaultSystems (h : Host) (app : App) : App :=
  save { app with
    state := (defaultSystemsState h app.uidCount app.randCount).1,
    uidCount := app.uidCount + 7,
    randCount := (defaultSystemsState h app.uidCount app.randCount).2 }

/-- The effect of `renderTabs()` on the application: default systems are created when
`state.systems` is missing or has no key. -/
def renderTabs (h : Host) (app : App) : App :=
  if !app.state.systems.truthy || (ownProps app.state.systems).isEmpty then
    createDefaultSystems h app
  else app

/-- The effect of `renderAll()` on the application when drawing does not raise. -/
def renderAll (h : Host) (app : App) : App := renderTabs h app

/-- The three assignments of `performUndo` and `performRedo` that apply a parsed snapshot:
`state.systems = parsed.systems || {}`, `state.current = parsed.current ||
Object.keys(state.systems)[0] || null`, `state.adv = Object.assign({}, state.adv, parsed.adv || {})`. -/
def applyParsed (st : AppState) (parsed : Val) : AppState :=
  let systems := (parsed.get "systems").orElse (.obj [])
  { st with
    systems := systems,
    current := (parsed.get "current").orElse (firstKeyOrNull (ownProps systems)),
    adv := .obj (objectAssign (objectAssign [] (ownProps st.adv))
      (ownProps ((parsed.get "adv").orElse (.obj [])))) }

/-- The block guarded by `if(prev)` / `if(next)`: apply the text `text` with history
suppressed, draw, clear the flag and save; a raise in between is caught and only clears
the flag. -/
def applySnapshot (h : Host) (app : App) (text : Val) : App :=
  let parsed := jsonParse text
  if parsed.isNullish then { app with __suppressHistory := false }
  else
    let app1 := { app with __suppressHistory := true, state := applyParsed app.state parsed }
    let app2 := renderAll h app1
    if h.renderRaises app2.state then { app2 with __suppressHistory := false }
    else save { app2 with __suppressHistory := false }

/-- The function `performUndo()`. -/
def performUndo (h : Host) (app : App) : App :=
  match app.__history.getLast? with
  | none => app
  | some prev =>
    applySnapshot h
      { app with
        __future := app.__future ++ [snapshotText app.state],
        __history := app.__history.dropLast }
      prev

/-- The function `performRedo()`. -/
def performRedo (h : Host) (app : App) : App :=
  match app.__future.getLast? with
  | none => app
  | some next => applySnapshot h { app with __future := app.__future.dropLast } next

/-- One user-level event of the history machine: an edit replaces the live state, the
other three call the function of the same name. -/
inductive Action where
  | edit (st : AppState)
  | snapshot
  | undo
  | redo
deriving Repr

/-- Effect of one event. -/
def step (h : Host) (app : App) : Action → App
  | .edit st => { app with state := st }
  | .snapshot => __snapshot app
  | .undo => performUndo h app
  | .redo => performRedo h app

/-- Effect of a sequence of events, first to last. -/
def run (h : Host) (app : App) (actions : List Action) : App := actions.foldl (step h) app

/-- An edit followed by the wrapped `save()`. -/
def editAndSave (app : App) (st : AppState) : App := save { app with state := st }

/-! ## Fixtures -/

/-- Decimal text of a number of the model (plain digits, no exponent form). -/
def decimalText (n : Num) : String :=
  if n.exp = 0 then toString n.mant
  else
    let digits := toString n.mant.natAbs
    let padded := String.mk (List.replicate (n.exp + 1 - digits.length) '0') ++ digits
    (if n.mant < 0 then "-" else "") ++ String.mk (padded.data.take (padded.length - n.exp))
      ++ "." ++ String.mk (padded.data.drop (padded.length - n.exp))

/-- A host whose `uid()` returns `u0`, `u1`, ..., whose `Math.hypot` and `Math.atan2` are
exact on the axes (and `NaN` elsewhere), whose random draws are constant (`Math.random()` is
always 0), whose `Math.cos` and `Math.sin` are exact at 0 (and 0 elsewhere), whose sums,
differences and products are exact and whose quotients are cut after 15 decimals, whose
drawing area is 1000 by 800, and in which drawing never raises. -/
def sampleHost : Host where
  uid := fun n => "u" ++ toString n
  uid_ne := by
    intro n h
    have hl := congrArg String.length h
    simp at hl
    exact absurd hl.1 (by decide)
  uid_plain := by
    intro n h
    have hd := congrArg (fun s => s.data.head?) h
    simp at hd
  numToString := decimalText
  hypot := fun a b =>
    match a, b with
    | .num x, .num y =>
      if y.mant = 0 then some ⟨x.mant.natAbs, x.exp⟩
      else if x.mant = 0 then some ⟨y.mant.natAbs, y.exp⟩ else none
    | _, _ => none
  atan2 := fun y x =>
    match y, x with
    | .num b, .num a =>
      if b.mant = 0 then (if 0 ≤ a.mant then some ⟨0, 0⟩ else some ⟨3141592653589793, 15⟩)
      else if a.mant = 0 then
        (if 0 < b.mant then some ⟨15707963267948966, 16⟩ else some ⟨-15707963267948966, 16⟩)
      else none
    | _, _ => none
  orbitSpeed := fun _ => ⟨3, 1⟩
  randomColorHsl := fun _ => "hsl(200 70% 55%)"
  renderRaises := fun _ => false
  random := fun _ => ⟨0, 0⟩
  cos := fun a => if a.mant = 0 then ⟨1, 0⟩ else ⟨0, 0⟩
  sin := fun _ => ⟨0, 0⟩
  pi := ⟨3141592653589793, 15⟩
  div := fun a b => normDecimal (a.mant * 10 ^ (15 + b.exp) / (b.mant * 10 ^ a.exp)) 15
  add := Num.add
  sub := Num.sub
  mul := Num.mul
  spaceWidth := ⟨1000, 0⟩
  spaceHeight := ⟨800, 0⟩

/-- A state with the single system `a`, named `name`, and default settings. -/
def sampleState (name : String) : AppState :=
  { systems := .obj [("a", .obj [("id", .str "a"), ("name", .str name), ("planets", .arr [] [])])],
    current := .str "a",
    editMode := .bool false,
    linkMode := .bool true,
    adv := .obj DEFAULT_ADV,
    extra := [] }

/-- The application right after start-up on `sampleState "S0"`: the initial snapshot is
the only history entry. -/
def sampleApp : App :=
  { state := sampleState "S0",
    __history := [snapshotText (sampleState "S0")],
    __future := [],
    __suppressHistory := false,
    uidCount := 0,
    randCount := 0 }

/-- The blob `{"systems": {"": {"name": "S"}}}`. -/
def blobEmptyKey : Val := .obj [("systems", .obj [("", .obj [("name", .str "S")])])]

/-- The blob `{"systems": {"a": {"planets": [null]}}}`. -/
def blobNullPlanet : Val := .obj [("systems", .obj [("a", .obj [("planets", .arr [.null] [])])])]

/-- The blob `{"systems": {"a": {"planets": [[]]}}}`. -/
def blobArrayPlanet : Val :=
  .obj [("systems", .obj [("a", .obj [("planets", .arr [.arr [] []] [])])])]

/-- The blob `{"systems": {"a": {"name": "S"}}, "current": "constructor"}`. -/
def blobInheritedCurrent : Val :=
  .obj [("systems", .obj [("a", .obj [("name", .str "S")])]), ("current", .str "constructor")]

/-- The application after the edits `S1` and `S2` of `sampleApp`, each followed by a save. -/
def sampleTimeline : App :=
  editAndSave (editAndSave sampleApp (sampleState "S1")) (sampleState "S2")

/-- An application whose redo stack holds the snapshot of `sampleState "S1"`. -/
def sampleRedoApp : App :=
  { sampleApp with __future := [snapshotText (sampleState "S1")] }

/-! ## Stability under a second migration -/

/-- A planet that `migrateLoaded` has nothing to add to: a plain object with truthy `id`,
`sizePercent` and `orbit`. -/
def StablePlanet (q : Val) : Prop :=
  ∃ ps i s o, q = .obj ps ∧ lookupProp ps "id" = some i ∧ i.truthy = true ∧
    lookupProp ps "sizePercent" = some s ∧ s.truthy = true ∧
    lookupProp ps "orbit" = some o ∧ o.truthy = true

/-- An entry `(k, v)` of a migrated `systems` mapping that a second migration of its
serialisation reproduces without generating an id. -/
def StableSystem (h : Host) (adv : Val) (k : String) (v : Val) : Prop :=
  v.truthy = true ∧ k ≠ "__proto__" ∧
    ∀ n, validateSystem h adv k (normaliseSystem k (jsonStringify v)) n = .ok (v, n)

/-- An entry `(k, u)` as the first loops of `migrateLoaded` store it from parsed JSON. -/
def Collected (k : String) (u : Val) : Prop :=
  k ≠ "__proto__" ∧
    ((∃ v0, v0.isJson = true ∧ v0.truthy = true ∧ u = normaliseSystem k v0) ∨
      (∃ ps i, u = .obj ps ∧ isJsonMembers ps = true ∧ lookupProp ps "id" = some i ∧
        i.truthy = true))

/-- Entries of a stable mapping after serialisation and the mapping loop. -/
def renormalised (l1 : Props) : Props :=
  l1.map fun x => (x.1, normaliseSystem x.1 (jsonStringify x.2))

/-- The blob `{"systems": [{"id": "a", "name": "S", "planets": [{"name": "P", "x": 200}]}],
"current": "gone"}`. -/
def blobPlainPlanet : Val :=
  .obj [("systems", .arr [.obj [("id", .str "a"), ("name", .str "S"),
      ("planets", .arr [.obj [("name", .str "P"), ("x", .int 200)]] [])]] []),
    ("current", .str "gone")]

/-- The state that `migrateLoaded` returns on `blobPlainPlanet` under `sampleHost`. -/
def migratedPlainPlanet : Val :=
  .obj
    [("systems", .obj
      [("a", .obj
        [("id", .str "a"),
         ("name", .str "S"),
         ("planets", .arr
           [.obj
             [("name", .str "P"),
              ("x", .int 200),
              ("id", .str "u0"),
              ("sizePercent", .int 18),
              ("orbit", .obj
                [("radius", .int 200),
                 ("angle", .int 0),
                 ("speed", .num ⟨2, 1⟩),
                 ("rotating", .bool false),
                 ("reverse", .bool false),
                 ("showRing", .bool false)])]] [])])]),
     ("current", .str "a"),
     ("editMode", .bool false),
     ("linkMode", .bool true),
     ("adv", .obj DEFAULT_ADV)]

/-- The state that `migrateLoaded` returns on `blobArrayPlanet` when `uid()` answers `id`:
the planet entry is an array that carries `id`, `sizePercent` and `orbit` as named
properties. -/
def migratedArrayPlanet (id : String) : Val :=
  .obj
    [("systems", .obj
      [("a", .obj
        [("planets", .arr
           [.arr []
             [("id", .str id),
              ("sizePercent", .int 18),
              ("orbit", .obj
                [("radius", .int 200),
                 ("angle", .int 0),
                 ("speed", .num ⟨2, 1⟩),
                 ("rotating", .bool false),
                 ("reverse", .bool false),
                 ("showRing", .bool false)])]] []),
         ("id", .str "a")])]),
     ("current", .str "a"),
     ("editMode", .bool false),
     ("linkMode", .bool true),
     ("adv", .obj DEFAULT_ADV)]

/-! ## Kinematics -/

/-- The elapsed time `dt` that `animate(time)` computes when the global `lastTick` holds
`lastTick`: `if (!lastTick) lastTick = time; const dt = Math.min((time - lastTick)/1000, 0.1);`. -/
def elapsed (time lastTick : Num) : Num :=
  let last := if (Val.num lastTick).truthy then lastTick else time
  Num.min (Num.scale (Num.sub time last) 3) ⟨1, 1⟩

/-- The orbit block of `animate` for one planet `p`, with `state.adv` and `dt` given:
`if(p.orbit && p.orbit.rotating){ const dir = p.orbit.reverse ? -1 : 1; const speed =
(p.orbit.speed || 0.2) * (state.adv.speedMult || 1); p.orbit.angle += dir * speed * dt;
p.x = Math.cos(p.orbit.angle) * p.orbit.radius; p.y = Math.sin(p.orbit.angle) * p.orbit.radius; }`. -/
def animatePlanet (h : Host) (adv : Val) (dt : Num) (p : Val) : Except JsError Val :=
  if p.isNullish then .error .typeError
  else
    let orbit := p.get "orbit"
    if (orbit.andAlso (orbit.get "rotating")).truthy then
      if adv.isNullish then .error .typeError
      else
        let dir : Num := if (orbit.get "reverse").truthy then ⟨-1, 0⟩ else ⟨1, 0⟩
        match ((orbit.get "speed").orElse (.num ⟨2, 1⟩)).toNumber?,
            ((adv.get "speedMult").orElse (.int 1)).toNumber?,
            (orbit.get "angle").toNumber?, (orbit.get "radius").toNumber? with
        | some s, some m, some a, some r =>
          let angle := Num.add a (Num.mul (Num.mul dir (Num.mul s m)) dt)
          let p1 := p.set "orbit" (orbit.set "angle" (.num angle))
          let p2 := p1.set "x" (.num (Num.mul (h.cos angle) r))
          .ok (p2.set "y" (.num (Num.mul (h.sin angle) r)))
        | _, _, _, _ => .error .unmodelled
    else .ok p

/-- The loop `sys.planets.forEach(p => ...)` of `animate`. -/
def animatePlanets (h : Host) (adv : Val) (dt : Num) : List Val → Except JsError (List Val)
  | [] => .ok []
  | p :: ps =>
    match animatePlanet h adv dt p with
    | .error e => .error e
    | .ok q =>
      match animatePlanets h adv dt ps with
      | .error e => .error e
      | .ok qs => .ok (q :: qs)

/-- The function `animate(time)` on the state and the global `lastTick`: the new state and
the new `lastTick`. -/
def animate (h : Host) (st : AppState) (time lastTick : Num) : Except JsError (AppState × Num) :=
  let dt := elapsed time lastTick
  match st.systems with
  | .obj systems =>
    match h.toPropertyKey st.current with
    | none => .error .typeError
    | some k =>
      match lookupProp systems k with
      | some sys =>
        if sys.truthy then
          match sys.get "planets" with
          | .arr items props =>
            match animatePlanets h st.adv dt items with
            | .error e => .error e
            | .ok items1 =>
              .ok ({ st with
                systems := .obj (setProp systems k (sys.set "planets" (.arr items1 props))) },
                time)
          | _ => .error .typeError
        else .ok (st, time)
      | none => if objectPrototypeNames.contains k then .error .typeError else .ok (st, time)
  | other => if other.isNullish then .error .typeError else .error .unmodelled

/-- Successive frames: `requestAnimationFrame(animate)` calls `animate` again with each time
stamp of the list. -/
def animateFrames (h : Host) (st : AppState) (lastTick : Num) :
    List Num → Except JsError (AppState × Num)
  | [] => .ok (st, lastTick)
  | t :: ts =>
    match animate h st t lastTick with
    | .error e => .error e
    | .ok r => animateFrames h r.1 r.2 ts

/-- The planets of the active system `state.systems[state.current]`. -/
def activePlanets (st : AppState) : List Val :=
  match st.systems, st.current with
  | .obj systems, .str k =>
    match lookupProp systems k with
    | some sys => planetItems sys
    | none => []
  | _, _ => []

/-- Whether the orbit block of `animate` applies to the planet: `p.orbit && p.orbit.rotating`. -/
def isRotating (p : Val) : Bool := ((p.get "orbit").andAlso ((p.get "orbit").get "rotating")).truthy

/-- A planet on which a tick of `animate` stays within the model: not `null`, and when it
rotates its angle and radius are numbers, and so are its speed and the speed multiplier
unless they are missing. -/
def tickable (adv : Val) (p : Val) : Bool :=
  !p.isNullish &&
    (!isRotating p ||
      ((((p.get "orbit").get "speed").orElse (.num ⟨2, 1⟩)).toNumber?.isSome &&
        ((adv.get "speedMult").orElse (.int 1)).toNumber?.isSome &&
        ((p.get "orbit").get "angle").toNumber?.isSome &&
        ((p.get "orbit").get "radius").toNumber?.isSome))

/-! ## Floating point -/

/-- What the proofs use of the host's floating point, and what holds of IEEE 754 doubles
under the default rounding (to nearest, a tie going to the even significand): a sum or a
product of natural numbers that does not exceed `2 ^ 53` is exact, and rounding keeps the
order of the exact results, so that a sum is monotone in its second term and a product with a
factor that is not negative is monotone in the other factor. -/
structure Host.Rounds (h : Host) : Prop where
  add_exact : ∀ (a b : Num) (m n : Nat), a.toRat = m → b.toRat = n → m + n ≤ 2 ^ 53 →
    (h.add a b).toRat = m + n
  mul_exact : ∀ (a b : Num) (m n : Nat), a.toRat = m → b.toRat = n → m * n ≤ 2 ^ 53 →
    (h.mul a b).toRat = m * n
  add_mono : ∀ a b c : Num, b.toRat ≤ c.toRat → (h.add a b).toRat ≤ (h.add a c).toRat
  mul_mono : ∀ a b c : Num, 0 ≤ c.toRat → a.toRat ≤ b.toRat →
    (h.mul a c).toRat ≤ (h.mul b c).toRat

/-- The number of binary digits of `n`; `fuel` bounds the recursion, and `n` is enough. -/
def bitLength : Nat → Nat → Nat
  | 0, _ => 0
  | fuel + 1, n => if n = 0 then 0 else bitLength fuel (n / 2) + 1

/-- The integer nearest to `num / den`, a tie going to the even one. -/
def roundHalfEven (num den : Nat) : Nat :=
  if 2 * (num % den) < den then num / den
  else if den < 2 * (num % den) then num / den + 1
  else if num / den % 2 = 0 then num / den else num / den + 1

/-- The exponent `e` for which the doubles around `p / d` are the multiples of `2 ^ e`:
`k - 52` when `2 ^ k ≤ p / d < 2 ^ (k + 1)`, and `-1074` in the subnormal range. -/
def ulpExponent (p d : Nat) : Int :=
  let t : Int := (bitLength p p : Int) - (bitLength d d : Int)
  let k : Int := if d * 2 ^ t.toNat ≤ p * 2 ^ (-t).toNat then t else t - 1
  max (k - 52) (-1074)

/-- The double nearest to `n / d`, a tie going to the even significand (IEEE 754 binary64,
round to nearest even), for a quotient of magnitude below `2 ^ 1024`; a quotient by 0, which
has no finite value, is given 0. -/
def roundDouble (n : Int) (d : Nat) : Num :=
  if n = 0 ∨ d = 0 then ⟨0, 0⟩
  else
    let e := ulpExponent n.natAbs d
    let m := roundHalfEven (n.natAbs * 2 ^ (-e).toNat) (d * 2 ^ e.toNat)
    normDecimal (n.sign * m * 2 ^ e.toNat * 5 ^ (-e).toNat) (-e).toNat

/-- The double nearest to the number `a`: the double that the decimal text of `a` denotes. -/
def nearestDouble (a : Num) : Num := roundDouble a.mant (10 ^ a.exp)

/-- The host `sampleHost` with IEEE 754 arithmetic in place of the exact one, and with
`sample` as the result of every `Math.random()`: each operation reads its operands as
doubles and returns the double nearest to the exact result. -/
def doubleHost (sample : Num) : Host :=
  { sampleHost with
    random := fun _ => sample
    add := fun a b => nearestDouble (Num.add (nearestDouble a) (nearestDouble b))
    sub := fun a b => nearestDouble (Num.sub (nearestDouble a) (nearestDouble b))
    mul := fun a b => nearestDouble (Num.mul (nearestDouble a) (nearestDouble b))
    div := fun a b =>
      roundDouble ((nearestDouble a).mant * 10 ^ (nearestDouble b).exp * (nearestDouble b).mant.sign)
        ((nearestDouble b).mant.natAbs * 10 ^ (nearestDouble a).exp) }

/-! ## Placement -/

/-- The function `calculateSize(percent)` on a number: `Math.max(12, Math.round(vw*(percent/100)))`
with `vw = Math.min(space.clientWidth, space.clientHeight)`. -/
def calculateSize (h : Host) (percent : Num) : Num :=
  Num.max ⟨12, 0⟩
    (Num.round (h.mul (Num.min h.spaceWidth h.spaceHeight) (h.div percent ⟨100, 0⟩)))

/-- The object literal `{ x, y }`. -/
def point (x y : Num) : Val := .obj [("x", .num x), ("y", .num y)]

/-- The value `(sizePx + otherSizePx) / 2 + 8` of `minDist`. -/
def minDist (h : Host) (sizePx otherSizePx : Num) : Num :=
  h.add (h.div (h.add sizePx otherSizePx) ⟨2, 0⟩) ⟨8, 0⟩

/-- The loop `for(const other of existing)` of `findNonOverlapping` for the candidate
`(x, y)`: the final value of `overlap`.  Reading `other.sizePercent` of `null` raises, and so
does the conversion to a number of a size or coordinate that is an object with a `toString`
member of its own.  A distance that is `NaN` compares false. -/
def overlapsAny (h : Host) (sizePx x y : Num) : List Val → Except JsError Bool
  | [] => .ok false
  | other :: rest =>
    if other.isNullish then .error .typeError
    else if !(h.coercible ((other.get "sizePercent").orElse (.int 18)) &&
        h.coercible ((other.get "x").orElse (.int 0)) &&
        h.coercible ((other.get "y").orElse (.int 0))) then .error .typeError
    else
      match ((other.get "sizePercent").orElse (.int 18)).toNumber?,
          ((other.get "x").orElse (.int 0)).toNumber?,
          ((other.get "y").orElse (.int 0)).toNumber? with
      | some pct, some ox, some oy =>
        match h.hypot (.num (h.sub x ox)) (.num (h.sub y oy)) with
        | some dist =>
          if Num.lt dist (minDist h sizePx (calculateSize h pct)) then .ok true
          else overlapsAny h sizePx x y rest
        | none => overlapsAny h sizePx x y rest
      | _, _, _ => .error .unmodelled

/-- The candidate `{ x, y }` of one attempt of `findNonOverlapping`, sampled at `radius`
when `Math.random()` has been called `r` times: `angle = Math.random() * Math.PI * 2`,
`jitter = Math.random() * 30 - 15`, `x = Math.cos(angle) * radius + jitter`,
`y = Math.sin(angle) * radius + jitter`. -/
def candidate (h : Host) (radius : Num) (r : Nat) : Num × Num :=
  let angle := h.mul (h.mul (h.random r) h.pi) ⟨2, 0⟩
  let jitter := h.sub (h.mul (h.random (r + 1)) ⟨30, 0⟩) ⟨15, 0⟩
  (h.add (h.mul (h.cos angle) radius) jitter, h.add (h.mul (h.sin angle) radius) jitter)

/-- The loop `for(let attempt=0; attempt<maxAttempts; attempt++)` of `findNonOverlapping`
from the iteration `attempt` on, with `fuel` iterations left, the current `radius`, and `r`
calls of `Math.random()` made so far; past the last iteration, the fallback
`{ x: radius, y: 0 }`.  The result carries the count of `Math.random()` calls. -/
def placeLoop (h : Host) (existing : List Val) (sizePx : Num) :
    Nat → Nat → Num → Nat → Except JsError (Val × Nat)
  | 0, _, radius, r => .ok (point radius ⟨0, 0⟩, r)
  | fuel + 1, attempt, radius, r =>
    match overlapsAny h sizePx (candidate h radius r).1 (candidate h radius r).2 existing with
    | .error e => .error e
    | .ok false => .ok (point (candidate h radius r).1 (candidate h radius r).2, r + 2)
    | .ok true =>
      placeLoop h existing sizePx fuel (attempt + 1)
        (if attempt % 30 = 0 then h.add radius ⟨40, 0⟩ else radius) (r + 2)

/-- The function `findNonOverlapping(sys, sizePx)` when `Math.random()` has been called `r`
times; the result carries the count after. -/
def findNonOverlapping (h : Host) (sys : Val) (sizePx : Num) (r : Nat) :
    Except JsError (Val × Nat) :=
  if !sys.truthy then .ok (point ⟨200, 0⟩ ⟨0, 0⟩, r)
  else
    match (sys.get "planets").orElse (.arr [] []) with
    | .arr items _ => placeLoop h items sizePx 800 0 ⟨140, 0⟩ r
    | .str s => placeLoop h (s.data.map fun c => Val.str (String.singleton c)) sizePx 800 0 ⟨140, 0⟩ r
    | _ => .error .typeError

/-- The radius at which attempt `k` samples when the attempts before it were all rejected:
140 at first, and `radius += 40` after each of the attempts 0, 30, 60, ... -/
def radiusAt (h : Host) : Nat → Num
  | 0 => ⟨140, 0⟩
  | k + 1 => if k % 30 = 0 then h.add (radiusAt h k) ⟨40, 0⟩ else radiusAt h k

/-- A planet entry whose size and position `findNonOverlapping` reads as numbers: an entry
other than `null` and `undefined` whose `sizePercent`, `x` and `y` are each a number, a
boolean, `null` or missing. -/
def placeable (p : Val) : Bool :=
  !p.isNullish && ((p.get "sizePercent").orElse (.int 18)).toNumber?.isSome &&
    ((p.get "x").orElse (.int 0)).toNumber?.isSome &&
    ((p.get "y").orElse (.int 0)).toNumber?.isSome

/-- A planet of size 18 % at `(x, -15)`. -/
def planetAt (id : String) (x : Val) : Val :=
  .obj [("id", .str id), ("x", x), ("y", .int (-15)), ("sizePercent", .int 18),
    ("orbit", .obj
       [("radius", .int 200),
        ("angle", .int 0),
        ("speed", .num ⟨2, 1⟩),
        ("rotating", .bool false),
        ("reverse", .bool false),
        ("showRing", .bool false)])]

/-! ## Fixtures for kinematics and placement -/

/-- A planet at `(x, y)` on a rotating orbit of radius 200 with the given speed and angle. -/
def orbitPlanet (x y : Val) (speed angle : Num) : Val :=
  .obj
    [("id", .str "p"),
     ("x", x),
     ("y", y),
     ("sizePercent", .int 18),
     ("orbit", .obj
       [("radius", .int 200),
        ("angle", .num angle),
        ("speed", .num speed),
        ("rotating", .bool true),
        ("reverse", .bool false),
        ("showRing", .bool false)])]

/-- The planet `orbitPlanet` on its orbit at `angle`, where the host `h` puts it. -/
def orbitPlanetAt (h : Host) (speed angle : Num) : Val :=
  orbitPlanet (.num (Num.mul (h.cos angle) ⟨200, 0⟩)) (.num (Num.mul (h.sin angle) ⟨200, 0⟩))
    speed angle

/-- A state whose only system `a` holds the single planet `p`; the speed multiplier is 1. -/
def orbitState (p : Val) : AppState :=
  { systems := .obj [("a", .obj [("id", .str "a"), ("name", .str "S"), ("planets", .arr [p] [])])],
    current := .str "a",
    editMode := .bool false,
    linkMode := .bool true,
    adv := .obj DEFAULT_ADV,
    extra := [] }

/-- Ten time stamps 16 ms apart, the first 16 ms after 1000. -/
def frameTimes : List Num :=
  [⟨1016, 0⟩, ⟨1032, 0⟩, ⟨1048, 0⟩, ⟨1064, 0⟩, ⟨1080, 0⟩,
   ⟨1096, 0⟩, ⟨1112, 0⟩, ⟨1128, 0⟩, ⟨1144, 0⟩, ⟨1160, 0⟩]

/-- A planet of size 18 % at `(x, -15)`. -/
def planetOnAxis (id : String) (x : Int) : Val :=
  .obj [("id", .str id), ("x", .int x), ("y", .int (-15)), ("sizePercent", .int 18)]

/-- A system with one planet at `(125, -15)`, where `sampleHost` puts the first candidate. -/
def blockedSystem : Val :=
  .obj [("id", .str "a"), ("name", .str "S"), ("planets", .arr [planetOnAxis "p" 125] [])]

/-! ## Auto-arrange -/

/-- The callback of `sys.planets.forEach((p,i) => ...)` in `autoArrange` for the planet `p`
at index `i` of `count` planets, when `Math.random()` has been called `r` times:
`ring = Math.floor(i/8)`, `spacing = 2*Math.PI/(Math.min(8,count))`,
`angle = (i * spacing) + (ring * 0.3)`, `radius = base + ring*gap + (Math.random()*30)`, then
the writes to `p.orbit`, `p.x` and `p.y`. -/
def arrangePlanet (h : Host) (adv : Val) (count i : Nat) (p : Val) (r : Nat) :
    Except JsError Val :=
  let ring := i / 8
  let spacing := h.div (h.mul ⟨2, 0⟩ h.pi) ⟨(min 8 count : Nat), 0⟩
  let angle := h.add (h.mul ⟨(i : Nat), 0⟩ spacing) (h.mul ⟨(ring : Nat), 0⟩ ⟨3, 1⟩)
  let radius := h.add (h.add ⟨180, 0⟩ (h.mul ⟨(ring : Nat), 0⟩ ⟨70, 0⟩))
    (h.mul (h.random r) ⟨30, 0⟩)
  if p.isNullish then .error .typeError
  else if !(p.get "orbit").truthy && adv.isNullish then .error .typeError
  else
    let p1 := p.set "orbit" ((p.get "orbit").orElse (.obj
      [("radius", .num radius),
       ("angle", .num angle),
       ("speed", .num ⟨2, 1⟩),
       ("rotating", .bool (!(adv.get "disableOrbits").truthy)),
       ("reverse", .bool false),
       ("showRing", .bool false)]))
    let orbit := p1.get "orbit"
    if orbit.isNullish then .error .typeError
    else
      let p2 := p1.set "orbit" ((orbit.set "radius" (.num radius)).set "angle" (.num angle))
      let p3 := p2.set "x" (.num (h.mul (h.cos angle) radius))
      .ok (p3.set "y" (.num (h.mul (h.sin angle) radius)))

/-- The loop `sys.planets.forEach((p,i) => ...)` of `autoArrange` from index `i` on; the
result carries the count of `Math.random()` calls. -/
def arrangeFrom (h : Host) (adv : Val) (count : Nat) :
    Nat → List Val → Nat → Except JsError (List Val × Nat)
  | _, [], r => .ok ([], r)
  | i, p :: ps, r =>
    match arrangePlanet h adv count i p r with
    | .error e => .error e
    | .ok q =>
      match arrangeFrom h adv count (i + 1) ps (r + 1) with
      | .error e => .error e
      | .ok (qs, r1) => .ok (q :: qs, r1)

/-- The function `autoArrange(sys)` while `state.adv` is `adv` and `Math.random()` has been
called `r` times: the updated system and the count after. -/
def autoArrange (h : Host) (adv : Val) (sys : Val) (r : Nat) : Except JsError (Val × Nat) :=
  if sys.isNullish then .error .typeError
  else
    match sys.get "planets" with
    | .arr items props =>
      if items.isEmpty then .ok (sys, r)
      else
        match arrangeFrom h adv items.length 0 items r with
        | .error e => .error e
        | .ok (items1, r1) => .ok (sys.set "planets" (.arr items1 props), r1)
    | .undefined => .error .typeError
    | .null => .error .typeError
    | .str s => if s = "" then .ok (sys, r) else .error .typeError
    | .obj ps =>
      if ((lookupProp ps "length").getD .undefined).truthy then .error .typeError
      else .ok (sys, r)
    | _ => .ok (sys, r)

/-- A planet entry on which `autoArrange` can write: an object or array whose `orbit` is
missing, falsy, or itself an object or array. -/
def arrangeable (p : Val) : Bool :=
  p.isObject && (!(p.get "orbit").truthy || (p.get "orbit").isObject)

/-! ## Fixtures for placement and auto-arrange in floating point -/

/-- A system whose only planet is `p`. -/
def systemOf (p : Val) : Val :=
  .obj [("id", .str "a"), ("name", .str "S"), ("planets", .arr [p] [])]

/-- The file `{"systems": {"a": sys}}` as parsed. -/
def fileOf (sys : Val) : Val := .obj [("systems", .obj [("a", sys)])]

/-- The largest double below 1, `1 - 2 ^ -53`. -/
def belowOne : Num := ⟨99999999999999988897769753748434595763683319091796875, 53⟩

/-- The double `-(27 - 2 ^ -48)`, next to -27 on the side of 0. -/
def aboveMinus27 : Num := ⟨-26999999999999996447286321199499070644378662109375, 48⟩

/-- A planet with an orbit whose `x` is the object `{"toString": 1}`. -/
def objectXPlanet : Val := planetAt "p" (.obj [("toString", .int 1)])

/-- A planet whose `orbit` is the string `"x"`. -/
def textOrbitPlanet : Val :=
  .obj [("id", .str "p"), ("x", .int 0), ("y", .int 0), ("sizePercent", .int 18),
    ("orbit", .str "x")]

/-! ## Dragging -/

/-- What the `mousemove` listeners read from the event and the DOM: the pointer position
`e.clientX`, `e.clientY`, the corner `rect.left`, `rect.top` of `space.getBoundingClientRect()`,
the global `dragOffset`, the size `el.clientWidth`, `el.clientHeight` of the element of the
dragged planet, and whether `elementCache.get(dragging.id)` finds that element. -/
structure PointerMove where
  clientX : Num
  clientY : Num
  rectLeft : Num
  rectTop : Num
  offsetX : Num
  offsetY : Num
  elWidth : Num
  elHeight : Num
  hasElement : Bool
deriving DecidableEq, Repr

/-- The `mousemove` listener of the section "Interaction: dragging", on the planet object
that the global `dragging` refers to (`null` when nothing is dragged): that object after the
listener.  Its last statement, `save()`, does not change the planet. -/
def dragHandler (h : Host) (st : AppState) (ev : PointerMove) (dragging : Val) :
    Except JsError Val :=
  if (dragging.andAlso st.editMode).truthy then
    if st.systems.isNullish then .error .typeError
    else
      match h.toPropertyKey st.current with
      | none => .error .typeError
      | some _ =>
        if !ev.hasElement then .ok dragging
        else
          let x := clamp (Num.sub (Num.sub ev.clientX ev.rectLeft) ev.offsetX) ⟨0, 0⟩
            (Num.sub h.spaceWidth ev.elWidth)
          let y := clamp (Num.sub (Num.sub ev.clientY ev.rectTop) ev.offsetY) ⟨0, 0⟩
            (Num.sub h.spaceHeight ev.elHeight)
          let px := Num.sub (Num.add x (Num.half ev.elWidth)) (Num.half h.spaceWidth)
          let py := Num.sub (Num.add y (Num.half ev.elWidth)) (Num.half h.spaceHeight)
          let d1 := (dragging.set "x" (.num px)).set "y" (.num py)
          if (d1.get "orbit").truthy then
            match d1.get "x", d1.get "y" with
            | .num ax, .num ay =>
              match h.hypot (.num ax) (.num ay), h.atan2 (.num ay) (.num ax) with
              | some radius, some angle =>
                .ok (d1.set "orbit"
                  (((d1.get "orbit").set "radius" (.num radius)).set "angle" (.num angle)))
              | _, _ => .error .unmodelled
            | _, _ => .error .unmodelled
          else .ok d1
  else .ok dragging

/-- The condition of the capture-phase `mousemove` listener of the section "Lock layout":
`state.adv && state.adv.lockLayout && state.editMode && window.dragging`.  Its body only
shows the toast "Layout is locked". -/
def lockGuardFires (st : AppState) (windowDragging : Val) : Bool :=
  (((st.adv.andAlso (st.adv.get "lockLayout")).andAlso st.editMode).andAlso
    windowDragging).truthy

/-- A `mousemove` event: the capture-phase listener of "Lock layout" runs first and the
listener of "Interaction: dragging" after it.  The first reads `window.dragging`, which is
`undefined` because the global `dragging` is declared with `let`; it neither changes the
state nor stops the event.  The result is the dragged planet after both listeners, and
whether the toast was requested. -/
def mouseMove (h : Host) (st : AppState) (ev : PointerMove) (dragging : Val) :
    Except JsError (Val × Bool) :=
  match dragHandler h st ev dragging with
  | .error e => .error e
  | .ok d => .ok (d, lockGuardFires st .undefined)

/-! ## System actions -/

/-- The statement `delete o[k]` on the own properties of `o`. -/
def removeProp : Props → String → Props
  | [], _ => []
  | (k2, v) :: rest, k => if k2 = k then rest else (k2, v) :: removeProp rest k

/-- The comparison `a === b`; two objects are taken to be distinct objects. -/
def Val.strictEq : Val → Val → Bool
  | .undefined, .undefined => true
  | .null, .null => true
  | .bool a, .bool b => a == b
  | .num a, .num b => decide (a.mant * 10 ^ b.exp = b.mant * 10 ^ a.exp)
  | .str a, .str b => a == b
  | _, _ => false

/-- The click listener of the `.btn-del` button of the tab drawn for the system object `sys`,
with the dialog confirmed: `if(Object.keys(state.systems).length <= 1){ ...; return; }`, then
`delete state.systems[sys.id]; if(state.current === sys.id) state.current =
Object.keys(state.systems)[0] || null; renderAll(); save();`.  A raise while drawing ends the
listener before `save()`. -/
def deleteSystem (h : Host) (app : App) (sys : Val) : Except JsError App :=
  match app.state.systems with
  | .obj systems =>
    if systems.length ≤ 1 then .ok app
    else if sys.isNullish then .error .typeError
    else
      match toStringJs h.numToString (sys.get "name"), h.toPropertyKey (sys.get "id") with
      | some _, some k =>
        let systems1 := removeProp systems k
        let current1 :=
          if app.state.current.strictEq (sys.get "id") then firstKeyOrNull systems1
          else app.state.current
        let app1 := renderAll h
          { app with state := { app.state with systems := .obj systems1, current := current1 } }
        if h.renderRaises app1.state then .ok app1 else .ok (save app1)
      | _, _ => .error .typeError
  | other => if other.isNullish then .error .typeError else .error .unmodelled

/-- The loop `Object.entries(state.systems).forEach(([id,sys]) => { if(sys && sys.id){
sys.id = id; valid[id]=sys; } })` of `repairSystems`, started with the properties `acc` of
`valid`. -/
def collectValid : Props → Props → Except JsError Props
  | [], acc => .ok acc
  | (id, sys) :: rest, acc =>
    if (sys.andAlso (sys.get "id")).truthy then
      if id = "__proto__" then .error .unmodelled
      else collectValid rest (setProp acc id (sys.set "id" (.str id)))
    else collectValid rest acc

/-- The function `repairSystems()`: entries of `state.systems` that are falsy or not objects
are deleted, `current` is reselected when it is falsy or does not name a truthy entry, the
systems with a truthy `id` are copied to a fresh object with `id` set to their key, then
`save()` and `renderAll()`. -/
def repairSystems (h : Host) (app : App) : Except JsError App :=
  match app.state.systems with
  | .obj systems =>
    let kept := systems.filter fun kv => kv.2.truthy && kv.2.isObject
    match ensureCurrent h app.state.current kept with
    | .error e => .error e
    | .ok current1 =>
      match collectValid kept [] with
      | .error e => .error e
      | .ok valid =>
        .ok (renderAll h (save
          { app with state := { app.state with systems := .obj valid, current := current1 } }))
  | other => if other.isNullish then .error .typeError else .error .unmodelled

/-- The click listener of the tab drawn for the system object `sys`, for a click outside its
two buttons: `if(state.systems[sys.id]){ state.current = sys.id; renderAll(); save(); } else
{ toast('System not found - repairing'); repairSystems(); }`. -/
def selectTab (h : Host) (app : App) (sys : Val) : Except JsError App :=
  match app.state.systems with
  | .obj systems =>
    if sys.isNullish then .error .typeError
    else
      match h.toPropertyKey (sys.get "id") with
      | none => .error .typeError
      | some k =>
        if truthyAt systems k then
          let app1 := renderAll h { app with state := { app.state with current := sys.get "id" } }
          if h.renderRaises app1.state then .ok app1 else .ok (save app1)
        else repairSystems h app
  | other => if other.isNullish then .error .typeError else .error .unmodelled

/-! ## Export and import -/

/-- The names of the five fields of the state. -/
def stateFields : List String := ["systems", "current", "editMode", "linkMode", "adv"]

/-- The own properties of the global `state` object. -/
def stateObject (st : AppState) : Props :=
  [("systems", st.systems), ("current", st.current), ("editMode", st.editMode),
   ("linkMode", st.linkMode), ("adv", st.adv)] ++ st.extra

/-- The state held by an object, as the assignment `state = merged` installs it. -/
def stateOfObject (m : Val) : AppState :=
  { systems := m.get "systems",
    current := m.get "current",
    editMode := m.get "editMode",
    linkMode := m.get "linkMode",
    adv := m.get "adv",
    extra := (ownProps m).filter fun kv => !stateFields.contains kv.1 }

/-- The text that `exportSystems()` puts in the downloaded file:
`JSON.stringify(state, null, 2)`. -/
def exportSystems (st : AppState) : Val := jsonStringify (.obj (stateObject st))

/-- The value `Object.keys(systems)[0]`. -/
def firstKey (systems : Props) : Val :=
  match systems with
  | [] => .undefined
  | (k, _) :: _ => .str k

/-- The `reader.onload` handler of `importSystems()` on the text of the chosen file:
`const imported = JSON.parse(...); if(!imported || !imported.systems) throw ...; const merged
= migrateLoaded(imported); state = merged; state.current = state.current ||
Object.keys(state.systems)[0]; renderAll(); save();` inside `try`, whose `catch` only shows a
toast. -/
def importSystems (h : Host) (app : App) (text : Val) : Except JsError App :=
  let imported := jsonParse text
  if !(imported.andAlso (imported.get "systems")).truthy then .ok app
  else
    match migrateLoaded h imported app.uidCount with
    | .error .typeError => .ok app
    | .error .unmodelled => .error .unmodelled
    | .ok (merged, n1) =>
      let st := stateOfObject merged
      let app1 := renderAll h
        { app with
          state := { st with current := st.current.orElse (firstKey (ownProps st.systems)) },
          uidCount := n1 }
      if h.renderRaises app1.state then .ok app1 else .ok (save app1)

/-- A system entry `(k, v)` of a valid state: a JSON object with a truthy `id` whose
`planets` is an array of objects that each have a truthy `id`, `sizePercent` and `orbit`. -/
def ValidSystem (k : String) (v : Val) : Prop :=
  k ≠ "__proto__" ∧
    ∃ ps i qs, v = .obj ps ∧ isJsonMembers ps = true ∧ lookupProp ps "id" = some i ∧
      i.truthy = true ∧ lookupProp ps "planets" = some (.arr qs []) ∧ ∀ q ∈ qs, StablePlanet q

/-- An already-valid state: every value is JSON (no `undefined`, finite numbers); the keys
of the state, of `adv` and of `systems` are laid out as the application builds them (index
keys ascending first, the default keys next, none twice, none `__proto__`); every system is
a `ValidSystem`; and `current` is a non-empty string that is a key of `systems`. -/
def ValidState (st : AppState) : Prop :=
  isJsonMembers (stateObject st) = true ∧
    CanonKeys (keysOf DEFAULT_STATE) (keysOf (stateObject st)) ∧
    "__proto__" ∉ keysOf (stateObject st) ∧
    ∃ PA L c, st.adv = .obj PA ∧ CanonKeys (keysOf DEFAULT_ADV) (keysOf PA) ∧
      "__proto__" ∉ keysOf PA ∧
      st.systems = .obj L ∧ CanonKeys [] (keysOf L) ∧ (∀ e ∈ L, ValidSystem e.1 e.2) ∧
      st.current = .str c ∧ c ≠ "" ∧ (lookupProp L c).isSome = true

/-! ## Fixtures for auto-arrange, dragging and system actions -/

/-- A system with the planets `p` (on an orbit) and `q` (without one). -/
def pairSystem : Val :=
  .obj [("id", .str "a"), ("name", .str "S"),
    ("planets", .arr [orbitPlanet (.int 200) (.int 0) ⟨5, 1⟩ ⟨0, 0⟩,
      .obj [("id", .str "q"), ("x", .int 0), ("y", .int 0)]] [])]

/-- A state in edit mode with `adv.lockLayout` on, whose system `a` holds the planet `p`. -/
def lockedState (p : Val) : AppState :=
  { systems := .obj [("a", .obj [("id", .str "a"), ("name", .str "S"), ("planets", .arr [p] [])])],
    current := .str "a",
    editMode := .bool true,
    linkMode := .bool false,
    adv := .obj (setProp DEFAULT_ADV "lockLayout" (.bool true)),
    extra := [] }

/-- A pointer at `(700, 350)` over a drawing area whose corner is the origin, dragging an
element 100 px wide that was grabbed at its corner. -/
def samplePointer : PointerMove :=
  { clientX := ⟨700, 0⟩, clientY := ⟨350, 0⟩, rectLeft := ⟨0, 0⟩, rectTop := ⟨0, 0⟩,
    offsetX := ⟨0, 0⟩, offsetY := ⟨0, 0⟩, elWidth := ⟨100, 0⟩, elHeight := ⟨100, 0⟩,
    hasElement := true }

/-- An application whose state has the given systems and `current`, and an empty history. -/
def appWith (systems : Props) (current : Val) : App :=
  { state :=
      { systems := .obj systems, current := current, editMode := .bool false,
        linkMode := .bool true, adv := .obj DEFAULT_ADV, extra := [] },
    __history := [],
    __future := [],
    __suppressHistory := false,
    uidCount := 0,
    randCount := 0 }

/-- The file `{"systems": {"": {"name": "X"}, "b": {"name": "B"}}, "current": "b"}`. -/
def fileEmptyKey : Val :=
  .obj [("systems", .obj [("", .obj [("name", .str "X")]), ("b", .obj [("name", .str "B")])]),
    ("current", .str "b")]

/-- The system `b` of the state that the import of `fileEmptyKey` installs. -/
def systemB : Val := .obj [("name", .str "B"), ("id", .str "b"), ("planets", .arr [] [])]

/-- The file `{"systems": {"": {"name": "X"}, "b": {"id": "zzz", "name": "B"}}}`. -/
def fileForeignId : Val :=
  .obj [("systems", .obj [("", .obj [("name", .str "X")]),
    ("b", .obj [("id", .str "zzz"), ("name", .str "B")])])]

/-- The system stored under `b` in the state that the import of `fileForeignId` installs. -/
def systemZzz : Val := .obj [("id", .str "zzz"), ("name", .str "B"), ("planets", .arr [] [])]

/-- Systems of which the first, under the key `a`, has no `id`. -/
def missingIdSystems : Props :=
  [("a", .obj [("name", .str "A"), ("planets", .arr [] [])]),
   ("b", .obj [("id", .str "b"), ("name", .str "B"), ("planets", .arr [] [])])]

/-! ## Duplicating a system -/

/-- The arrow function `p => ({...p, id: uid()})` of `duplicateSystem`, when `uid()` has been
called `n` times: the own properties of `p` are copied in order, then `id` is defined. -/
def copyPlanet (h : Host) (p : Val) (n : Nat) : Val :=
  .obj (setProp (ownProps p) "id" (.str (h.uid n)))

/-- The call `(copy.planets||[]).map(p => ({...p, id: uid()}))` on the items of an array;
the result carries the count of `uid()` calls. -/
def copyPlanets (h : Host) : List Val → Nat → List Val × Nat
  | [], n => ([], n)
  | p :: ps, n => (copyPlanet h p n :: (copyPlanets h ps (n + 1)).1, (copyPlanets h ps (n + 1)).2)

/-- The function `duplicateSystem(id)`: `if(!state.systems[id]) return; const copy =
JSON.parse(JSON.stringify(state.systems[id])); copy.id = uid(); copy.name = ...;
copy.planets = (copy.planets||[]).map(p=> ({...p, id: uid()})); state.systems[copy.id] = copy;
state.current = copy.id; renderAll(); save();`.  A raise while drawing ends the function
before `save()`; an `id` that names a member inherited from `Object.prototype` is not
represented. -/
def duplicateSystem (h : Host) (app : App) (id : Val) : Except JsError App :=
  match app.state.systems with
  | .obj systems =>
    match h.toPropertyKey id with
    | none => .error .typeError
    | some k =>
      match lookupProp systems k with
      | none => if objectPrototypeNames.contains k then .error .unmodelled else .ok app
      | some sys =>
        if !sys.truthy then .ok app
        else
          let copy1 := (jsonParse (jsonStringify sys)).set "id" (.str (h.uid app.uidCount))
          match toStringJs h.numToString (copy1.get "name") with
          | none => .error .typeError
          | some name =>
            let copy2 := copy1.set "name" (.str (name ++ " (copy)"))
            match (copy2.get "planets").orElse (.arr [] []) with
            | .arr items _ =>
              let copy3 := copy2.set "planets"
                (.arr (copyPlanets h items (app.uidCount + 1)).1 [])
              match h.toPropertyKey (copy3.get "id") with
              | none => .error .typeError
              | some key =>
                if key = "__proto__" then .error .unmodelled
                else
                  let app1 := renderAll h
                    { app with
                      state := { app.state with
                        systems := .obj (setProp systems key copy3),
                        current := copy3.get "id" },
                      uidCount := (copyPlanets h items (app.uidCount + 1)).2 }
                  if h.renderRaises app1.state then .ok app1 else .ok (save app1)
            | _ => .error .typeError
  | other => if other.isNullish then .error .typeError else .error .unmodelled

/-- Every entry of `systems` is stored under the property key of its own `id`. -/
def KeyedById (h : Host) (systems : Props) : Prop :=
  ∀ e ∈ systems, h.toPropertyKey (e.2.get "id") = some e.1

/-! ## Fixtures for migration shapes and undo -/

/-- The blob `{"systems": [{"id": "a", "planets": {"p1": {"name": "P"}}}]}`: sequence-shaped
`systems` whose system has a mapping of planets. -/
def blobSequenceMappingPlanets : Val :=
  .obj [("systems", .arr [.obj [("id", .str "a"),
    ("planets", .obj [("p1", .obj [("name", .str "P")])])]] [])]

/-- The blob `{"systems": {"a": {"id": "a", "planets": {"p1": {"name": "P"}}}}}`: the same
system in mapping-shaped `systems`. -/
def blobMappingMappingPlanets : Val :=
  .obj [("systems", .obj [("a", .obj [("id", .str "a"),
    ("planets", .obj [("p1", .obj [("name", .str "P")])])])])]

/-- The planets of the system stored under `k` in a state object. -/
def planetsOf (m : Val) (k : String) : Val :=
  ((lookupProp (ownProps (m.get "systems")) k).getD .undefined).get "planets"

/-- The blob `{"editMode": true}`, which sets only one of the two mode flags. -/
def blobEditOnly : Val := .obj [("editMode", .bool true)]

/-- The blob `{"systems": {"k": {"id": "other"}}}`: a mapping entry whose `id` is not its
key. -/
def blobForeignId : Val := .obj [("systems", .obj [("k", .obj [("id", .str "other")])])]

/-- The planet `{"name": "P"}` as `migrateLoaded` completes it under `sampleHost`. -/
def migratedPlanetP : Val :=
  .obj [("name", .str "P"), ("id", .str "u0"), ("sizePercent", .int 18),
    ("orbit", .obj [("radius", .int 200), ("angle", .int 0), ("speed", .num ⟨2, 1⟩),
      ("rotating", .bool false), ("reverse", .bool false), ("showRing", .bool false)])]

/-- The blob `{"systems": [{"id": "a", "name": "S"}, {"id": 5, "name": "T"}]}`. -/
def blobSequenceIds : Val :=
  .obj [("systems", .arr [.obj [("id", .str "a"), ("name", .str "S")],
    .obj [("id", .int 5), ("name", .str "T")]] [])]

/-- The blob `{"linkMode": false}`. -/
def blobLinkOff : Val := .obj [("linkMode", .bool false)]

/-- The state that `migrateLoaded` returns on `blobLinkOff`. -/
def migratedLinkOff : Val :=
  .obj
    [("systems", .obj []),
     ("current", .null),
     ("editMode", .bool false),
     ("linkMode", .bool false),
     ("adv", .obj DEFAULT_ADV)]

/-- The state that `migrateLoaded` returns on `blobSequenceIds`. -/
def migratedSequenceIds : Val :=
  .obj
    [("systems", .obj
      [("5", .obj [("id", .int 5), ("name", .str "T"), ("planets", .arr [] [])]),
       ("a", .obj [("id", .str "a"), ("name", .str "S"), ("planets", .arr [] [])])]),
     ("current", .str "5"),
     ("editMode", .bool false),
     ("linkMode", .bool true),
     ("adv", .obj DEFAULT_ADV)]

/-- The application right after a save of the state `st`: the snapshot of `st` is the only
history entry. -/
def savedApp (st : AppState) : App :=
  { state := st,
    __history := [snapshotText st],
    __future := [],
    __suppressHistory := false,
    uidCount := 0,
    randCount := 0 }

/-- A state whose only system is stored under the empty key, with `current` the empty
string, as the import of `{"systems": {"": {"name": "X"}}}` installs it. -/
def emptyKeyState : AppState :=
  { systems := .obj [("", .obj [("name", .str "X"), ("id", .str ""), ("planets", .arr [] [])])],
    current := .str "",
    editMode := .bool false,
    linkMode := .bool true,
    adv := .obj DEFAULT_ADV,
    extra := [] }

/-! ## History: lemmas -/

theorem snapshot_length_le (app : App) (hlen : app.__history.length ≤ __HIST_MAX) :
    (__snapshot app).__history.length ≤ __HIST_MAX := by
  unfold __snapshot
  split
  · exact hlen
  · dsimp only
    split
    · exact hlen
    · dsimp only
      split
      · rename_i hgt
        simp only [List.length_tail, List.length_append, List.length_singleton] at hgt ⊢
        omega
      · rename_i hle
        omega

theorem createDefaultSystems_length_le (h : Host) (app : App)
    (hlen : app.__history.length ≤ __HIST_MAX) :
    (createDefaultSystems h app).__history.length ≤ __HIST_MAX := by
  unfold createDefaultSystems save
  exact snapshot_length_le _ hlen

theorem renderAll_length_le (h : Host) (app : App) (hlen : app.__history.length ≤ __HIST_MAX) :
    (renderAll h app).__history.length ≤ __HIST_MAX := by
  unfold renderAll renderTabs
  split
  · exact createDefaultSystems_length_le h app hlen
  · exact hlen

theorem applySnapshot_length_le (h : Host) (app : App) (text : Val)
    (hlen : app.__history.length ≤ __HIST_MAX) :
    (applySnapshot h app text).__history.length ≤ __HIST_MAX := by
  unfold applySnapshot
  have hr : ∀ st, (renderAll h { app with __suppressHistory := true, state := st }).__history.length
      ≤ __HIST_MAX := fun st => renderAll_length_le h _ hlen
  dsimp only
  split
  · exact hlen
  · split
    · exact hr _
    · unfold save
      exact snapshot_length_le _ (hr _)

theorem performUndo_length_le (h : Host) (app : App) (hlen : app.__history.length ≤ __HIST_MAX) :
    (performUndo h app).__history.length ≤ __HIST_MAX := by
  unfold performUndo
  split
  · exact hlen
  · apply applySnapshot_length_le
    simp only [List.length_dropLast]
    omega

theorem performRedo_length_le (h : Host) (app : App) (hlen : app.__history.length ≤ __HIST_MAX) :
    (performRedo h app).__history.length ≤ __HIST_MAX := by
  unfold performRedo
  split
  · exact hlen
  · exact applySnapshot_length_le h _ _ hlen

theorem step_length_le (h : Host) (app : App) (a : Action)
    (hlen : app.__history.length ≤ __HIST_MAX) :
    (step h app a).__history.length ≤ __HIST_MAX := by
  cases a with
  | edit st => exact hlen
  | snapshot => exact snapshot_length_le app hlen
  | undo => exact performUndo_length_le h app hlen
  | redo => exact performRedo_length_le h app hlen

theorem run_length_le (h : Host) (actions : List Action) :
    ∀ app : App, app.__history.length ≤ __HIST_MAX →
      (run h app actions).__history.length ≤ __HIST_MAX := by
  induction actions with
  | nil => intro app hlen; exact hlen
  | cons a rest ih =>
    intro app hlen
    exact ih (step h app a) (step_length_le h app a hlen)

/-! ## Migration: lemmas -/

mutual
theorem jsonStringify_of_isJson : ∀ v : Val, v.isJson = true → jsonStringify v = v
  | .undefined, h => by simp [Val.isJson] at h
  | .null, _ => by simp [jsonStringify]
  | .bool _, _ => by simp [jsonStringify]
  | .num _, _ => by simp [jsonStringify]
  | .str _, _ => by simp [jsonStringify]
  | .arr items ps, h => by
    simp only [Val.isJson, Bool.and_eq_true, List.isEmpty_iff] at h
    simp only [jsonStringify, jsonItems_of_isJson items h.1, h.2]
  | .obj ps, h => by
    simp only [Val.isJson] at h
    simp only [jsonStringify, jsonMembers_of_isJson ps h]
theorem jsonItems_of_isJson : ∀ vs : List Val, isJsonItems vs = true → jsonItems vs = vs
  | [], _ => by simp [jsonItems]
  | v :: vs, h => by
    simp only [isJsonItems, Bool.and_eq_true] at h
    cases v with
    | undefined => simp [Val.isJson] at h
    | _ => simp only [jsonItems, jsonStringify_of_isJson _ h.1, jsonItems_of_isJson vs h.2]
theorem jsonMembers_of_isJson :
    ∀ ps : List (String × Val), isJsonMembers ps = true → jsonMembers ps = ps
  | [], _ => by simp [jsonMembers]
  | (k, v) :: ps, h => by
    simp only [isJsonMembers, Bool.and_eq_true] at h
    cases v with
    | undefined => simp [Val.isJson] at h
    | _ => simp only [jsonMembers, jsonStringify_of_isJson _ h.1, jsonMembers_of_isJson ps h.2]
end

/-! ### Property lists -/

theorem lookupProp_eq_none_iff (ps : Props) (k : String) :
    lookupProp ps k = none ↔ k ∉ keysOf ps := by
  induction ps with
  | nil => simp [lookupProp, keysOf]
  | cons kv rest ih =>
    obtain ⟨k2, v2⟩ := kv
    simp only [lookupProp, keysOf, List.map_cons, List.mem_cons, not_or]
    by_cases hk : k2 = k
    · simp [hk]
    · simp only [if_neg hk]
      rw [ih]
      simp only [keysOf]
      constructor
      · intro h; exact ⟨fun e => hk e.symm, h⟩
      · intro h; exact h.2

theorem lookupProp_isSome_of_mem (ps : Props) (k : String) (h : k ∈ keysOf ps) :
    ∃ v, lookupProp ps k = some v := by
  cases hl : lookupProp ps k with
  | none => exact absurd h ((lookupProp_eq_none_iff ps k).1 hl)
  | some v => exact ⟨v, rfl⟩

theorem keysOf_replaceProp (ps : Props) (k : String) (v : Val) :
    keysOf (replaceProp ps k v) = keysOf ps := by
  induction ps with
  | nil => rfl
  | cons kv rest ih =>
    obtain ⟨k2, v2⟩ := kv
    simp only [replaceProp]
    split
    · simp [keysOf]
    · simp only [keysOf, List.map_cons] at ih ⊢
      rw [ih]

theorem replaceProp_same (ps : Props) (k : String) (v : Val) (h : lookupProp ps k = some v) :
    replaceProp ps k v = ps := by
  induction ps with
  | nil => rfl
  | cons kv rest ih =>
    obtain ⟨k2, v2⟩ := kv
    simp only [lookupProp] at h
    simp only [replaceProp]
    by_cases hk : k2 = k
    · simp only [if_pos hk] at h ⊢
      cases h
      rfl
    · simp only [if_neg hk] at h ⊢
      rw [ih h]

theorem setProp_of_lookup (ps : Props) (k : String) (v w : Val) (h : lookupProp ps k = some w) :
    setProp ps k v = replaceProp ps k v := by
  simp [setProp, h]

theorem setProp_same (ps : Props) (k : String) (v : Val) (h : lookupProp ps k = some v) :
    setProp ps k v = ps := by
  rw [setProp_of_lookup ps k v v h, replaceProp_same ps k v h]

theorem lookupProp_replaceProp_same (ps : Props) (k : String) (v w : Val)
    (h : lookupProp ps k = some w) : lookupProp (replaceProp ps k v) k = some v := by
  induction ps with
  | nil => simp [lookupProp] at h
  | cons kv rest ih =>
    obtain ⟨k2, v2⟩ := kv
    simp only [lookupProp] at h
    simp only [replaceProp]
    by_cases hk : k2 = k
    · simp [if_pos hk, lookupProp]
    · simp only [if_neg hk, lookupProp] at h ⊢
      exact ih h

theorem lookupProp_replaceProp_ne (ps : Props) (k k2 : String) (v : Val) (hne : k2 ≠ k) :
    lookupProp (replaceProp ps k v) k2 = lookupProp ps k2 := by
  induction ps with
  | nil => rfl
  | cons kv rest ih =>
    obtain ⟨k3, v3⟩ := kv
    simp only [replaceProp]
    by_cases hk : k3 = k
    · simp only [if_pos hk, lookupProp]
      have : ¬ k3 = k2 := fun e => hne (e.symm.trans hk)
      simp [if_neg this]
    · simp only [if_neg hk, lookupProp]
      rw [ih]

theorem replaceProp_append_left (a b : Props) (k : String) (v : Val) (h : k ∈ keysOf a) :
    replaceProp (a ++ b) k v = replaceProp a k v ++ b := by
  induction a with
  | nil => simp [keysOf] at h
  | cons kv rest ih =>
    obtain ⟨k2, v2⟩ := kv
    simp only [List.cons_append, replaceProp]
    by_cases hk : k2 = k
    · simp [if_pos hk]
    · simp only [if_neg hk, List.cons_append]
      have : k ∈ keysOf rest := by
        simp only [keysOf, List.map_cons, List.mem_cons] at h
        rcases h with h | h
        · exact absurd h.symm hk
        · exact h
      exact congrArg (List.cons (k2, v2)) (ih this)

theorem replaceProp_append_right (a b : Props) (k : String) (v : Val) (h : k ∉ keysOf a) :
    replaceProp (a ++ b) k v = a ++ replaceProp b k v := by
  induction a with
  | nil => rfl
  | cons kv rest ih =>
    obtain ⟨k2, v2⟩ := kv
    simp only [keysOf, List.map_cons, List.mem_cons, not_or] at h
    simp only [List.cons_append, replaceProp]
    have hk : ¬ k2 = k := fun e => h.1 e.symm
    simp only [if_neg hk]
    exact congrArg (List.cons (k2, v2)) (ih h.2)

theorem keysOf_append (a b : Props) : keysOf (a ++ b) = keysOf a ++ keysOf b := by
  simp [keysOf]

theorem insertIndex_of_no_index_head (n : Nat) (k : String) (v : Val) (t : Props)
    (ht : ∀ a ∈ keysOf t, arrayIndex a = none) :
    insertIndex n k v t = (k, v) :: t := by
  cases t with
  | nil => rfl
  | cons kv rest =>
    obtain ⟨k2, v2⟩ := kv
    have h2 : arrayIndex k2 = none := ht k2 (by simp [keysOf])
    simp [insertIndex, h2]

/-- Inserting a new index key into a list whose index keys come first in ascending order
splits the index part in two around the new key. -/
theorem insertIndex_split (n : Nat) (k : String) (v : Val) (t : Props)
    (ht : ∀ a ∈ keysOf t, arrayIndex a = none) :
    ∀ li : Props, (∀ a ∈ keysOf li, (arrayIndex a).isSome = true) →
      (keysOf li).Pairwise (fun a b => indexOf a ≤ indexOf b) →
      ∃ i1 i2, li = i1 ++ i2 ∧ insertIndex n k v (li ++ t) = i1 ++ (k, v) :: (i2 ++ t) ∧
        (∀ a ∈ keysOf i1, indexOf a ≤ n) ∧ (∀ b ∈ keysOf i2, n ≤ indexOf b) := by
  intro li
  induction li with
  | nil =>
    intro _ _
    refine ⟨[], [], rfl, ?_, ?_, ?_⟩
    · simpa using insertIndex_of_no_index_head n k v t ht
    · simp [keysOf]
    · simp [keysOf]
  | cons kv rest ih =>
    obtain ⟨k2, v2⟩ := kv
    intro hidx hsorted
    have h2 : (arrayIndex k2).isSome = true := hidx k2 (by simp [keysOf])
    obtain ⟨m, hm⟩ := Option.isSome_iff_exists.1 h2
    have hrest_idx : ∀ a ∈ keysOf rest, (arrayIndex a).isSome = true := by
      intro a ha
      exact hidx a (by simp only [keysOf, List.map_cons, List.mem_cons]; exact Or.inr ha)
    have hs : (∀ b ∈ keysOf rest, indexOf k2 ≤ indexOf b) ∧
        (keysOf rest).Pairwise (fun a b => indexOf a ≤ indexOf b) := by
      simpa [keysOf, List.pairwise_cons] using hsorted
    have hik2 : indexOf k2 = m := by simp [indexOf, hm]
    by_cases hlt : n < m
    · refine ⟨[], (k2, v2) :: rest, rfl, ?_, ?_, ?_⟩
      · simp [insertIndex, hm, hlt]
      · simp [keysOf]
      · intro b hb
        simp only [keysOf, List.map_cons, List.mem_cons] at hb
        rcases hb with hb | hb
        · rw [hb, hik2]; omega
        · have := hs.1 b hb
          omega
    · obtain ⟨i1, i2, hsplit, hins, h1, h2'⟩ := ih hrest_idx hs.2
      refine ⟨(k2, v2) :: i1, i2, ?_, ?_, ?_, h2'⟩
      · rw [hsplit]; rfl
      · simp only [List.cons_append, insertIndex, hm, if_neg hlt]
        exact congrArg (List.cons (k2, v2)) hins
      · intro a ha
        simp only [keysOf, List.map_cons, List.mem_cons] at ha
        rcases ha with ha | ha
        · rw [ha, hik2]; omega
        · exact h1 a ha

theorem canonKeys_setProp (B : List String) (ps : Props) (k : String) (v : Val)
    (hc : CanonKeys B (keysOf ps)) : CanonKeys B (keysOf (setProp ps k v)) := by
  unfold setProp
  cases hl : lookupProp ps k with
  | some w =>
    simp only
    rw [keysOf_replaceProp]
    exact hc
  | none =>
    have hnot : k ∉ keysOf ps := (lookupProp_eq_none_iff ps k).1 hl
    obtain ⟨I, R, hK, hI, hsorted, hstr, hnodup⟩ := hc
    simp only
    cases hidx : arrayIndex k with
    | none =>
      simp only
      refine ⟨I, R ++ [k], ?_, hI, hsorted, ?_, ?_⟩
      · rw [keysOf_append, hK]
        simp [keysOf]
      · intro a ha
        simp only [List.mem_append, List.mem_singleton] at ha
        rcases ha with ha | ha | ha
        · exact hstr a (by simp [ha])
        · exact hstr a (by simp [ha])
        · rw [ha]; exact hidx
      · rw [keysOf_append]
        simp only [keysOf, List.map_cons, List.map_nil]
        rw [List.nodup_append]
        refine ⟨hnodup, by simp, ?_⟩
        intro a ha hb
        simp only [List.mem_singleton] at hb
        rw [hb] at ha
        exact hnot ha
    | some n =>
      simp only
      -- split the property list along the key layout
      have hmap : ps.map Prod.fst = I ++ (B ++ R) := hK
      obtain ⟨li, lt, hps, hli, hlt⟩ := List.map_eq_append_iff.1 hmap
      have ht : ∀ a ∈ keysOf lt, arrayIndex a = none := by
        intro a ha
        apply hstr a
        simpa [keysOf, hlt] using ha
      have hli_idx : ∀ a ∈ keysOf li, (arrayIndex a).isSome = true := by
        intro a ha
        apply hI a
        simpa [keysOf, hli] using ha
      have hli_sorted : (keysOf li).Pairwise (fun a b => indexOf a ≤ indexOf b) := by
        simpa [keysOf, hli] using hsorted
      obtain ⟨i1, i2, hsplit, hins, h1, h2⟩ := insertIndex_split n k v lt ht li hli_idx hli_sorted
      rw [hps, hins]
      have hkidx : indexOf k = n := by simp [indexOf, hidx]
      have hI12 : I = keysOf i1 ++ keysOf i2 := by
        rw [← hli, hsplit]; simp [keysOf]
      refine ⟨keysOf i1 ++ k :: keysOf i2, R, ?_, ?_, ?_, hstr, ?_⟩
      · simp [keysOf, hlt]
      · intro a ha
        simp only [List.mem_append, List.mem_cons] at ha
        rcases ha with ha | ha | ha
        · exact hI a (by rw [hI12]; simp [ha])
        · rw [ha, hidx]; rfl
        · exact hI a (by rw [hI12]; simp [ha])
      · rw [hI12, List.pairwise_append] at hsorted
        rw [List.pairwise_append]
        refine ⟨hsorted.1, ?_, ?_⟩
        · rw [List.pairwise_cons]
          refine ⟨?_, hsorted.2.1⟩
          intro b hb
          rw [hkidx]
          exact h2 b hb
        · intro a ha b hb
          simp only [List.mem_cons] at hb
          rcases hb with hb | hb
          · rw [hb, hkidx]; exact h1 a ha
          · exact hsorted.2.2 a ha b hb
      · have hperm : (keysOf (i1 ++ (k, v) :: (i2 ++ lt))).Perm (k :: keysOf ps) := by
          rw [hps, hsplit]
          simp only [keysOf, List.map_append, List.map_cons, List.append_assoc]
          exact List.perm_middle
        rw [hperm.nodup_iff, List.nodup_cons]
        exact ⟨hnot, hnodup⟩

theorem arrayIndex_proto : arrayIndex "__proto__" = none := by decide

theorem insertIndex_after (n : Nat) (k : String) (v : Val) (t : Props)
    (ht : ∀ a ∈ keysOf t, arrayIndex a = none) :
    ∀ i0 : Props, (∀ a ∈ keysOf i0, ∃ m, arrayIndex a = some m ∧ m ≤ n) →
      insertIndex n k v (i0 ++ t) = i0 ++ (k, v) :: t := by
  intro i0
  induction i0 with
  | nil =>
    intro _
    exact insertIndex_of_no_index_head n k v t ht
  | cons kv rest ih =>
    obtain ⟨k2, v2⟩ := kv
    intro h
    obtain ⟨m, hm, hle⟩ := h k2 (by simp [keysOf])
    have hrest : ∀ a ∈ keysOf rest, ∃ m, arrayIndex a = some m ∧ m ≤ n := by
      intro a ha
      exact h a (by simp only [keysOf, List.map_cons, List.mem_cons]; exact Or.inr ha)
    have hnlt : ¬ n < m := by omega
    simp only [List.cons_append, insertIndex, hm, if_neg hnlt]
    exact congrArg (List.cons (k2, v2)) (ih hrest)

theorem objectAssign_eq_foldl (target src : Props) :
    objectAssign target src = src.foldl assignStep target := rfl

theorem assign_index_phase (t : Props) (ht : ∀ a ∈ keysOf t, arrayIndex a = none) :
    ∀ li i0 : Props, (∀ a ∈ keysOf (i0 ++ li), (arrayIndex a).isSome = true) →
      (keysOf (i0 ++ li)).Pairwise (fun a b => indexOf a ≤ indexOf b) →
      (keysOf (i0 ++ li)).Nodup →
      li.foldl assignStep (i0 ++ t) = i0 ++ li ++ t := by
  intro li
  induction li with
  | nil => intro i0 _ _ _; simp
  | cons kv rest ih =>
    obtain ⟨k, v⟩ := kv
    intro i0 hidx hsorted hnodup
    have hk : (arrayIndex k).isSome = true := hidx k (by simp [keysOf])
    obtain ⟨n, hn⟩ := Option.isSome_iff_exists.1 hk
    have hkproto : ¬ k = "__proto__" := by
      intro e
      rw [e, arrayIndex_proto] at hn
      cases hn
    have hnot0 : k ∉ keysOf i0 := by
      intro hmem
      rw [keysOf_append, keysOf, keysOf, List.map_cons] at hnodup
      have := (List.nodup_append.1 hnodup).2.2 hmem (List.mem_cons_self _ _)
      exact this
    have hnott : k ∉ keysOf t := by
      intro hmem
      rw [ht k hmem] at hn
      cases hn
    have hlook : lookupProp (i0 ++ t) k = none := by
      rw [lookupProp_eq_none_iff, keysOf_append]
      simp [hnot0, hnott]
    have hle : ∀ a ∈ keysOf i0, ∃ m, arrayIndex a = some m ∧ m ≤ n := by
      intro a ha
      have ha1 : (arrayIndex a).isSome = true := hidx a (by rw [keysOf_append]; simp [ha])
      obtain ⟨m, hm⟩ := Option.isSome_iff_exists.1 ha1
      refine ⟨m, hm, ?_⟩
      rw [keysOf_append, List.pairwise_append] at hsorted
      have := hsorted.2.2 a ha k (by simp [keysOf])
      simpa [indexOf, hm, hn] using this
    have hstep : assignStep (i0 ++ t) (k, v) = (i0 ++ [(k, v)]) ++ t := by
      simp only [assignStep, if_neg hkproto, setProp, hlook, hn]
      rw [insertIndex_after n k v t ht i0 hle]
      simp
    rw [List.foldl_cons, hstep]
    have hre : i0 ++ (k, v) :: rest = (i0 ++ [(k, v)]) ++ rest := by simp
    rw [hre] at hidx hsorted hnodup
    rw [ih (i0 ++ [(k, v)]) hidx hsorted hnodup]
    simp

theorem assign_replace_phase (t : Props) :
    ∀ c c2 a : Props, keysOf c = keysOf c2 → (keysOf (a ++ c)).Nodup →
      "__proto__" ∉ keysOf c2 →
      c2.foldl assignStep (a ++ c ++ t) = a ++ c2 ++ t := by
  intro c
  induction c with
  | nil =>
    intro c2 a hkeys _ _
    cases c2 with
    | nil => simp
    | cons x xs => simp [keysOf] at hkeys
  | cons kv rest ih =>
    obtain ⟨k, v⟩ := kv
    intro c2 a hkeys hnodup hproto
    cases c2 with
    | nil => simp [keysOf] at hkeys
    | cons kv2 rest2 =>
      obtain ⟨k2, v2⟩ := kv2
      simp only [keysOf, List.map_cons, List.cons.injEq] at hkeys
      obtain ⟨hk, hrestkeys⟩ := hkeys
      subst hk
      have hkproto : ¬ k = "__proto__" := by
        intro e
        apply hproto
        simp [keysOf, e]
      have hnota : k ∉ keysOf a := by
        intro hmem
        rw [keysOf_append] at hnodup
        exact (List.nodup_append.1 hnodup).2.2 hmem (by simp [keysOf])
      have hlook : ∃ w, lookupProp (a ++ (k, v) :: rest ++ t) k = some w := by
        apply lookupProp_isSome_of_mem
        simp [keysOf]
      obtain ⟨w, hw⟩ := hlook
      have hstep : assignStep (a ++ (k, v) :: rest ++ t) (k, v2)
          = (a ++ [(k, v2)]) ++ rest ++ t := by
        simp only [assignStep, if_neg hkproto]
        rw [setProp_of_lookup _ _ _ _ hw]
        rw [List.append_assoc, replaceProp_append_right _ _ _ _ hnota]
        simp [replaceProp]
      rw [List.foldl_cons, hstep]
      have hnodup2 : (keysOf ((a ++ [(k, v2)]) ++ rest)).Nodup := by
        have : keysOf ((a ++ [(k, v2)]) ++ rest) = keysOf (a ++ (k, v) :: rest) := by
          simp [keysOf]
        rw [this]
        exact hnodup
      have hproto2 : "__proto__" ∉ keysOf rest2 := by
        intro hmem
        apply hproto
        simp only [keysOf, List.map_cons, List.mem_cons]
        exact Or.inr hmem
      rw [ih rest2 (a ++ [(k, v2)]) hrestkeys hnodup2 hproto2]
      simp

theorem assign_append_phase :
    ∀ r m : Props, (keysOf (m ++ r)).Nodup → (∀ a ∈ keysOf r, arrayIndex a = none) →
      "__proto__" ∉ keysOf r → r.foldl assignStep m = m ++ r := by
  intro r
  induction r with
  | nil => intro m _ _ _; simp
  | cons kv rest ih =>
    obtain ⟨k, v⟩ := kv
    intro m hnodup hstr hproto
    have hkproto : ¬ k = "__proto__" := by
      intro e
      apply hproto
      simp [keysOf, e]
    have hnotm : k ∉ keysOf m := by
      intro hmem
      rw [keysOf_append] at hnodup
      exact (List.nodup_append.1 hnodup).2.2 hmem (by simp [keysOf])
    have hlook : lookupProp m k = none := (lookupProp_eq_none_iff m k).2 hnotm
    have hidx : arrayIndex k = none := hstr k (by simp [keysOf])
    have hstep : assignStep m (k, v) = m ++ [(k, v)] := by
      simp [assignStep, hkproto, setProp, hlook, hidx]
    rw [List.foldl_cons, hstep]
    have hre : m ++ (k, v) :: rest = (m ++ [(k, v)]) ++ rest := by simp
    rw [hre] at hnodup
    have hstr2 : ∀ a ∈ keysOf rest, arrayIndex a = none := by
      intro a ha
      exact hstr a (by simp only [keysOf, List.map_cons, List.mem_cons]; exact Or.inr ha)
    have hproto2 : "__proto__" ∉ keysOf rest := by
      intro hmem
      apply hproto
      simp only [keysOf, List.map_cons, List.mem_cons]
      exact Or.inr hmem
    rw [ih (m ++ [(k, v)]) hnodup hstr2 hproto2]
    simp

/-- Assigning the properties of an object onto the object it was grown from gives the
object back: `Object.assign({}, base, o)` is `o` when the keys of `o` are laid out as those
of an object that started as `base`. -/
theorem objectAssign_rebuild (bl l : Props) (hc : CanonKeys (keysOf bl) (keysOf l))
    (hproto : "__proto__" ∉ keysOf l) : objectAssign bl l = l := by
  obtain ⟨I, R, hK, hI, hsorted, hstr, hnodup⟩ := hc
  have hmap : l.map Prod.fst = I ++ (keysOf bl ++ R) := hK
  obtain ⟨li, lt, hl, hli, hlt⟩ := List.map_eq_append_iff.1 hmap
  obtain ⟨lb, lr, hlt2, hlb, hlr⟩ := List.map_eq_append_iff.1 hlt
  subst hl hlt2
  have hblstr : ∀ a ∈ keysOf bl, arrayIndex a = none := by
    intro a ha
    exact hstr a (by simp [ha])
  rw [objectAssign_eq_foldl, List.foldl_append, List.foldl_append]
  have h1 := assign_index_phase bl hblstr li [] (by
      intro a ha
      apply hI a
      simpa [keysOf, hli] using ha) (by simpa [keysOf, hli] using hsorted) (by
      have : (keysOf (li ++ (lb ++ lr))).Nodup := hnodup
      rw [keysOf_append] at this
      simpa using (List.nodup_append.1 this).1)
  simp only [List.nil_append] at h1
  rw [h1]
  have hnd2 : (keysOf (li ++ bl)).Nodup := by
    have : (keysOf (li ++ (lb ++ lr))).Nodup := hnodup
    have e : keysOf (li ++ bl) = keysOf (li ++ lb) := by
      simp [keysOf, hlb]
    rw [e]
    rw [← List.append_assoc, keysOf_append] at this
    exact (List.nodup_append.1 this).1
  have hp2 : "__proto__" ∉ keysOf lb := by
    intro hmem
    apply hproto
    simp only [keysOf, List.map_append, List.mem_append] at hmem ⊢
    exact Or.inr (Or.inl hmem)
  have h2 := assign_replace_phase [] bl lb li (by simp [keysOf, hlb]) hnd2 hp2
  simp only [List.append_nil] at h2
  rw [h2]
  have hnd3 : (keysOf (li ++ lb ++ lr)).Nodup := by
    rw [List.append_assoc]
    exact hnodup
  have hstr3 : ∀ a ∈ keysOf lr, arrayIndex a = none := by
    intro a ha
    apply hstr a
    simp only [keysOf] at ha
    simp [← hlr, ha]
  have hp3 : "__proto__" ∉ keysOf lr := by
    intro hmem
    apply hproto
    simp only [keysOf, List.map_append, List.mem_append] at hmem ⊢
    exact Or.inr (Or.inr hmem)
  rw [assign_append_phase lr (li ++ lb) hnd3 hstr3 hp3]
  simp

theorem mem_replaceProp (ps : Props) (k : String) (v : Val) (x : String × Val)
    (h : x ∈ replaceProp ps k v) : x = (k, v) ∨ x ∈ ps := by
  induction ps with
  | nil => simp [replaceProp] at h
  | cons kv rest ih =>
    obtain ⟨k2, v2⟩ := kv
    simp only [replaceProp] at h
    by_cases hk : k2 = k
    · simp only [if_pos hk, List.mem_cons] at h
      rcases h with h | h
      · left; rw [h, hk]
      · right; exact List.mem_cons_of_mem _ h
    · simp only [if_neg hk, List.mem_cons] at h
      rcases h with h | h
      · right; rw [h]; exact List.mem_cons_self _ _
      · rcases ih h with h2 | h2
        · left; exact h2
        · right; exact List.mem_cons_of_mem _ h2

theorem mem_insertIndex (n : Nat) (k : String) (v : Val) (ps : Props) (x : String × Val) :
    x ∈ insertIndex n k v ps ↔ x = (k, v) ∨ x ∈ ps := by
  induction ps with
  | nil => simp [insertIndex]
  | cons kv rest ih =>
    obtain ⟨k2, v2⟩ := kv
    simp only [insertIndex]
    split
    · split
      · simp
      · simp only [List.mem_cons, ih]
        tauto
    · simp

theorem mem_setProp (ps : Props) (k : String) (v : Val) (x : String × Val)
    (h : x ∈ setProp ps k v) : x = (k, v) ∨ x ∈ ps := by
  unfold setProp at h
  split at h
  · exact mem_replaceProp ps k v x h
  · split at h
    · exact (mem_insertIndex _ k v ps x).1 h
    · simp only [List.mem_append, List.mem_singleton] at h
      tauto

theorem lookupProp_append (a b : Props) (k : String) :
    lookupProp (a ++ b) k = (lookupProp a k).orElse (fun _ => lookupProp b k) := by
  induction a with
  | nil => simp [lookupProp]
  | cons kv rest ih =>
    obtain ⟨k2, v2⟩ := kv
    simp only [List.cons_append, lookupProp]
    split
    · simp
    · exact ih

theorem lookupProp_insertIndex_same (n : Nat) (k : String) (v : Val) (ps : Props)
    (h : lookupProp ps k = none) : lookupProp (insertIndex n k v ps) k = some v := by
  induction ps with
  | nil => simp [insertIndex, lookupProp]
  | cons kv rest ih =>
    obtain ⟨k2, v2⟩ := kv
    simp only [lookupProp] at h
    by_cases hk : k2 = k
    · simp [if_pos hk] at h
    · simp only [if_neg hk] at h
      simp only [insertIndex]
      split
      · split
        · simp [lookupProp]
        · simp only [lookupProp, if_neg hk]
          exact ih h
      · simp [lookupProp]

theorem lookupProp_insertIndex_ne (n : Nat) (k k2 : String) (v : Val) (ps : Props)
    (hne : k2 ≠ k) : lookupProp (insertIndex n k v ps) k2 = lookupProp ps k2 := by
  have hk : ¬ k = k2 := fun e => hne e.symm
  induction ps with
  | nil => simp [insertIndex, lookupProp, hk]
  | cons kv rest ih =>
    obtain ⟨k3, v3⟩ := kv
    simp only [insertIndex]
    split
    · split
      · simp [lookupProp, hk]
      · simp only [lookupProp]
        rw [ih]
    · simp [lookupProp, hk]

theorem lookupProp_setProp_same (ps : Props) (k : String) (v : Val) :
    lookupProp (setProp ps k v) k = some v := by
  unfold setProp
  cases hl : lookupProp ps k with
  | some w => exact lookupProp_replaceProp_same ps k v w hl
  | none =>
    simp only
    split
    · exact lookupProp_insertIndex_same _ k v ps hl
    · rw [lookupProp_append, hl]
      simp [lookupProp]

theorem lookupProp_setProp_ne (ps : Props) (k k2 : String) (v : Val) (hne : k2 ≠ k) :
    lookupProp (setProp ps k v) k2 = lookupProp ps k2 := by
  unfold setProp
  split
  · exact lookupProp_replaceProp_ne ps k k2 v hne
  · split
    · exact lookupProp_insertIndex_ne _ k k2 v ps hne
    · rw [lookupProp_append]
      have hk : ¬ k = k2 := fun e => hne e.symm
      cases lookupProp ps k2 <;> simp [lookupProp, hk]

theorem mem_keysOf_setProp (ps : Props) (k : String) (v : Val) (a : String)
    (h : a ∈ keysOf (setProp ps k v)) : a = k ∨ a ∈ keysOf ps := by
  simp only [keysOf, List.mem_map] at h
  obtain ⟨x, hx, hxa⟩ := h
  rcases mem_setProp ps k v x hx with h1 | h1
  · left; rw [← hxa, h1]
  · right
    simp only [keysOf, List.mem_map]
    exact ⟨x, h1, hxa⟩

theorem canonKeys_objectAssign (B : List String) (src : Props) :
    ∀ acc : Props, CanonKeys B (keysOf acc) → CanonKeys B (keysOf (objectAssign acc src)) := by
  induction src with
  | nil => intro acc h; exact h
  | cons kv rest ih =>
    intro acc h
    rw [objectAssign_eq_foldl, List.foldl_cons]
    apply ih
    unfold assignStep
    split
    · exact h
    · exact canonKeys_setProp B acc kv.1 kv.2 h

theorem proto_not_mem_objectAssign (src : Props) :
    ∀ acc : Props, "__proto__" ∉ keysOf acc → "__proto__" ∉ keysOf (objectAssign acc src) := by
  induction src with
  | nil => intro acc h; exact h
  | cons kv rest ih =>
    intro acc h
    rw [objectAssign_eq_foldl, List.foldl_cons]
    apply ih
    unfold assignStep
    split
    · exact h
    · rename_i hk
      intro hmem
      rcases mem_keysOf_setProp acc kv.1 kv.2 _ hmem with h1 | h1
      · exact hk h1.symm
      · exact h h1

/-! ### JSON trees -/

theorem isJsonMembers_iff (ps : Props) :
    isJsonMembers ps = true ↔ ∀ x ∈ ps, x.2.isJson = true := by
  induction ps with
  | nil => simp [isJsonMembers]
  | cons kv rest ih =>
    obtain ⟨k, v⟩ := kv
    simp [isJsonMembers, ih]

theorem isJsonItems_iff (vs : List Val) :
    isJsonItems vs = true ↔ ∀ x ∈ vs, x.isJson = true := by
  induction vs with
  | nil => simp [isJsonItems]
  | cons v rest ih => simp [isJsonItems, ih]

theorem isJsonMembers_setProp (ps : Props) (k : String) (v : Val)
    (hps : isJsonMembers ps = true) (hv : v.isJson = true) :
    isJsonMembers (setProp ps k v) = true := by
  rw [isJsonMembers_iff] at hps ⊢
  intro x hx
  rcases mem_setProp ps k v x hx with h | h
  · rw [h]; exact hv
  · exact hps x h

theorem isJsonMembers_objectAssign (src : Props) (hsrc : isJsonMembers src = true) :
    ∀ acc : Props, isJsonMembers acc = true → isJsonMembers (objectAssign acc src) = true := by
  induction src with
  | nil => intro acc h; exact h
  | cons kv rest ih =>
    obtain ⟨k, v⟩ := kv
    simp only [isJsonMembers, Bool.and_eq_true] at hsrc
    intro acc h
    rw [objectAssign_eq_foldl, List.foldl_cons]
    apply ih hsrc.2
    unfold assignStep
    split
    · exact h
    · exact isJsonMembers_setProp acc k v h hsrc.1

theorem isJsonMembers_indexEntries (vs : List Val) (h : isJsonItems vs = true) :
    ∀ i, isJsonMembers (indexEntries i vs) = true := by
  induction vs with
  | nil => intro i; rfl
  | cons v rest ih =>
    intro i
    simp only [isJsonItems, Bool.and_eq_true] at h
    simp only [indexEntries, isJsonMembers, Bool.and_eq_true]
    exact ⟨h.1, ih h.2 (i + 1)⟩

theorem isJsonMembers_ownProps (v : Val) (h : v.isJson = true) :
    isJsonMembers (ownProps v) = true := by
  cases v with
  | undefined => rfl
  | null => rfl
  | bool b => rfl
  | num n => rfl
  | str s =>
    simp only [ownProps]
    apply isJsonMembers_indexEntries
    rw [isJsonItems_iff]
    intro x hx
    simp only [List.mem_map] at hx
    obtain ⟨c, _, hc⟩ := hx
    rw [← hc]
    rfl
  | arr items ps =>
    simp only [Val.isJson, Bool.and_eq_true, List.isEmpty_iff] at h
    simp only [ownProps, h.2, List.append_nil]
    exact isJsonMembers_indexEntries items h.1 0
  | obj ps =>
    simpa [Val.isJson, ownProps] using h

/-- A member read of a JSON tree is a JSON tree or `undefined`. -/
theorem isJson_get (v : Val) (k : String) (h : v.isJson = true) :
    (v.get k).isJson = true ∨ v.get k = .undefined := by
  cases v with
  | arr items ps =>
    simp only [Val.isJson, Bool.and_eq_true, List.isEmpty_iff] at h
    right
    simp [Val.get, h.2, lookupProp]
  | obj ps =>
    simp only [Val.isJson] at h
    simp only [Val.get]
    cases hl : lookupProp ps k with
    | none => right; rfl
    | some w =>
      left
      simp only [Option.getD_some]
      have hmem : (k, w) ∈ ps := by
        clear h
        induction ps with
        | nil => simp [lookupProp] at hl
        | cons kv rest ih =>
          obtain ⟨k2, v2⟩ := kv
          simp only [lookupProp] at hl
          by_cases hk : k2 = k
          · simp only [if_pos hk] at hl
            cases hl
            rw [hk]
            exact List.mem_cons_self _ _
          · simp only [if_neg hk] at hl
            exact List.mem_cons_of_mem _ (ih hl)
      exact (isJsonMembers_iff ps).1 h (k, w) hmem
  | _ => right; rfl

theorem isJson_orElse (a b : Val) (ha : a.isJson = true ∨ a = .undefined) (hb : b.isJson = true) :
    (a.orElse b).isJson = true := by
  unfold Val.orElse
  split
  · rename_i ht
    rcases ha with ha | ha
    · exact ha
    · rw [ha] at ht
      simp [Val.truthy] at ht
  · exact hb

theorem truthy_orElse (a b : Val) (hb : b.truthy = true) : (a.orElse b).truthy = true := by
  unfold Val.orElse
  split
  · assumption
  · exact hb

theorem orElse_of_truthy (a b : Val) (ha : a.truthy = true) : a.orElse b = a := by
  simp [Val.orElse, ha]

theorem orElse_orElse (a b : Val) : (a.orElse b).orElse b = a.orElse b := by
  simp only [Val.orElse]
  by_cases ha : a.truthy = true
  · simp [ha]
  · simp [ha]

theorem isPlainObject_set (v : Val) (k : String) (x : Val) :
    (v.set k x).isPlainObject = v.isPlainObject := by
  cases v <;> rfl

/-- Shape of a planet returned by the callback: the input with three members written. -/
theorem migratePlanet_shape (h : Host) (adv p q : Val) (n n1 : Nat)
    (hrun : migratePlanet h adv p n = .ok (q, n1)) :
    ∃ i s o, q = ((p.set "id" i).set "sizePercent" s).set "orbit" o ∧
      i = (if (p.get "id").truthy = true then p.get "id" else Val.str (h.uid n)) ∧
      s = ((p.set "id" i).get "sizePercent").orElse (Val.int 18) ∧
      ((((p.set "id" i).set "sizePercent" s).get "orbit").truthy = true ∧
          o = ((p.set "id" i).set "sizePercent" s).get "orbit" ∨
        (((p.set "id" i).set "sizePercent" s).get "orbit").truthy = false ∧
          synthOrbit h adv ((p.set "id" i).set "sizePercent" s) = .ok o) := by
  unfold migratePlanet at hrun
  by_cases hnull : p.isNullish = true
  · rw [if_pos hnull] at hrun
    cases hrun
  · rw [if_neg hnull] at hrun
    dsimp only at hrun
    generalize hi : (if (p.get "id").truthy = true then p.get "id" else Val.str (h.uid n)) = i
      at hrun
    generalize hs : ((p.set "id" i).get "sizePercent").orElse (Val.int 18) = s at hrun
    by_cases hot : (((p.set "id" i).set "sizePercent" s).get "orbit").truthy = true
    · rw [if_pos hot] at hrun
      simp only [Except.ok.injEq, Prod.mk.injEq] at hrun
      refine ⟨i, s, _, hrun.1.symm, ?_, ?_, Or.inl ⟨hot, rfl⟩⟩
      · rfl
      · exact hs.symm
    · rw [if_neg hot] at hrun
      cases ho : synthOrbit h adv ((p.set "id" i).set "sizePercent" s) with
      | error e =>
        rw [ho] at hrun
        cases hrun
      | ok o =>
        rw [ho] at hrun
        simp only [Except.ok.injEq, Prod.mk.injEq] at hrun
        refine ⟨i, s, o, hrun.1.symm, ?_, ?_, Or.inr ⟨by simpa using hot, ho⟩⟩
        · rfl
        · exact hs.symm

theorem migratePlanet_isPlainObject (h : Host) (adv p q : Val) (n n1 : Nat)
    (hrun : migratePlanet h adv p n = .ok (q, n1)) : q.isPlainObject = p.isPlainObject := by
  obtain ⟨i, s, o, hq, _⟩ := migratePlanet_shape h adv p q n n1 hrun
  rw [hq]
  simp only [isPlainObject_set]

theorem migratePlanet_stable (h : Host) (adv q : Val) (n : Nat) (hq : StablePlanet q) :
    migratePlanet h adv q n = .ok (q, n) := by
  obtain ⟨ps, i, s, o, rfl, hi, hit, hs, hst, ho, hot⟩ := hq
  have e1 : setProp ps "id" i = ps := setProp_same ps "id" i hi
  have e2 : setProp ps "sizePercent" s = ps := setProp_same ps "sizePercent" s hs
  have e3 : setProp ps "orbit" o = ps := setProp_same ps "orbit" o ho
  simp [migratePlanet, Val.isNullish, Val.get, Val.set, hi, hit, e1, hs, hst,
    orElse_of_truthy, e2, ho, hot, e3]

theorem migratePlanets_stable (h : Host) (adv : Val) :
    ∀ (qs : List Val) (n : Nat), (∀ q ∈ qs, StablePlanet q) →
      migratePlanets h adv qs n = .ok (qs, n) := by
  intro qs
  induction qs with
  | nil => intro n _; rfl
  | cons q rest ih =>
    intro n hall
    have hq := migratePlanet_stable h adv q n (hall q (List.mem_cons_self _ _))
    have hrest := ih n (fun x hx => hall x (List.mem_cons_of_mem _ hx))
    simp [migratePlanets, hq, hrest]

theorem isJson_numberOr (r : Option Num) (d : Val) (hd : d.isJson = true) :
    (numberOr r d).isJson = true := by
  cases r with
  | none => exact hd
  | some n =>
    simp only [numberOr]
    exact isJson_orElse _ _ (Or.inl rfl) hd

theorem synthOrbit_isJson (h : Host) (adv p o : Val) (hp : (p.get "orbit").truthy = false)
    (ho : synthOrbit h adv p = .ok o) : o.isJson = true ∧ o.truthy = true := by
  unfold synthOrbit at ho
  simp only at ho
  split at ho
  · cases ho
    have hspeed : (((p.get "orbit").andAlso ((p.get "orbit").get "speed")).orElse
        (.num ⟨2, 1⟩)) = .num ⟨2, 1⟩ := by
      simp [Val.andAlso, Val.orElse, hp]
    rw [hspeed]
    refine ⟨?_, rfl⟩
    simp [Val.isJson, isJsonMembers, isJson_numberOr, Val.int]
  · cases ho

theorem migratePlanet_output (h : Host) (adv p q : Val) (n n1 : Nat)
    (hrun : migratePlanet h adv p n = .ok (q, n1)) (hq : q.isPlainObject = true)
    (hp : p.isJson = true) : StablePlanet q ∧ q.isJson = true := by
  have hkind := migratePlanet_isPlainObject h adv p q n n1 hrun
  rw [hq] at hkind
  cases p with
  | undefined => simp [Val.isPlainObject] at hkind
  | null => simp [Val.isPlainObject] at hkind
  | bool b => simp [Val.isPlainObject] at hkind
  | num x => simp [Val.isPlainObject] at hkind
  | str x => simp [Val.isPlainObject] at hkind
  | arr items ps => simp [Val.isPlainObject] at hkind
  | obj ps =>
    simp only [Val.isJson] at hp
    obtain ⟨i, s, o, hqe, hi, hs, ho⟩ := migratePlanet_shape h adv _ q n n1 hrun
    simp only [Val.set] at hqe hs ho
    have hit : i.truthy = true := by
      rw [hi]
      split
      · assumption
      · simp [Val.truthy, h.uid_ne n]
    have hij : i.isJson = true := by
      rw [hi]
      split
      · rename_i ht
        rcases isJson_get (.obj ps) "id" (by simpa [Val.isJson] using hp) with hj | hj
        · exact hj
        · rw [hj] at ht; simp [Val.truthy] at ht
      · rfl
    have hp1 : isJsonMembers (setProp ps "id" i) = true := isJsonMembers_setProp ps "id" i hp hij
    have hst : s.truthy = true := by
      rw [hs]; exact truthy_orElse _ _ rfl
    have hsj : s.isJson = true := by
      rw [hs]
      exact isJson_orElse _ _ (isJson_get _ _ (by simpa [Val.isJson] using hp1)) rfl
    have hp2 : isJsonMembers (setProp (setProp ps "id" i) "sizePercent" s) = true :=
      isJsonMembers_setProp _ _ _ hp1 hsj
    have hp2v : (Val.obj (setProp (setProp ps "id" i) "sizePercent" s)).isJson = true := by
      simpa [Val.isJson] using hp2
    have hoo : o.truthy = true ∧ o.isJson = true := by
      rcases ho with ⟨hot, hoe⟩ | ⟨hot, hoe⟩
      · rw [hoe]
        refine ⟨hot, ?_⟩
        rcases isJson_get _ "orbit" hp2v with hj | hj
        · exact hj
        · rw [hj] at hot; simp [Val.truthy] at hot
      · have := synthOrbit_isJson h adv _ o hot hoe
        exact ⟨this.2, this.1⟩
    rw [hqe]
    refine ⟨⟨_, i, s, o, rfl, ?_, hit, ?_, hst, ?_, hoo.1⟩, ?_⟩
    · rw [lookupProp_setProp_ne _ _ _ _ (by decide), lookupProp_setProp_ne _ _ _ _ (by decide),
        lookupProp_setProp_same]
    · rw [lookupProp_setProp_ne _ _ _ _ (by decide), lookupProp_setProp_same]
    · rw [lookupProp_setProp_same]
    · simp only [Val.isJson]
      exact isJsonMembers_setProp _ _ _ hp2 hoo.2

theorem migratePlanets_output (h : Host) (adv : Val) :
    ∀ (ps qs : List Val) (n n1 : Nat), migratePlanets h adv ps n = .ok (qs, n1) →
      (∀ q ∈ qs, q.isPlainObject = true) → isJsonItems ps = true →
      ∀ q ∈ qs, StablePlanet q ∧ q.isJson = true := by
  intro ps
  induction ps with
  | nil =>
    intro qs n n1 hrun _ _
    simp only [migratePlanets, Except.ok.injEq, Prod.mk.injEq] at hrun
    rw [← hrun.1]
    simp
  | cons p rest ih =>
    intro qs n n1 hrun hobj hjson
    simp only [isJsonItems, Bool.and_eq_true] at hjson
    simp only [migratePlanets] at hrun
    cases h1 : migratePlanet h adv p n with
    | error e => simp [h1] at hrun
    | ok r1 =>
      obtain ⟨q1, m1⟩ := r1
      simp only [h1] at hrun
      cases h2 : migratePlanets h adv rest m1 with
      | error e => simp [h2] at hrun
      | ok r2 =>
        obtain ⟨qs2, m2⟩ := r2
        simp only [h2, Except.ok.injEq, Prod.mk.injEq] at hrun
        rw [← hrun.1] at hobj ⊢
        intro q hq
        simp only [List.mem_cons] at hq
        rcases hq with hq | hq
        · rw [hq]
          exact migratePlanet_output h adv p q1 n m1 h1 (hobj q1 (List.mem_cons_self _ _)) hjson.1
        · exact ih qs2 m1 m2 h2 (fun x hx => hobj x (List.mem_cons_of_mem _ hx)) hjson.2 q hq

theorem isJsonItems_map_snd (ps : Props) (h : isJsonMembers ps = true) :
    isJsonItems (ps.map Prod.snd) = true := by
  induction ps with
  | nil => rfl
  | cons kv rest ih =>
    obtain ⟨k, v⟩ := kv
    simp only [isJsonMembers, Bool.and_eq_true] at h
    simp only [List.map_cons, isJsonItems, Bool.and_eq_true]
    exact ⟨h.1, ih h.2⟩

theorem isJson_coercePlanets (a : Val) (ha : a.isJson = true ∨ a = .undefined) :
    (coercePlanets a).isJson = true := by
  unfold coercePlanets
  split
  · rename_i harr
    rcases ha with ha | ha
    · exact ha
    · rw [ha] at harr; simp [Val.isArray] at harr
  · split
    · rename_i _ ht
      rcases ha with ha | ha
      · simp only [Val.isJson, Bool.and_eq_true, List.isEmpty_iff, and_true]
        exact isJsonItems_map_snd _ (isJsonMembers_ownProps a ha)
      · rw [ha] at ht; simp [Val.truthy] at ht
    · rfl

theorem coercePlanets_array (qs : List Val) (ps : Props) :
    coercePlanets (.arr qs ps) = .arr qs ps := by
  simp [coercePlanets, Val.isArray]

/-- The stable form of an object system: JSON members, a settled `id`, and a `planets`
array of stable planets. -/
theorem stableSystem_obj (h : Host) (adv : Val) (k : String) (ps : Props) (i : Val)
    (qs : List Val) (hk : k ≠ "__proto__") (hps : isJsonMembers ps = true)
    (hid : lookupProp ps "id" = some i) (hi : i.orElse (.str k) = i)
    (hqs : ∀ q ∈ qs, StablePlanet q ∧ q.isJson = true) :
    StableSystem h adv k (.obj (setProp ps "planets" (.arr qs []))) := by
  have hqj : (Val.arr qs []).isJson = true := by
    simp only [Val.isJson, Bool.and_eq_true, List.isEmpty_iff, and_true]
    rw [isJsonItems_iff]
    exact fun q hq => (hqs q hq).2
  have hvj : (Val.obj (setProp ps "planets" (.arr qs []))).isJson = true := by
    simp only [Val.isJson]
    exact isJsonMembers_setProp ps "planets" _ hps hqj
  have hid2 : lookupProp (setProp ps "planets" (.arr qs [])) "id" = some i := by
    rw [lookupProp_setProp_ne _ _ _ _ (by decide), hid]
  have hpl2 : lookupProp (setProp ps "planets" (.arr qs [])) "planets" = some (.arr qs []) :=
    lookupProp_setProp_same _ _ _
  have e1 : setProp (setProp ps "planets" (.arr qs [])) "id" i
      = setProp ps "planets" (.arr qs []) := setProp_same _ _ _ hid2
  have e2 : setProp (setProp ps "planets" (.arr qs [])) "planets" (.arr qs [])
      = setProp ps "planets" (.arr qs []) := setProp_same _ _ _ hpl2
  have hnorm : normaliseSystem k (.obj (setProp ps "planets" (.arr qs [])))
      = .obj (setProp ps "planets" (.arr qs [])) := by
    simp only [normaliseSystem, Val.get, Val.set, hid2, Option.getD_some, hi, e1, hpl2,
      coercePlanets_array, e2]
  refine ⟨rfl, hk, ?_⟩
  intro n
  rw [jsonStringify_of_isJson _ hvj, hnorm]
  have hmp := migratePlanets_stable h adv qs n (fun q hq => (hqs q hq).1)
  simp only [validateSystem, Val.isNullish, Val.get, Val.set, hid2, Option.getD_some, hi, e1,
    hpl2, hmp, e2]
  rfl

theorem planetItems_setProp (ps : Props) (qs : List Val) :
    planetItems (.obj (setProp ps "planets" (.arr qs []))) = qs := by
  simp [planetItems, Val.get, lookupProp_setProp_same]

theorem mem_of_lookupProp (ps : Props) (k : String) (w : Val) (hl : lookupProp ps k = some w) :
    (k, w) ∈ ps := by
  induction ps with
  | nil => simp [lookupProp] at hl
  | cons kv rest ih =>
    obtain ⟨k2, v2⟩ := kv
    simp only [lookupProp] at hl
    by_cases hk : k2 = k
    · simp only [if_pos hk] at hl
      cases hl
      rw [hk]
      exact List.mem_cons_self _ _
    · simp only [if_neg hk] at hl
      exact List.mem_cons_of_mem _ (ih hl)

/-- Validation of an object system with JSON members and a settled `id` rewrites its
`planets` member only, with planets that are stable when they are plain objects. -/
theorem validateSystem_obj (h : Host) (adv : Val) (k : String) (ps : Props) (i v : Val)
    (n n1 : Nat) (hps : isJsonMembers ps = true) (hid : lookupProp ps "id" = some i)
    (hi : i.orElse (.str k) = i)
    (hrun : validateSystem h adv k (.obj ps) n = .ok (v, n1))
    (hobj : ∀ q ∈ planetItems v, q.isPlainObject = true) :
    ∃ qs, v = .obj (setProp ps "planets" (.arr qs [])) ∧
      ∀ q ∈ qs, StablePlanet q ∧ q.isJson = true := by
  have e1 : setProp ps "id" i = ps := setProp_same ps "id" i hid
  simp only [validateSystem, Val.isNullish, Val.get, Val.set, hid, Option.getD_some, hi, e1,
    Bool.false_eq_true, if_false] at hrun
  cases hpl : lookupProp ps "planets" with
  | none =>
    simp only [hpl, Option.getD_none, Except.ok.injEq, Prod.mk.injEq] at hrun
    exact ⟨[], hrun.1.symm, by simp⟩
  | some w =>
    simp only [hpl, Option.getD_some] at hrun
    cases w with
    | arr items pp =>
      simp only at hrun
      cases hmp : migratePlanets h adv items n with
      | error e => simp [hmp] at hrun
      | ok r =>
        obtain ⟨qs, m⟩ := r
        simp only [hmp, Except.ok.injEq, Prod.mk.injEq] at hrun
        refine ⟨qs, hrun.1.symm, ?_⟩
        have hitems : isJsonItems items = true := by
          have := (isJsonMembers_iff ps).1 hps _ (mem_of_lookupProp ps _ _ hpl)
          simp only [Val.isJson, Bool.and_eq_true] at this
          exact this.1
        rw [← hrun.1, planetItems_setProp] at hobj
        exact migratePlanets_output h adv items qs n m hmp hobj hitems
    | undefined =>
      simp only [Except.ok.injEq, Prod.mk.injEq] at hrun
      exact ⟨[], hrun.1.symm, by simp⟩
    | null =>
      simp only [Except.ok.injEq, Prod.mk.injEq] at hrun
      exact ⟨[], hrun.1.symm, by simp⟩
    | bool b =>
      simp only [Except.ok.injEq, Prod.mk.injEq] at hrun
      exact ⟨[], hrun.1.symm, by simp⟩
    | num x =>
      simp only [Except.ok.injEq, Prod.mk.injEq] at hrun
      exact ⟨[], hrun.1.symm, by simp⟩
    | str x =>
      simp only [Except.ok.injEq, Prod.mk.injEq] at hrun
      exact ⟨[], hrun.1.symm, by simp⟩
    | obj x =>
      simp only [Except.ok.injEq, Prod.mk.injEq] at hrun
      exact ⟨[], hrun.1.symm, by simp⟩

theorem arrayIndex_id : arrayIndex "id" = none := by decide

theorem arrayIndex_planets : arrayIndex "planets" = none := by decide

theorem truthy_jsonStringify (v : Val) (hv : v.truthy = true) :
    (jsonStringify v).truthy = true := by
  cases v <;> simp_all [jsonStringify, Val.truthy]

/-- Every entry stored by the first loops of `migrateLoaded` is stable once validated,
provided its planets came out as plain objects. -/
theorem stableSystem_of_collected (h : Host) (adv : Val) (k : String) (u v : Val) (n n1 : Nat)
    (hc : Collected k u) (hrun : validateSystem h adv k u n = .ok (v, n1))
    (hobj : ∀ q ∈ planetItems v, q.isPlainObject = true) : StableSystem h adv k v := by
  obtain ⟨hk, hcase⟩ := hc
  rcases hcase with ⟨v0, hj, ht, hu⟩ | ⟨ps, i, hu, hps, hid, hit⟩
  · cases v0 with
    | undefined => simp [Val.truthy] at ht
    | null => simp [Val.truthy] at ht
    | bool b =>
      have hu2 : u = .bool b := by rw [hu]; rfl
      rw [hu2] at hrun
      simp only [validateSystem, Val.isNullish, Val.get, Val.set, Bool.false_eq_true, if_false,
        Except.ok.injEq, Prod.mk.injEq] at hrun
      rw [← hrun.1]
      refine ⟨ht, hk, fun m => ?_⟩
      rfl
    | num x =>
      have hu2 : u = .num x := by rw [hu]; rfl
      rw [hu2] at hrun
      simp only [validateSystem, Val.isNullish, Val.get, Val.set, Bool.false_eq_true, if_false,
        Except.ok.injEq, Prod.mk.injEq] at hrun
      rw [← hrun.1]
      refine ⟨ht, hk, fun m => ?_⟩
      rfl
    | str x =>
      have hu2 : u = .str x := by rw [hu]; rfl
      rw [hu2] at hrun
      simp only [validateSystem, Val.isNullish, Val.get, Val.set, Bool.false_eq_true, if_false,
        Except.ok.injEq, Prod.mk.injEq] at hrun
      rw [← hrun.1]
      refine ⟨ht, hk, fun m => ?_⟩
      rfl
    | arr items pp =>
      simp only [Val.isJson, Bool.and_eq_true, List.isEmpty_iff] at hj
      obtain ⟨hitems, hpp⟩ := hj
      subst hpp
      have hu2 : u = .arr items [("id", .str k), ("planets", .arr [] [])] := by
        rw [hu]
        simp [normaliseSystem, Val.get, Val.set, lookupProp, setProp, Val.orElse, Val.truthy,
          coercePlanets, Val.isArray, replaceProp, arrayIndex_id, arrayIndex_planets]
      have hval : ∀ m, validateSystem h adv k
          (.arr items [("id", .str k), ("planets", .arr [] [])]) m
          = .ok (.arr items [("id", .str k), ("planets", .arr [] [])], m) := by
        intro m
        simp [validateSystem, Val.isNullish, Val.get, Val.set, lookupProp, setProp, Val.orElse,
          replaceProp, migratePlanets, arrayIndex_id, arrayIndex_planets]
      rw [hu2, hval n] at hrun
      simp only [Except.ok.injEq, Prod.mk.injEq] at hrun
      rw [← hrun.1]
      refine ⟨rfl, hk, fun m => ?_⟩
      have hs : jsonStringify (.arr items [("id", .str k), ("planets", .arr [] [])])
          = .arr items [] := by
        simp [jsonStringify, jsonItems_of_isJson items hitems]
      rw [hs, ← hu, hu2]
      exact hval m
    | obj ps0 =>
      simp only [Val.isJson] at hj
      have hi0j : (((Val.obj ps0).get "id").orElse (.str k)).isJson = true :=
        isJson_orElse _ _ (isJson_get _ _ (by simpa [Val.isJson] using hj)) rfl
      have hp1 : isJsonMembers (setProp ps0 "id" (((Val.obj ps0).get "id").orElse (.str k)))
          = true := isJsonMembers_setProp _ _ _ hj hi0j
      have hu2 : u = .obj (setProp (setProp ps0 "id" (((Val.obj ps0).get "id").orElse (.str k)))
          "planets" (coercePlanets ((Val.obj (setProp ps0 "id"
            (((Val.obj ps0).get "id").orElse (.str k)))).get "planets"))) := by
        rw [hu]; rfl
      have hplj : (coercePlanets ((Val.obj (setProp ps0 "id"
            (((Val.obj ps0).get "id").orElse (.str k)))).get "planets")).isJson = true :=
        isJson_coercePlanets _ (isJson_get _ _ (by simpa [Val.isJson] using hp1))
      rw [hu2] at hrun
      obtain ⟨qs, hv, hqs⟩ := validateSystem_obj h adv k _ _ v n n1
        (isJsonMembers_setProp _ _ _ hp1 hplj)
        (by rw [lookupProp_setProp_ne _ _ _ _ (by decide), lookupProp_setProp_same])
        (orElse_orElse _ _) hrun hobj
      rw [hv]
      exact stableSystem_obj h adv k _ _ qs hk (isJsonMembers_setProp _ _ _ hp1 hplj)
        (by rw [lookupProp_setProp_ne _ _ _ _ (by decide), lookupProp_setProp_same])
        (orElse_orElse _ _) hqs
  · rw [hu] at hrun
    obtain ⟨qs, hv, hqs⟩ := validateSystem_obj h adv k ps i v n n1 hps hid
      (orElse_of_truthy _ _ hit) hrun hobj
    rw [hv]
    exact stableSystem_obj h adv k ps i qs hk hps hid (orElse_of_truthy _ _ hit) hqs

/-! ### The loops over systems -/

theorem canonKeys_nil (B : List String) (hB : ∀ k ∈ B, arrayIndex k = none) (hnd : B.Nodup) :
    CanonKeys B B :=
  ⟨[], [], by simp, by simp, List.Pairwise.nil, by simpa using hB, hnd⟩

theorem collectArray_spec (h : Host) :
    ∀ (items : List Val) (acc l : Props), collectArray h items acc = .ok l →
      isJsonItems items = true → CanonKeys [] (keysOf acc) →
      (∀ x ∈ acc, Collected x.1 x.2) →
      CanonKeys [] (keysOf l) ∧ ∀ x ∈ l, Collected x.1 x.2 := by
  intro items
  induction items with
  | nil =>
    intro acc l hrun _ hc hall
    simp only [collectArray, Except.ok.injEq] at hrun
    rw [← hrun]
    exact ⟨hc, hall⟩
  | cons s rest ih =>
    intro acc l hrun hjson hc hall
    simp only [isJsonItems, Bool.and_eq_true] at hjson
    simp only [collectArray] at hrun
    by_cases hcond : (s.andAlso (s.get "id")).truthy = true
    · rw [if_pos hcond] at hrun
      cases hkey : h.toPropertyKey (s.get "id") with
      | none => simp [hkey] at hrun
      | some k =>
        simp only [hkey] at hrun
        by_cases hk : k = "__proto__"
        · simp [hk] at hrun
        · rw [if_neg hk] at hrun
          apply ih _ _ hrun hjson.2 (canonKeys_setProp [] acc k s hc)
          intro x hx
          rcases mem_setProp acc k s x hx with hx1 | hx1
          · rw [hx1]
            refine ⟨hk, Or.inr ?_⟩
            -- a JSON value with a truthy `id` member is a plain object
            have hst : s.truthy = true := by
              by_contra hns
              simp only [Val.andAlso, hns] at hcond
              exact hns hcond
            have hidt : (s.get "id").truthy = true := by
              simpa [Val.andAlso, hst] using hcond
            cases s with
            | obj ps =>
              simp only [Val.get] at hidt
              cases hl : lookupProp ps "id" with
              | none => simp [hl, Val.truthy] at hidt
              | some i =>
                simp only [hl, Option.getD_some] at hidt
                exact ⟨ps, i, rfl, by simpa [Val.isJson] using hjson.1, hl, hidt⟩
            | arr its pp =>
              simp only [Val.isJson, Bool.and_eq_true, List.isEmpty_iff] at hjson
              simp [Val.get, hjson.1.2, lookupProp, Val.truthy] at hidt
            | undefined => simp [Val.get, Val.truthy] at hidt
            | null => simp [Val.get, Val.truthy] at hidt
            | bool b => simp [Val.get, Val.truthy] at hidt
            | num x => simp [Val.get, Val.truthy] at hidt
            | str x => simp [Val.get, Val.truthy] at hidt
          · exact hall x hx1
    · rw [if_neg hcond] at hrun
      exact ih _ _ hrun hjson.2 hc hall

theorem collectMapping_spec :
    ∀ (ps acc l : Props), collectMapping ps acc = .ok l →
      isJsonMembers ps = true → CanonKeys [] (keysOf acc) →
      (∀ x ∈ acc, Collected x.1 x.2) →
      CanonKeys [] (keysOf l) ∧ ∀ x ∈ l, Collected x.1 x.2 := by
  intro ps
  induction ps with
  | nil =>
    intro acc l hrun _ hc hall
    simp only [collectMapping, Except.ok.injEq] at hrun
    rw [← hrun]
    exact ⟨hc, hall⟩
  | cons kv rest ih =>
    obtain ⟨k, v⟩ := kv
    intro acc l hrun hjson hc hall
    simp only [isJsonMembers, Bool.and_eq_true] at hjson
    simp only [collectMapping] at hrun
    by_cases hv : v.truthy = true
    · simp only [hv, Bool.not_true, Bool.false_eq_true, if_false] at hrun
      by_cases hk : k = "__proto__"
      · rw [if_pos hk] at hrun
        split at hrun
        · cases hrun
        · exact ih _ _ hrun hjson.2 hc hall
      · rw [if_neg hk] at hrun
        apply ih _ _ hrun hjson.2 (canonKeys_setProp [] acc k _ hc)
        intro x hx
        rcases mem_setProp acc k _ x hx with hx1 | hx1
        · rw [hx1]
          exact ⟨hk, Or.inl ⟨v, hjson.1, hv, rfl⟩⟩
        · exact hall x hx1
    · simp only [hv, Bool.not_false, if_true] at hrun
      exact ih _ _ hrun hjson.2 hc hall

theorem collectSystems_spec (h : Host) (x : Val) (l : Props) (hx : x.isJson = true)
    (hrun : collectSystems h x = .ok l) :
    CanonKeys [] (keysOf l) ∧ ∀ e ∈ l, Collected e.1 e.2 := by
  have hbase : CanonKeys [] (keysOf ([] : Props)) :=
    canonKeys_nil [] (by simp) List.nodup_nil
  have hnil : CanonKeys [] (keysOf ([] : Props)) ∧ ∀ e ∈ ([] : Props), Collected e.1 e.2 :=
    ⟨hbase, by simp⟩
  unfold collectSystems at hrun
  dsimp only at hrun
  by_cases hls : (x.andAlso (x.get "systems")).truthy = true
  · rw [if_pos hls] at hrun
    have hxt : x.truthy = true := by
      by_contra hns
      simp only [Val.andAlso, hns] at hls
      exact hns hls
    have hand : x.andAlso (x.get "systems") = x.get "systems" := by
      simp [Val.andAlso, hxt]
    rw [hand] at hrun hls
    rcases isJson_get x "systems" hx with hj | hj
    · cases hsys : x.get "systems" with
      | arr items pp =>
        rw [hsys] at hrun hj
        simp only [Val.isJson, Bool.and_eq_true] at hj
        exact collectArray_spec h items [] l hrun hj.1 hbase (by simp)
      | obj ps =>
        rw [hsys] at hrun hj
        simp only [Val.isJson] at hj
        exact collectMapping_spec ps [] l hrun hj hbase (by simp)
      | undefined => rw [hsys] at hrun; cases hrun; exact hnil
      | null => rw [hsys] at hrun; cases hrun; exact hnil
      | bool b => rw [hsys] at hrun; cases hrun; exact hnil
      | num n => rw [hsys] at hrun; cases hrun; exact hnil
      | str s => rw [hsys] at hrun; cases hrun; exact hnil
    · rw [hj] at hls
      simp [Val.truthy] at hls
  · rw [if_neg hls] at hrun
    cases hrun
    exact hnil

theorem validateSystems_spec (h : Host) (adv : Val) :
    ∀ (l l1 : Props) (n n1 : Nat), validateSystems h adv l n = .ok (l1, n1) →
      (∀ x ∈ l, Collected x.1 x.2) →
      (∀ x ∈ l1, ∀ q ∈ planetItems x.2, q.isPlainObject = true) →
      keysOf l1 = keysOf l ∧ ∀ x ∈ l1, StableSystem h adv x.1 x.2 := by
  intro l
  induction l with
  | nil =>
    intro l1 n n1 hrun _ _
    simp only [validateSystems, Except.ok.injEq, Prod.mk.injEq] at hrun
    rw [← hrun.1]
    simp
  | cons kv rest ih =>
    obtain ⟨k, u⟩ := kv
    intro l1 n n1 hrun hall hobj
    simp only [validateSystems] at hrun
    cases h1 : validateSystem h adv k u n with
    | error e => simp [h1] at hrun
    | ok r1 =>
      obtain ⟨v, m1⟩ := r1
      simp only [h1] at hrun
      cases h2 : validateSystems h adv rest m1 with
      | error e => simp [h2] at hrun
      | ok r2 =>
        obtain ⟨rest1, m2⟩ := r2
        simp only [h2, Except.ok.injEq, Prod.mk.injEq] at hrun
        rw [← hrun.1] at hobj ⊢
        obtain ⟨hkeys, hst⟩ := ih rest1 m1 m2 h2
          (fun x hx => hall x (List.mem_cons_of_mem _ hx))
          (fun x hx => hobj x (List.mem_cons_of_mem _ hx))
        refine ⟨by simp only [keysOf, List.map_cons] at hkeys ⊢; rw [hkeys], ?_⟩
        intro x hx
        simp only [List.mem_cons] at hx
        rcases hx with hx | hx
        · rw [hx]
          exact stableSystem_of_collected h adv k u v n m1 (hall (k, u) (List.mem_cons_self _ _))
            h1 (hobj (k, v) (List.mem_cons_self _ _))
        · exact hst x hx

theorem collectMapping_stable (h : Host) (adv : Val) :
    ∀ (l1 acc : Props), (∀ x ∈ l1, StableSystem h adv x.1 x.2) →
      collectMapping (jsonMembers l1) acc = .ok (objectAssign acc (renormalised l1)) := by
  intro l1
  induction l1 with
  | nil => intro acc _; rfl
  | cons kv rest ih =>
    obtain ⟨k, v⟩ := kv
    intro acc hall
    obtain ⟨hvt, hk, _⟩ := hall (k, v) (List.mem_cons_self _ _)
    have hmem : jsonMembers ((k, v) :: rest) = (k, jsonStringify v) :: jsonMembers rest := by
      cases v <;> simp_all [jsonMembers, Val.truthy]
    have hst := truthy_jsonStringify v hvt
    rw [hmem]
    simp only [collectMapping, hst, Bool.not_true, Bool.false_eq_true, if_false, if_neg hk]
    rw [ih _ (fun x hx => hall x (List.mem_cons_of_mem _ hx))]
    simp [renormalised, objectAssign_eq_foldl, assignStep, hk]

theorem validateSystems_stable (h : Host) (adv : Val) :
    ∀ (l1 : Props) (n : Nat), (∀ x ∈ l1, StableSystem h adv x.1 x.2) →
      validateSystems h adv (renormalised l1) n = .ok (l1, n) := by
  intro l1
  induction l1 with
  | nil => intro n _; rfl
  | cons kv rest ih =>
    obtain ⟨k, v⟩ := kv
    intro n hall
    obtain ⟨_, _, hval⟩ := hall (k, v) (List.mem_cons_self _ _)
    have hrest := ih n (fun x hx => hall x (List.mem_cons_of_mem _ hx))
    simp only [renormalised, List.map_cons] at hrest ⊢
    simp only [validateSystems, hval n, hrest]

theorem keysOf_renormalised (l1 : Props) : keysOf (renormalised l1) = keysOf l1 := by
  simp [renormalised, keysOf, Function.comp_def]

theorem ensureCurrent_stable (h : Host) (adv : Val) (c0 cur : Val) (l1 : Props)
    (hall : ∀ x ∈ l1, StableSystem h adv x.1 x.2)
    (hrun : ensureCurrent h c0 l1 = .ok cur) : ensureCurrent h cur l1 = .ok cur := by
  have hfirst : ensureCurrent h (firstKeyOrNull l1) l1 = .ok (firstKeyOrNull l1) := by
    cases l1 with
    | nil => rfl
    | cons kv rest =>
      obtain ⟨k, v⟩ := kv
      by_cases hk : k = ""
      · simp [firstKeyOrNull, Val.orElse, Val.truthy, hk, ensureCurrent]
      · have hvt := (hall (k, v) (List.mem_cons_self _ _)).1
        simp [firstKeyOrNull, Val.orElse, Val.truthy, hk, ensureCurrent, Host.toPropertyKey,
          toStringJs, truthyAt, lookupProp, hvt]
  unfold ensureCurrent at hrun
  by_cases hc : c0.truthy = true
  · simp only [hc, Bool.not_true, Bool.false_eq_true, if_false] at hrun
    cases hkey : h.toPropertyKey c0 with
    | none => simp [hkey] at hrun
    | some k =>
      simp only [hkey] at hrun
      by_cases hat : truthyAt l1 k = true
      · rw [if_pos hat] at hrun
        simp only [Except.ok.injEq] at hrun
        rw [← hrun]
        simp [ensureCurrent, hc, hkey, hat]
      · rw [if_neg hat] at hrun
        simp only [Except.ok.injEq] at hrun
        rw [← hrun]
        exact hfirst
  · simp only [hc, Bool.not_false, if_true, Except.ok.injEq] at hrun
    rw [← hrun]
    exact hfirst

/-! ### Serialising a state object -/

theorem ne_undefined_of_isJson (v : Val) (h : v.isJson = true) : v ≠ .undefined := by
  intro e
  rw [e] at h
  simp [Val.isJson] at h

theorem jsonMembers_cons (k : String) (v : Val) (ps : Props) (hv : v ≠ .undefined) :
    jsonMembers ((k, v) :: ps) = (k, jsonStringify v) :: jsonMembers ps := by
  cases v <;> simp_all [jsonMembers]

theorem jsonMembers_replaceProp (ps : Props) (k : String) (v : Val)
    (hps : ∀ x ∈ ps, x.2 ≠ .undefined) (hv : v ≠ .undefined) :
    jsonMembers (replaceProp ps k v) = replaceProp (jsonMembers ps) k (jsonStringify v) := by
  induction ps with
  | nil => rfl
  | cons kv rest ih =>
    obtain ⟨k2, v2⟩ := kv
    have hv2 : v2 ≠ .undefined := hps (k2, v2) (List.mem_cons_self _ _)
    have hrest : ∀ x ∈ rest, x.2 ≠ .undefined := fun x hx => hps x (List.mem_cons_of_mem _ hx)
    rw [jsonMembers_cons k2 v2 rest hv2]
    simp only [replaceProp]
    by_cases hk : k2 = k
    · simp only [if_pos hk]
      rw [jsonMembers_cons k2 v rest hv]
    · simp only [if_neg hk]
      rw [jsonMembers_cons k2 v2 _ hv2, ih hrest]

theorem replaceProp_replaceProp (ps : Props) (k : String) (a b : Val) :
    replaceProp (replaceProp ps k a) k b = replaceProp ps k b := by
  induction ps with
  | nil => rfl
  | cons kv rest ih =>
    obtain ⟨k2, v2⟩ := kv
    simp only [replaceProp]
    by_cases hk : k2 = k
    · simp [if_pos hk, replaceProp]
    · simp only [if_neg hk, replaceProp]
      rw [ih]

theorem replaceProp_comm (ps : Props) (k1 k2 : String) (a b : Val) (hne : k1 ≠ k2) :
    replaceProp (replaceProp ps k1 a) k2 b = replaceProp (replaceProp ps k2 b) k1 a := by
  induction ps with
  | nil => rfl
  | cons kv rest ih =>
    obtain ⟨k3, v3⟩ := kv
    by_cases h1 : k3 = k1
    · have h2 : ¬ k3 = k2 := fun e => hne (h1.symm.trans e)
      simp [replaceProp, h1, h2, hne]
    · by_cases h2 : k3 = k2
      · simp [replaceProp, h1, h2, Ne.symm hne]
      · simp only [replaceProp, if_neg h1, if_neg h2]
        rw [ih]

theorem lookupProp_isSome_setProp (ps : Props) (k a : String) (v : Val)
    (h : (lookupProp ps a).isSome = true) : (lookupProp (setProp ps k v) a).isSome = true := by
  by_cases hak : a = k
  · rw [hak, lookupProp_setProp_same]
    rfl
  · rw [lookupProp_setProp_ne ps k a v hak]
    exact h

theorem lookupProp_isSome_objectAssign (src : Props) (a : String) :
    ∀ acc : Props, (lookupProp acc a).isSome = true →
      (lookupProp (objectAssign acc src) a).isSome = true := by
  induction src with
  | nil => intro acc h; exact h
  | cons kv rest ih =>
    intro acc h
    rw [objectAssign_eq_foldl, List.foldl_cons]
    apply ih
    unfold assignStep
    split
    · exact h
    · exact lookupProp_isSome_setProp acc kv.1 a kv.2 h

theorem lookupProp_isSome_replaceProp (ps : Props) (k a : String) (v : Val)
    (h : (lookupProp ps a).isSome = true) : (lookupProp (replaceProp ps k v) a).isSome = true := by
  by_cases hak : a = k
  · obtain ⟨w, hw⟩ := Option.isSome_iff_exists.1 h
    rw [hak] at hw ⊢
    rw [lookupProp_replaceProp_same ps k v w hw]
    rfl
  · rw [lookupProp_replaceProp_ne ps k a v hak]
    exact h

theorem setProp_eq_replaceProp (ps : Props) (k : String) (v : Val)
    (h : (lookupProp ps k).isSome = true) : setProp ps k v = replaceProp ps k v := by
  obtain ⟨w, hw⟩ := Option.isSome_iff_exists.1 h
  exact setProp_of_lookup ps k v w hw

theorem lookupProp_replaceProp_self (ps : Props) (k : String) (v : Val)
    (h : (lookupProp ps k).isSome = true) : lookupProp (replaceProp ps k v) k = some v := by
  obtain ⟨w, hw⟩ := Option.isSome_iff_exists.1 h
  exact lookupProp_replaceProp_same ps k v w hw

/-! ### Facts on the default state -/

theorem objectAssign_nil_DEFAULT_STATE : objectAssign [] DEFAULT_STATE = DEFAULT_STATE := by
  decide

theorem objectAssign_nil_DEFAULT_ADV : objectAssign [] DEFAULT_ADV = DEFAULT_ADV := by
  decide

theorem canonKeys_DEFAULT_STATE : CanonKeys (keysOf DEFAULT_STATE) (keysOf DEFAULT_STATE) :=
  canonKeys_nil _ (by decide) (by decide)

theorem canonKeys_DEFAULT_ADV : CanonKeys (keysOf DEFAULT_ADV) (keysOf DEFAULT_ADV) :=
  canonKeys_nil _ (by decide) (by decide)

theorem isJsonMembers_DEFAULT_STATE : isJsonMembers DEFAULT_STATE = true := by decide

theorem isJsonMembers_DEFAULT_ADV : isJsonMembers DEFAULT_ADV = true := by decide

theorem proto_not_mem_DEFAULT_STATE : "__proto__" ∉ keysOf DEFAULT_STATE := by decide

theorem proto_not_mem_DEFAULT_ADV : "__proto__" ∉ keysOf DEFAULT_ADV := by decide

theorem isJson_andAlso_get (x : Val) (k : String) (hx : x.isJson = true) :
    (x.andAlso (x.get k)).isJson = true ∨ x.andAlso (x.get k) = .undefined := by
  unfold Val.andAlso
  split
  · exact isJson_get x k hx
  · exact Or.inl hx

theorem isJson_firstKeyOrNull (l : Props) : (firstKeyOrNull l).isJson = true := by
  cases l with
  | nil => rfl
  | cons kv rest =>
    simp only [firstKeyOrNull, Val.orElse]
    split <;> rfl

theorem isJson_ensureCurrent (h : Host) (c0 cur : Val) (l : Props) (hc : c0.isJson = true)
    (hrun : ensureCurrent h c0 l = .ok cur) : cur.isJson = true := by
  unfold ensureCurrent at hrun
  split at hrun
  · cases hrun; exact isJson_firstKeyOrNull l
  · split at hrun
    · cases hrun
    · split at hrun
      · cases hrun; exact hc
      · cases hrun; exact isJson_firstKeyOrNull l

theorem isJson_of_lookupProp (ps : Props) (k : String) (w : Val) (hps : isJsonMembers ps = true)
    (hl : lookupProp ps k = some w) : w.isJson = true :=
  (isJsonMembers_iff ps).1 hps (k, w) (mem_of_lookupProp ps k w hl)

/-- The state object that `migrateLoaded` returns, from the results of its steps. -/
theorem migrateLoaded_eq_of_steps (h : Host) (y : Val) (n n1 : Nat) (M0 PA L L1 : Props)
    (cur : Val)
    (hM0 : objectAssign (objectAssign [] DEFAULT_STATE) (ownProps (y.orElse (.obj []))) = M0)
    (hPA : objectAssign (objectAssign [] DEFAULT_ADV)
      (ownProps ((y.andAlso (y.get "adv")).orElse (.obj []))) = PA)
    (hcs : collectSystems h y = .ok L)
    (hvs : validateSystems h (.obj PA) L n = .ok (L1, n1))
    (hec : ensureCurrent h
      ((lookupProp (setProp (setProp M0 "adv" (.obj PA)) "systems" (.obj L1)) "current").getD
        .undefined) L1 = .ok cur) :
    migrateLoaded h y n =
      .ok (.obj (setProp (setProp (setProp M0 "adv" (.obj PA)) "systems" (.obj L1))
        "current" cur), n1) := by
  unfold migrateLoaded
  simp only [hM0, hPA, hcs, hvs, hec]

/-- The steps of a run of `migrateLoaded` that returned. -/
theorem migrateLoaded_steps (h : Host) (x m : Val) (n n1 : Nat)
    (hrun : migrateLoaded h x n = .ok (m, n1)) :
    ∃ L L1 cur,
      collectSystems h x = .ok L ∧
      validateSystems h (.obj (objectAssign (objectAssign [] DEFAULT_ADV)
        (ownProps ((x.andAlso (x.get "adv")).orElse (.obj []))))) L n = .ok (L1, n1) ∧
      ensureCurrent h
        ((lookupProp (setProp (setProp
          (objectAssign (objectAssign [] DEFAULT_STATE) (ownProps (x.orElse (.obj []))))
          "adv" (.obj (objectAssign (objectAssign [] DEFAULT_ADV)
            (ownProps ((x.andAlso (x.get "adv")).orElse (.obj []))))))
          "systems" (.obj L1)) "current").getD .undefined) L1 = .ok cur ∧
      m = .obj (setProp (setProp (setProp
          (objectAssign (objectAssign [] DEFAULT_STATE) (ownProps (x.orElse (.obj []))))
          "adv" (.obj (objectAssign (objectAssign [] DEFAULT_ADV)
            (ownProps ((x.andAlso (x.get "adv")).orElse (.obj []))))))
          "systems" (.obj L1)) "current" cur) := by
  unfold migrateLoaded at hrun
  dsimp only at hrun
  cases hcs : collectSystems h x with
  | error e => rw [hcs] at hrun; cases hrun
  | ok L =>
    rw [hcs] at hrun
    dsimp only at hrun
    cases hvs : validateSystems h (.obj (objectAssign (objectAssign [] DEFAULT_ADV)
        (ownProps ((x.andAlso (x.get "adv")).orElse (.obj []))))) L n with
    | error e => rw [hvs] at hrun; cases hrun
    | ok r =>
      obtain ⟨L1, n2⟩ := r
      rw [hvs] at hrun
      dsimp only at hrun
      cases hec : ensureCurrent h
        ((lookupProp (setProp (setProp
          (objectAssign (objectAssign [] DEFAULT_STATE) (ownProps (x.orElse (.obj []))))
          "adv" (.obj (objectAssign (objectAssign [] DEFAULT_ADV)
            (ownProps ((x.andAlso (x.get "adv")).orElse (.obj []))))))
          "systems" (.obj L1)) "current").getD .undefined) L1 with
      | error e => rw [hec] at hrun; cases hrun
      | ok cur =>
        rw [hec] at hrun
        simp only [Except.ok.injEq, Prod.mk.injEq] at hrun
        refine ⟨L, L1, cur, rfl, ?_, hec, hrun.1.symm⟩
        rw [← hrun.2]
        exact hvs

/-- A second migration of the serialised result of a first one returns the same state
and generates no id, when the input is parsed JSON and every planet entry of the result
is a plain object. -/
theorem migrateLoaded_stable (h : Host) (x m : Val) (n n1 : Nat) (hx : x.isJson = true)
    (hrun : migrateLoaded h x n = .ok (m, n1)) (hobj : planetsAreObjects m = true) :
    migrateLoaded h (jsonParse (jsonStringify m)) n1 = .ok (m, n1) := by
  obtain ⟨L, L1, cur, hcs, hvs, hec, hm⟩ := migrateLoaded_steps h x m n n1 hrun
  simp only [objectAssign_nil_DEFAULT_STATE, objectAssign_nil_DEFAULT_ADV] at hvs hec hm
  generalize hM0 : objectAssign DEFAULT_STATE (ownProps (x.orElse (.obj []))) = M0 at hec hm
  generalize hPA : objectAssign DEFAULT_ADV
    (ownProps ((x.andAlso (x.get "adv")).orElse (.obj []))) = PA at hvs hec hm
  -- facts on the merged object and on `adv`
  have hM0json : isJsonMembers M0 = true := by
    rw [← hM0]
    exact isJsonMembers_objectAssign _
      (isJsonMembers_ownProps _ (isJson_orElse x (.obj []) (Or.inl hx) rfl)) _
      isJsonMembers_DEFAULT_STATE
  have hPAjson : isJsonMembers PA = true := by
    rw [← hPA]
    exact isJsonMembers_objectAssign _
      (isJsonMembers_ownProps _
        (isJson_orElse _ (.obj []) (isJson_andAlso_get x "adv" hx) rfl)) _
      isJsonMembers_DEFAULT_ADV
  have hM0canon : CanonKeys (keysOf DEFAULT_STATE) (keysOf M0) := by
    rw [← hM0]
    exact canonKeys_objectAssign _ _ _ canonKeys_DEFAULT_STATE
  have hPAcanon : CanonKeys (keysOf DEFAULT_ADV) (keysOf PA) := by
    rw [← hPA]
    exact canonKeys_objectAssign _ _ _ canonKeys_DEFAULT_ADV
  have hM0proto : "__proto__" ∉ keysOf M0 := by
    rw [← hM0]
    exact proto_not_mem_objectAssign _ _ proto_not_mem_DEFAULT_STATE
  have hPAproto : "__proto__" ∉ keysOf PA := by
    rw [← hPA]
    exact proto_not_mem_objectAssign _ _ proto_not_mem_DEFAULT_ADV
  have hadv0 : (lookupProp M0 "adv").isSome = true := by
    rw [← hM0]
    exact lookupProp_isSome_objectAssign _ _ _ (by decide)
  have hsys0 : (lookupProp M0 "systems").isSome = true := by
    rw [← hM0]
    exact lookupProp_isSome_objectAssign _ _ _ (by decide)
  have hcur0 : (lookupProp M0 "current").isSome = true := by
    rw [← hM0]
    exact lookupProp_isSome_objectAssign _ _ _ (by decide)
  -- the three writes are replacements
  have hsys1 : (lookupProp (replaceProp M0 "adv" (.obj PA)) "systems").isSome = true :=
    lookupProp_isSome_replaceProp _ _ _ _ hsys0
  have hcur1 : (lookupProp (replaceProp M0 "adv" (.obj PA)) "current").isSome = true :=
    lookupProp_isSome_replaceProp _ _ _ _ hcur0
  have hcur2 : ∀ s, (lookupProp (replaceProp (replaceProp M0 "adv" (.obj PA)) "systems" s)
      "current").isSome = true := fun s => lookupProp_isSome_replaceProp _ _ _ _ hcur1
  have hm2 : m = .obj (replaceProp (replaceProp (replaceProp M0 "adv" (.obj PA)) "systems"
      (.obj L1)) "current" cur) := by
    rw [hm, setProp_eq_replaceProp M0 _ _ hadv0, setProp_eq_replaceProp _ _ _ hsys1,
      setProp_eq_replaceProp _ _ _ (hcur2 _)]
  rw [setProp_eq_replaceProp M0 _ _ hadv0, setProp_eq_replaceProp _ _ _ hsys1] at hec
  -- the systems of the first pass are stable
  have hcoll := collectSystems_spec h x L hx hcs
  have hmsys : m.get "systems" = .obj L1 := by
    rw [hm2]
    simp only [Val.get]
    rw [lookupProp_replaceProp_ne _ _ _ _ (by decide),
      lookupProp_replaceProp_self _ _ _ hsys1]
    rfl
  have hobjL1 : ∀ e ∈ L1, ∀ q ∈ planetItems e.2, q.isPlainObject = true := by
    unfold planetsAreObjects at hobj
    rw [hmsys] at hobj
    simp only [ownProps, List.all_eq_true] at hobj
    exact hobj
  have hval := validateSystems_spec h (.obj PA) L L1 n n1 hvs hcoll.2 hobjL1
  have hstable := hval.2
  -- `current`
  have hc0json : ((lookupProp (replaceProp (replaceProp M0 "adv" (.obj PA)) "systems"
      (.obj L1)) "current").getD .undefined).isJson = true := by
    obtain ⟨w, hw⟩ := Option.isSome_iff_exists.1 hcur0
    rw [lookupProp_replaceProp_ne _ _ _ _ (by decide),
      lookupProp_replaceProp_ne _ _ _ _ (by decide), hw]
    exact isJson_of_lookupProp M0 _ w hM0json hw
  have hcurjson : cur.isJson = true := isJson_ensureCurrent h _ cur L1 hc0json hec
  -- the serialised state
  have hnu0 : ∀ e ∈ M0, e.2 ≠ .undefined := fun e he =>
    ne_undefined_of_isJson _ ((isJsonMembers_iff M0).1 hM0json e he)
  have hnu1 : ∀ e ∈ replaceProp M0 "adv" (.obj PA), e.2 ≠ .undefined := by
    intro e he
    rcases mem_replaceProp _ _ _ e he with h1 | h1
    · rw [h1]; simp
    · exact hnu0 e h1
  have hnu2 : ∀ e ∈ replaceProp (replaceProp M0 "adv" (.obj PA)) "systems" (.obj L1),
      e.2 ≠ .undefined := by
    intro e he
    rcases mem_replaceProp _ _ _ e he with h1 | h1
    · rw [h1]; simp
    · exact hnu1 e h1
  have hser : jsonStringify m = .obj (replaceProp (replaceProp (replaceProp M0 "adv" (.obj PA))
      "systems" (.obj (jsonMembers L1))) "current" cur) := by
    rw [hm2]
    simp only [jsonStringify]
    rw [jsonMembers_replaceProp _ _ _ hnu2 (ne_undefined_of_isJson _ hcurjson),
      jsonMembers_replaceProp _ _ _ hnu1 (by simp),
      jsonMembers_replaceProp _ _ _ hnu0 (by simp),
      jsonMembers_of_isJson M0 hM0json, jsonStringify_of_isJson cur hcurjson]
    simp only [jsonStringify, jsonMembers_of_isJson PA hPAjson]
  -- second pass, step by step
  have hkeys : keysOf (replaceProp (replaceProp (replaceProp M0 "adv" (.obj PA)) "systems"
      (.obj (jsonMembers L1))) "current" cur) = keysOf M0 := by
    simp only [keysOf_replaceProp]
  have hM0' : objectAssign (objectAssign [] DEFAULT_STATE)
      (ownProps ((jsonParse (jsonStringify m)).orElse (.obj [])))
      = replaceProp (replaceProp (replaceProp M0 "adv" (.obj PA)) "systems"
        (.obj (jsonMembers L1))) "current" cur := by
    rw [hser, objectAssign_nil_DEFAULT_STATE]
    exact objectAssign_rebuild DEFAULT_STATE
      (replaceProp (replaceProp (replaceProp M0 "adv" (.obj PA)) "systems"
        (.obj (jsonMembers L1))) "current" cur)
      (by rw [hkeys]; exact hM0canon) (by rw [hkeys]; exact hM0proto)
  have hadvget : (jsonParse (jsonStringify m)).get "adv" = .obj PA := by
    rw [hser]
    simp only [jsonParse, Val.get]
    rw [lookupProp_replaceProp_ne _ _ _ _ (by decide),
      lookupProp_replaceProp_ne _ _ _ _ (by decide),
      lookupProp_replaceProp_self _ _ _ hadv0]
    rfl
  have hsysget : (jsonParse (jsonStringify m)).get "systems" = .obj (jsonMembers L1) := by
    rw [hser]
    simp only [jsonParse, Val.get]
    rw [lookupProp_replaceProp_ne _ _ _ _ (by decide),
      lookupProp_replaceProp_self _ _ _ hsys1]
    rfl
  have hytruthy : (jsonParse (jsonStringify m)).truthy = true := by
    rw [hser]; rfl
  have hPA' : objectAssign (objectAssign [] DEFAULT_ADV)
      (ownProps (((jsonParse (jsonStringify m)).andAlso
        ((jsonParse (jsonStringify m)).get "adv")).orElse (.obj []))) = PA := by
    have hand : (jsonParse (jsonStringify m)).andAlso ((jsonParse (jsonStringify m)).get "adv")
        = .obj PA := by
      unfold Val.andAlso
      rw [if_pos hytruthy, hadvget]
    rw [objectAssign_nil_DEFAULT_ADV, hand]
    exact objectAssign_rebuild _ _ hPAcanon hPAproto
  have hrebuild : objectAssign [] (renormalised L1) = renormalised L1 := by
    apply objectAssign_rebuild
    · rw [keysOf_renormalised, hval.1]
      exact hcoll.1
    · rw [keysOf_renormalised]
      intro hmem
      simp only [keysOf, List.mem_map] at hmem
      obtain ⟨e, he, hek⟩ := hmem
      exact (hstable e he).2.1 hek
  have hcs' : collectSystems h (jsonParse (jsonStringify m)) = .ok (renormalised L1) := by
    have hand : (jsonParse (jsonStringify m)).andAlso
        ((jsonParse (jsonStringify m)).get "systems") = .obj (jsonMembers L1) := by
      unfold Val.andAlso
      rw [if_pos hytruthy, hsysget]
    unfold collectSystems
    rw [hand]
    show collectMapping (jsonMembers L1) [] = _
    rw [collectMapping_stable h (.obj PA) L1 [] hstable, hrebuild]
  have hvs' : validateSystems h (.obj PA) (renormalised L1) n1 = .ok (L1, n1) :=
    validateSystems_stable h (.obj PA) L1 n1 hstable
  have hback : setProp (setProp (replaceProp (replaceProp (replaceProp M0 "adv" (.obj PA))
      "systems" (.obj (jsonMembers L1))) "current" cur) "adv" (.obj PA)) "systems" (.obj L1)
      = replaceProp (replaceProp (replaceProp M0 "adv" (.obj PA)) "systems" (.obj L1))
        "current" cur := by
    have hadvl : lookupProp (replaceProp (replaceProp (replaceProp M0 "adv" (.obj PA))
        "systems" (.obj (jsonMembers L1))) "current" cur) "adv" = some (.obj PA) := by
      rw [lookupProp_replaceProp_ne _ _ _ _ (by decide),
        lookupProp_replaceProp_ne _ _ _ _ (by decide),
        lookupProp_replaceProp_self _ _ _ hadv0]
    rw [setProp_same _ _ _ hadvl]
    rw [setProp_eq_replaceProp _ _ _ (lookupProp_isSome_replaceProp _ _ _ _
      (lookupProp_isSome_replaceProp _ _ _ _ hsys1))]
    rw [replaceProp_comm _ "current" "systems" _ _ (by decide), replaceProp_replaceProp]
  have hcurl : lookupProp (replaceProp (replaceProp (replaceProp M0 "adv" (.obj PA)) "systems"
      (.obj L1)) "current" cur) "current" = some cur :=
    lookupProp_replaceProp_self _ _ _ (hcur2 _)
  have hec' : ensureCurrent h ((lookupProp (setProp (setProp (replaceProp (replaceProp
      (replaceProp M0 "adv" (.obj PA)) "systems" (.obj (jsonMembers L1))) "current" cur)
      "adv" (.obj PA)) "systems" (.obj L1)) "current").getD .undefined) L1 = .ok cur := by
    rw [hback, hcurl]
    exact ensureCurrent_stable h (.obj PA) _ cur L1 hstable hec
  rw [migrateLoaded_eq_of_steps h _ n1 n1 _ PA (renormalised L1) L1 cur hM0' hPA' hcs' hvs' hec']
  rw [hback, setProp_same _ _ _ hcurl, hm2]

/-! ## Claims on migration -/

/-- C1 (evaluation at the failing inputs): on the blob whose only system is stored under
the empty key, `migrateLoaded` returns a state with `current` null and one system, keyed
by the empty string; on the blob whose `current` is `constructor`, it returns that
`current` although the only key of `systems` is `a`. -/
theorem migrateLoaded_current_not_ensured :
    ((migrateLoaded sampleHost blobEmptyKey 0).map fun r =>
        (r.1.get "current", keysOf (ownProps (r.1.get "systems")))) = .ok (.null, [""]) ∧
      ((migrateLoaded sampleHost blobInheritedCurrent 0).map fun r =>
        (r.1.get "current", keysOf (ownProps (r.1.get "systems"))))
        = .ok (.str "constructor", ["a"]) :=
  ⟨rfl, rfl⟩

/-- C2 (counterexample): on the blob whose only planet entry is an array, the first
migration returns a state with planet id `u0`, and the migration of its serialisation
returns a different state, with planet id `u1`, after generating one more id. -/
theorem migrateLoaded_not_idempotent_on_array_planet :
    migrateLoaded sampleHost blobArrayPlanet 0 = .ok (migratedArrayPlanet "u0", 1) ∧
      migrateLoaded sampleHost (jsonParse (jsonStringify (migratedArrayPlanet "u0"))) 1
        = .ok (migratedArrayPlanet "u1", 2) ∧
      migratedArrayPlanet "u1" ≠ migratedArrayPlanet "u0" :=
  ⟨rfl, rfl, by decide⟩

/-- C2 (amended): for every parsed JSON input on which `migrateLoaded` returns a state whose
planet entries are all plain objects, migrating the serialisation of that state again
returns the same state and generates no id (the count of `uid()` calls is unchanged). -/
theorem migrateLoaded_idempotent (h : Host) (x m : Val) (n n1 : Nat) (hx : x.isJson = true)
    (hrun : migrateLoaded h x n = .ok (m, n1)) (hobj : planetsAreObjects m = true) :
    migrateLoaded h (jsonParse (jsonStringify m)) n1 = .ok (m, n1) :=
  migrateLoaded_stable h x m n n1 hx hrun hobj

/-- Witness of C2 (amended): a legacy blob with array-shaped `systems`, a dangling `current`
and a planet without `id`, `sizePercent` and `orbit`. -/
theorem migrateLoaded_idempotent_witness :
    blobPlainPlanet.isJson = true ∧
      migrateLoaded sampleHost blobPlainPlanet 0 = .ok (migratedPlainPlanet, 1) ∧
      planetsAreObjects migratedPlainPlanet = true ∧
      migrateLoaded sampleHost (jsonParse (jsonStringify migratedPlainPlanet)) 1
        = .ok (migratedPlainPlanet, 1) :=
  ⟨by decide, rfl, by decide,
    migrateLoaded_idempotent sampleHost blobPlainPlanet migratedPlainPlanet 0 1 (by decide) rfl
      (by decide)⟩

/-- C3 (evaluation at the failing input): on a blob whose `planets` sequence holds `null`,
`migrateLoaded` raises a TypeError instead of returning a state. -/
theorem migrateLoaded_raises_on_null_planet :
    migrateLoaded sampleHost blobNullPlanet 0 = .error .typeError := by
  rfl

/-! ## Claims on history -/

/-- C4 (evaluation at the failing input): after the edits S1 and S2, each saved, the history
holds the snapshots of S0, S1, S2; `performUndo` then leaves the whole application as it was,
so the live state is still S2 and not S1, a second `performUndo` does the same, and
`performRedo` finds an empty redo stack. -/
theorem undo_redo_timeline_stuck :
    sampleTimeline.__history =
        [snapshotText (sampleState "S0"), snapshotText (sampleState "S1"),
         snapshotText (sampleState "S2")] ∧
      sampleTimeline.state = sampleState "S2" ∧
      performUndo sampleHost sampleTimeline = sampleTimeline ∧
      (performUndo sampleHost (performUndo sampleHost sampleTimeline)).state = sampleState "S2" ∧
      (performUndo sampleHost sampleTimeline).state.systems ≠ (sampleState "S1").systems ∧
      (performUndo sampleHost sampleTimeline).__future = [] ∧
      performRedo sampleHost (performUndo sampleHost sampleTimeline) = sampleTimeline := by
  decide

/-- C5 (evaluation at the failing input): with three history entries and an empty redo
stack, one `performUndo` leaves three history entries and an empty redo stack: the save it
performs is not suppressed, pushes the applied snapshot back and clears `future`. -/
theorem performUndo_save_not_suppressed :
    sampleTimeline.__history.length = 3 ∧ sampleTimeline.__future.length = 0 ∧
      (performUndo sampleHost sampleTimeline).__history.length = 3 ∧
      (performUndo sampleHost sampleTimeline).__future.length = 0 := by
  decide

/-- C6 (evaluation at the failing input): with one history entry and one redo entry,
`performRedo` leaves two history entries: its save pushes the redone snapshot. -/
theorem performRedo_grows_history :
    sampleRedoApp.__history.length = 1 ∧ sampleRedoApp.__future.length = 1 ∧
      (performRedo sampleHost sampleRedoApp).__history =
        [snapshotText (sampleState "S0"), snapshotText (sampleState "S1")] := by
  decide

/-- C7: starting from an empty history, after any finite sequence of edits, `__snapshot`,
`performUndo` and `performRedo` calls, under any host, the history holds at most 50 entries. -/
theorem history_never_exceeds_max (h : Host) (app : App) (actions : List Action)
    (hempty : app.__history = []) :
    (run h app actions).__history.length ≤ 50 := by
  have hlen : app.__history.length ≤ __HIST_MAX := by
    rw [hempty]
    exact Nat.zero_le _
  exact run_length_le h actions app hlen

/-- Witness of C7 on sixty distinct saved edits followed by an undo and a redo. -/
theorem history_never_exceeds_max_witness :
    ({ sampleApp with __history := [] } : App).__history = [] ∧
      (run sampleHost { sampleApp with __history := [] }
        (((List.range 60).flatMap fun i =>
            [Action.edit (sampleState (toString i)), Action.snapshot]) ++
          [Action.undo, Action.redo])).__history.length ≤ 50 :=
  ⟨rfl, history_never_exceeds_max sampleHost _ _ rfl⟩

/-- C8: when history is not suppressed and the snapshot text `s` of the live state is not
the top of the history (or the history is empty), `__snapshot` empties `future`, keeps the
live state, makes `s` the new top, and keeps everything below it when fewer than 50 entries
were held, while from 50 entries it drops the oldest one, leaving the 50 most recent
entries in their order. -/
theorem snapshot_pushes_and_evicts (app : App) (hs : app.__suppressHistory = false)
    (hne : app.__history.getLast? ≠ some (snapshotText app.state)) :
    (__snapshot app).__future = [] ∧
      (__snapshot app).state = app.state ∧
      (__snapshot app).__history.getLast? = some (snapshotText app.state) ∧
      (app.__history.length < 50 →
        (__snapshot app).__history = app.__history ++ [snapshotText app.state]) ∧
      (app.__history.length = 50 →
        (__snapshot app).__history = app.__history.tail ++ [snapshotText app.state] ∧
        (__snapshot app).__history =
          (app.__history ++ [snapshotText app.state]).drop 1 ∧
        (__snapshot app).__history.length = 50) := by
  unfold __snapshot
  rw [if_neg (by simp [hs]), if_neg hne]
  dsimp only
  refine ⟨rfl, rfl, ?_, ?_, ?_⟩
  · split
    · cases hh : app.__history with
      | nil => simp [hh, __HIST_MAX] at *
      | cons a rest => simp
    · simp
  · intro hlt
    rw [if_neg]
    simp only [List.length_append, List.length_singleton, __HIST_MAX]
    omega
  · intro heq
    rw [if_pos]
    · cases hh : app.__history with
      | nil => simp [hh] at heq
      | cons a rest =>
        rw [hh] at heq
        simp at heq
        simp [heq]
    · simp only [List.length_append, List.length_singleton, __HIST_MAX]
      omega

/-- Witness of C8 on an application whose live state was edited from S0 to S1. -/
theorem snapshot_pushes_and_evicts_witness :
    ({ sampleApp with state := sampleState "S1" } : App).__suppressHistory = false ∧
      ({ sampleApp with state := sampleState "S1" } : App).__history.getLast? ≠
        some (snapshotText (sampleState "S1")) ∧
      (__snapshot { sampleApp with state := sampleState "S1" }).__future = [] ∧
      (__snapshot { sampleApp with state := sampleState "S1" }).__history.getLast? =
        some (snapshotText (sampleState "S1")) :=
  ⟨rfl, by decide,
    (snapshot_pushes_and_evicts { sampleApp with state := sampleState "S1" } rfl (by decide)).1,
    (snapshot_pushes_and_evicts { sampleApp with state := sampleState "S1" } rfl
      (by decide)).2.2.1⟩

/-- C9: `__snapshot` changes nothing (history and future included) when the suppression
flag is set, and when the snapshot text of the live state equals the top of the history. -/
theorem snapshot_noop (app : App)
    (hcase : app.__suppressHistory = true ∨
      app.__history.getLast? = some (snapshotText app.state)) :
    __snapshot app = app := by
  unfold __snapshot
  rcases hcase with hsup | htop
  · rw [if_pos hsup]
  · split
    · rfl
    · dsimp only
      rw [if_pos htop]

/-- Witness of C9: with a non-empty redo stack and the top of the history equal to the
live snapshot, `__snapshot` keeps the redo stack. -/
theorem snapshot_noop_witness :
    (sampleRedoApp.__suppressHistory = true ∨
        sampleRedoApp.__history.getLast? = some (snapshotText sampleRedoApp.state)) ∧
      __snapshot sampleRedoApp = sampleRedoApp :=
  ⟨Or.inr (by decide), snapshot_noop sampleRedoApp (Or.inr (by decide))⟩

/-- C10: two applications that agree on `systems`, `current`, `adv`, on both stacks and on
the suppression flag get the same history and the same future from `__snapshot`, whatever
their `editMode` and `linkMode` are. -/
theorem snapshot_ignores_modes (a b : App)
    (hsys : a.state.systems = b.state.systems) (hcur : a.state.current = b.state.current)
    (hadv : a.state.adv = b.state.adv) (hhist : a.__history = b.__history)
    (hfut : a.__future = b.__future) (hsup : a.__suppressHistory = b.__suppressHistory) :
    (__snapshot a).__history = (__snapshot b).__history ∧
      (__snapshot a).__future = (__snapshot b).__future := by
  have htext : snapshotText a.state = snapshotText b.state := by
    unfold snapshotText
    rw [hsys, hcur, hadv]
  unfold __snapshot
  rw [htext, hhist, hsup]
  split
  · exact ⟨hhist, hfut⟩
  · dsimp only
    split
    · exact ⟨hhist, hfut⟩
    · exact ⟨rfl, rfl⟩

/-- Witness of C10: the sample application in link mode and the same application switched
to edit mode, both after an edit to S1. -/
theorem snapshot_ignores_modes_witness :
    (__snapshot { sampleApp with state := sampleState "S1" }).__history =
        (__snapshot { sampleApp with state :=
          { sampleState "S1" with editMode := .bool true, linkMode := .bool false } }).__history ∧
      (__snapshot { sampleApp with state := sampleState "S1" }).__future =
        (__snapshot { sampleApp with state :=
          { sampleState "S1" with editMode := .bool true, linkMode := .bool false } }).__future :=
  snapshot_ignores_modes
    { sampleApp with state := sampleState "S1" }
    { sampleApp with state :=
      { sampleState "S1" with editMode := .bool true, linkMode := .bool false } }
    rfl rfl rfl rfl rfl rfl

/-! ## Arithmetic: lemmas -/

theorem toRat_normDecimal (m : Int) (e : Nat) : (normDecimal m e).toRat = m / 10 ^ e := by
  induction e generalizing m with
  | zero => simp [normDecimal, Num.toRat]
  | succ e ih =>
    unfold normDecimal
    split
    · rename_i hm
      rw [ih]
      obtain ⟨c, hc⟩ := Int.dvd_of_emod_eq_zero hm
      subst hc
      rw [Int.mul_ediv_cancel_left _ (by norm_num)]
      push_cast
      field_simp
      ring
    · simp [Num.toRat]

theorem toRat_add (a b : Num) : (Num.add a b).toRat = a.toRat + b.toRat := by
  unfold Num.add
  rw [toRat_normDecimal]
  simp only [Num.toRat, pow_add]
  push_cast
  field_simp
  try ring

theorem toRat_sub (a b : Num) : (Num.sub a b).toRat = a.toRat - b.toRat := by
  unfold Num.sub
  rw [toRat_normDecimal]
  simp only [Num.toRat, pow_add]
  push_cast
  field_simp
  try ring

theorem toRat_mul (a b : Num) : (Num.mul a b).toRat = a.toRat * b.toRat := by
  unfold Num.mul
  rw [toRat_normDecimal]
  simp only [Num.toRat, pow_add]
  push_cast
  field_simp
  try ring

theorem toRat_scale (a : Num) (k : Nat) : (Num.scale a k).toRat = a.toRat / 10 ^ k := by
  unfold Num.scale
  rw [toRat_normDecimal]
  simp only [Num.toRat, pow_add]
  field_simp
  try ring

theorem toRat_half (a : Num) : (Num.half a).toRat = a.toRat / 2 := by
  unfold Num.half
  rw [toRat_normDecimal]
  simp only [Num.toRat, pow_add]
  push_cast
  field_simp
  try ring

theorem lt_iff_toRat (a b : Num) : Num.lt a b = true ↔ a.toRat < b.toRat := by
  simp only [Num.lt, decide_eq_true_eq, Num.toRat]
  rw [div_lt_div_iff₀ (by positivity) (by positivity)]
  exact_mod_cast Iff.rfl

theorem le_iff_toRat (a b : Num) : Num.le a b = true ↔ a.toRat ≤ b.toRat := by
  simp only [Num.le, decide_eq_true_eq, Num.toRat]
  rw [div_le_div_iff₀ (by positivity) (by positivity)]
  exact_mod_cast Iff.rfl

theorem toRat_min (a b : Num) : (Num.min a b).toRat = min a.toRat b.toRat := by
  unfold Num.min
  by_cases h : Num.lt b a = true
  · rw [if_pos h]
    rw [lt_iff_toRat] at h
    rw [min_eq_right h.le]
  · rw [if_neg h]
    rw [lt_iff_toRat, not_lt] at h
    rw [min_eq_left h]

/-! ## Kinematics: lemmas -/

theorem get_set_same (v : Val) (k : String) (x : Val) (hv : v.isObject = true) :
    (v.set k x).get k = x := by
  cases v <;> simp_all [Val.isObject, Val.set, Val.get, lookupProp_setProp_same]

theorem get_set_ne (v : Val) (k k2 : String) (x : Val) (hne : k2 ≠ k) :
    (v.set k x).get k2 = v.get k2 := by
  cases v <;> simp [Val.set, Val.get, lookupProp_setProp_ne _ _ _ _ hne]

theorem isObject_set (v : Val) (k : String) (x : Val) : (v.set k x).isObject = v.isObject := by
  cases v <;> rfl

theorem isObject_of_get_truthy (v : Val) (k : String) (h : (v.get k).truthy = true) :
    v.isObject = true := by
  cases v <;> simp_all [Val.get, Val.truthy, Val.isObject]

theorem isRotating_spec (p : Val) (h : isRotating p = true) :
    p.isObject = true ∧ (p.get "orbit").isObject = true := by
  unfold isRotating Val.andAlso at h
  by_cases ho : (p.get "orbit").truthy = true
  · rw [if_pos ho] at h
    exact ⟨isObject_of_get_truthy _ _ ho, isObject_of_get_truthy _ _ h⟩
  · rw [if_neg ho] at h
    exact absurd h ho

/-- A tick on a rotating planet whose orbit fields are numbers. -/
theorem animatePlanet_rotating (h : Host) (adv : Val) (dt : Num) (p : Val) (s m a r : Num)
    (hrot : isRotating p = true) (hadv : adv.isNullish = false)
    (hs : (((p.get "orbit").get "speed").orElse (.num ⟨2, 1⟩)).toNumber? = some s)
    (hm : ((adv.get "speedMult").orElse (.int 1)).toNumber? = some m)
    (ha : ((p.get "orbit").get "angle").toNumber? = some a)
    (hr : ((p.get "orbit").get "radius").toNumber? = some r) :
    ∃ q a1, animatePlanet h adv dt p = .ok q ∧
      (q.get "orbit").get "angle" = .num a1 ∧
      a1.toRat = a.toRat + (if ((p.get "orbit").get "reverse").truthy then -1 else 1)
        * s.toRat * m.toRat * dt.toRat ∧
      q.get "x" = .num (Num.mul (h.cos a1) r) ∧
      q.get "y" = .num (Num.mul (h.sin a1) r) ∧
      (q.get "orbit").get "radius" = (p.get "orbit").get "radius" ∧
      q.get "id" = p.get "id" := by
  obtain ⟨hpo, hoo⟩ := isRotating_spec p hrot
  have hpn : p.isNullish = false := by
    cases p <;> simp_all [Val.isObject, Val.isNullish]
  have hrot2 : ((p.get "orbit").andAlso ((p.get "orbit").get "rotating")).truthy = true := hrot
  refine ⟨((p.set "orbit" ((p.get "orbit").set "angle" (.num (Num.add a (Num.mul (Num.mul
      (if ((p.get "orbit").get "reverse").truthy then ⟨-1, 0⟩ else ⟨1, 0⟩) (Num.mul s m)) dt))))).set
      "x" (.num (Num.mul (h.cos (Num.add a (Num.mul (Num.mul
      (if ((p.get "orbit").get "reverse").truthy then ⟨-1, 0⟩ else ⟨1, 0⟩) (Num.mul s m)) dt))) r))).set
      "y" (.num (Num.mul (h.sin (Num.add a (Num.mul (Num.mul
      (if ((p.get "orbit").get "reverse").truthy then ⟨-1, 0⟩ else ⟨1, 0⟩) (Num.mul s m)) dt))) r)),
    Num.add a (Num.mul (Num.mul
      (if ((p.get "orbit").get "reverse").truthy then ⟨-1, 0⟩ else ⟨1, 0⟩) (Num.mul s m)) dt),
    ?_, ?_, ?_, ?_, ?_, ?_, ?_⟩
  · unfold animatePlanet
    simp only [hpn, hrot2, hadv, hs, hm, ha, hr, Bool.false_eq_true, if_false, if_true]
  · rw [get_set_ne _ _ _ _ (by decide), get_set_ne _ _ _ _ (by decide),
      get_set_same _ _ _ hpo, get_set_same _ _ _ hoo]
  · rw [toRat_add, toRat_mul, toRat_mul, toRat_mul]
    by_cases hrev : ((p.get "orbit").get "reverse").truthy = true
    · simp [hrev, Num.toRat]
    · simp [hrev, Num.toRat]
  · rw [get_set_ne _ _ _ _ (by decide), get_set_same _ _ _ (by rw [isObject_set]; exact hpo)]
  · rw [get_set_same _ _ _ (by rw [isObject_set, isObject_set]; exact hpo)]
  · rw [get_set_ne _ _ _ _ (by decide), get_set_ne _ _ _ _ (by decide),
      get_set_same _ _ _ hpo, get_set_ne _ _ _ _ (by decide)]
  · rw [get_set_ne _ _ _ _ (by decide), get_set_ne _ _ _ _ (by decide),
      get_set_ne _ _ _ _ (by decide)]

/-- A tick returns on every planet that is tickable. -/
theorem animatePlanet_returns (h : Host) (adv : Val) (dt : Num) (p : Val)
    (hadv : adv.isNullish = false) (ht : tickable adv p = true) :
    ∃ q, animatePlanet h adv dt p = .ok q := by
  unfold tickable at ht
  simp only [Bool.and_eq_true, Bool.not_eq_true', Bool.or_eq_true] at ht
  obtain ⟨hpn, hcase⟩ := ht
  rcases hcase with hnot | ⟨⟨⟨hs, hm⟩, ha⟩, hr⟩
  · refine ⟨p, ?_⟩
    have hnot2 : ((p.get "orbit").andAlso ((p.get "orbit").get "rotating")).truthy = false := hnot
    unfold animatePlanet
    simp only [hpn, hnot2, Bool.false_eq_true, if_false]
  · by_cases hrot : isRotating p = true
    · obtain ⟨s, hs⟩ := Option.isSome_iff_exists.1 hs
      obtain ⟨m, hm⟩ := Option.isSome_iff_exists.1 hm
      obtain ⟨a, ha⟩ := Option.isSome_iff_exists.1 ha
      obtain ⟨r, hr⟩ := Option.isSome_iff_exists.1 hr
      obtain ⟨q, _, hq, _⟩ := animatePlanet_rotating h adv dt p s m a r hrot hadv hs hm ha hr
      exact ⟨q, hq⟩
    · refine ⟨p, ?_⟩
      have hnot2 : ((p.get "orbit").andAlso ((p.get "orbit").get "rotating")).truthy = false := by
        simpa [isRotating] using hrot
      unfold animatePlanet
      simp only [hpn, hnot2, Bool.false_eq_true, if_false]

/-- The loop over the planets returns and works planet by planet. -/
theorem animatePlanets_spec (h : Host) (adv : Val) (dt : Num) (hadv : adv.isNullish = false) :
    ∀ items : List Val, items.all (tickable adv) = true →
      ∃ items1, animatePlanets h adv dt items = .ok items1 ∧ items1.length = items.length ∧
        ∀ (i : Nat) (p : Val), items[i]? = some p →
          ∃ q, items1[i]? = some q ∧ animatePlanet h adv dt p = .ok q := by
  intro items
  induction items with
  | nil => intro _; exact ⟨[], rfl, rfl, by simp⟩
  | cons p ps ih =>
    intro hall
    simp only [List.all_cons, Bool.and_eq_true] at hall
    obtain ⟨q, hq⟩ := animatePlanet_returns h adv dt p hadv hall.1
    obtain ⟨qs, hqs, hlen, hidx⟩ := ih hall.2
    refine ⟨q :: qs, ?_, by simp [hlen], ?_⟩
    · simp only [animatePlanets, hq, hqs]
    · intro i p2 hi
      cases i with
      | zero =>
        simp only [List.getElem?_cons_zero, Option.some.injEq] at hi
        subst hi
        exact ⟨q, by simp, hq⟩
      | succ j =>
        simp only [List.getElem?_cons_succ] at hi
        obtain ⟨q2, hq2, hstep⟩ := hidx j p2 hi
        exact ⟨q2, by simpa using hq2, hstep⟩

/-- Planets of the active system after the write of `animate`. -/
theorem activePlanets_after (st : AppState) (systems : Props) (k : String) (sys : Val)
    (items1 : List Val) (props : Props) (hobj : sys.isObject = true) :
    activePlanets { st with
      systems := .obj (setProp systems k (sys.set "planets" (.arr items1 props))),
      current := .str k } = items1 := by
  simp only [activePlanets, lookupProp_setProp_same, planetItems, get_set_same _ _ _ hobj]

/-! ## Claims on kinematics -/

/-- C11 (counterexample): a rotating planet with `orbit.speed` 0 and angle 0, speed multiplier
1, one tick with `dt` 0.016: the claimed angle is `0 + 1 * 0 * 1 * 0.016 = 0`, but `animate`
sets the angle to 0.0032, because the zero speed is replaced by 0.2. -/
theorem animate_zero_speed_still_moves :
    animate sampleHost (orbitState (orbitPlanet (.int 200) (.int 0) ⟨0, 0⟩ ⟨0, 0⟩))
        ⟨1016, 0⟩ ⟨1000, 0⟩
      = .ok (orbitState (orbitPlanetAt sampleHost ⟨0, 0⟩ ⟨32, 4⟩), ⟨1016, 0⟩) ∧
      elapsed ⟨1016, 0⟩ ⟨1000, 0⟩ = ⟨16, 3⟩ ∧
      Num.add ⟨0, 0⟩ (Num.mul (Num.mul (Num.mul ⟨1, 0⟩ ⟨0, 0⟩) ⟨1, 0⟩) ⟨16, 3⟩) = ⟨0, 0⟩ ∧
      (⟨32, 4⟩ : Num) ≠ ⟨0, 0⟩ :=
  ⟨rfl, by decide, by decide, by decide⟩

/-- C11 (amended): in a state whose active system is an object with a `planets` array of
tickable planets, one call of `animate` returns, keeps the number of planets, and for every
planet that rotates sets `orbit.angle` to `angle + d * s * m * dt` in exact arithmetic, where
`d` is -1 when `orbit.reverse` is truthy and 1 otherwise, `s` is `orbit.speed || 0.2` (a zero
or missing speed counts as 0.2), `m` is `adv.speedMult || 1` (a zero or missing multiplier
counts as 1) and `dt` is the clamped elapsed time; then `x` is `cos(angle') * radius` and `y`
is `sin(angle') * radius`, with `orbit.radius` and `id` unchanged. -/
theorem animate_rotating_step (h : Host) (st : AppState) (time lastTick : Num)
    (systems : Props) (k : String) (sys : Val) (items : List Val) (props : Props)
    (hsys : st.systems = .obj systems) (hcur : st.current = .str k)
    (hlook : lookupProp systems k = some sys)
    (hplanets : sys.get "planets" = .arr items props)
    (hadv : st.adv.isNullish = false)
    (hitems : items.all (tickable st.adv) = true) :
    ∃ st1, animate h st time lastTick = .ok (st1, time) ∧
      (activePlanets st1).length = items.length ∧
      ∀ (i : Nat) (p : Val) (s m a r : Num), items[i]? = some p → isRotating p = true →
        (((p.get "orbit").get "speed").orElse (.num ⟨2, 1⟩)).toNumber? = some s →
        ((st.adv.get "speedMult").orElse (.int 1)).toNumber? = some m →
        ((p.get "orbit").get "angle").toNumber? = some a →
        ((p.get "orbit").get "radius").toNumber? = some r →
        ∃ q a1, (activePlanets st1)[i]? = some q ∧
          (q.get "orbit").get "angle" = .num a1 ∧
          a1.toRat = a.toRat + (if ((p.get "orbit").get "reverse").truthy then -1 else 1)
            * s.toRat * m.toRat * (elapsed time lastTick).toRat ∧
          q.get "x" = .num (Num.mul (h.cos a1) r) ∧
          q.get "y" = .num (Num.mul (h.sin a1) r) ∧
          (q.get "orbit").get "radius" = (p.get "orbit").get "radius" ∧
          q.get "id" = p.get "id" := by
  have hobj : sys.isObject = true :=
    isObject_of_get_truthy sys "planets" (by rw [hplanets]; rfl)
  have htruthy : sys.truthy = true := by
    cases sys <;> simp_all [Val.isObject, Val.truthy]
  obtain ⟨items1, hrun, hlen, hidx⟩ :=
    animatePlanets_spec h st.adv (elapsed time lastTick) hadv items hitems
  have hact : activePlanets { st with
      systems := .obj (setProp systems k (sys.set "planets" (.arr items1 props))) } = items1 := by
    have := activePlanets_after st systems k sys items1 props hobj
    rw [← hcur] at this
    exact this
  refine ⟨{ st with
      systems := .obj (setProp systems k (sys.set "planets" (.arr items1 props))) }, ?_, ?_, ?_⟩
  · unfold animate
    simp only [hsys, hcur, Host.toPropertyKey, toStringJs, hlook, htruthy, if_true, hplanets,
      hrun]
  · rw [hact, hlen]
  · intro i p s m a r hi hrot hs hm ha hr
    obtain ⟨q, hq, hstep⟩ := hidx i p hi
    obtain ⟨q2, a1, hq2, hrest⟩ :=
      animatePlanet_rotating h st.adv (elapsed time lastTick) p s m a r hrot hadv hs hm ha hr
    rw [hstep] at hq2
    simp only [Except.ok.injEq] at hq2
    subst hq2
    exact ⟨q, a1, by rw [hact]; exact hq, hrest⟩

/-- Witness of C11 (amended): the planet of speed 0.5 at angle 0, one tick of 16 ms. -/
theorem animate_rotating_step_witness :
    ∃ st1, animate sampleHost (orbitState (orbitPlanet (.int 200) (.int 0) ⟨5, 1⟩ ⟨0, 0⟩))
        ⟨1016, 0⟩ ⟨1000, 0⟩ = .ok (st1, ⟨1016, 0⟩) ∧
      (activePlanets st1).length = 1 :=
  (animate_rotating_step sampleHost
    (orbitState (orbitPlanet (.int 200) (.int 0) ⟨5, 1⟩ ⟨0, 0⟩)) ⟨1016, 0⟩ ⟨1000, 0⟩
    [("a", .obj [("id", .str "a"), ("name", .str "S"),
      ("planets", .arr [orbitPlanet (.int 200) (.int 0) ⟨5, 1⟩ ⟨0, 0⟩] [])])]
    "a" (.obj [("id", .str "a"), ("name", .str "S"),
      ("planets", .arr [orbitPlanet (.int 200) (.int 0) ⟨5, 1⟩ ⟨0, 0⟩] [])])
    [orbitPlanet (.int 200) (.int 0) ⟨5, 1⟩ ⟨0, 0⟩] [] rfl rfl (by decide) (by decide) (by decide)
    (by decide)).imp fun _ hst => ⟨hst.1, hst.2.1⟩

/-- One tick on the fixture state, for any position, angle and time stamps. -/
theorem animate_orbitState (h : Host) (x y : Val) (a t last : Num) :
    animate h (orbitState (orbitPlanet x y ⟨5, 1⟩ a)) t last
      = .ok (orbitState (orbitPlanetAt h ⟨5, 1⟩
          (Num.add a (Num.mul (Num.mul ⟨1, 0⟩ (Num.mul ⟨5, 1⟩ ⟨1, 0⟩)) (elapsed t last)))), t) := by
  simp only [animate, orbitState, Host.toPropertyKey, toStringJs, lookupProp]
  rfl

/-- C12: for every host, the planet on an orbit of radius 200 at angle 0 with speed 0.5, not
reversed, under speed multiplier 1: after ten frames 16 ms apart the angle is 0.08, which is
`0.5 * 0.016 * 10`, and `(x, y)` is `(cos(0.08) * 200, sin(0.08) * 200)`. -/
theorem animate_ten_ticks (h : Host) :
    animateFrames h (orbitState (orbitPlanet (.int 200) (.int 0) ⟨5, 1⟩ ⟨0, 0⟩)) ⟨1000, 0⟩
        frameTimes
      = .ok (orbitState (orbitPlanet (.num (Num.mul (h.cos ⟨8, 2⟩) ⟨200, 0⟩))
          (.num (Num.mul (h.sin ⟨8, 2⟩) ⟨200, 0⟩)) ⟨5, 1⟩ ⟨8, 2⟩), ⟨1160, 0⟩) ∧
      (⟨8, 2⟩ : Num).toRat = 5 / 10 * (16 / 1000) * 10 ∧
      frameTimes.length = 10 := by
  have e1 : Num.add ⟨0, 0⟩ (Num.mul (Num.mul ⟨1, 0⟩ (Num.mul ⟨5, 1⟩ ⟨1, 0⟩))
      (elapsed ⟨1016, 0⟩ ⟨1000, 0⟩)) = ⟨8, 3⟩ := by decide
  have e2 : Num.add ⟨8, 3⟩ (Num.mul (Num.mul ⟨1, 0⟩ (Num.mul ⟨5, 1⟩ ⟨1, 0⟩))
      (elapsed ⟨1032, 0⟩ ⟨1016, 0⟩)) = ⟨16, 3⟩ := by decide
  have e3 : Num.add ⟨16, 3⟩ (Num.mul (Num.mul ⟨1, 0⟩ (Num.mul ⟨5, 1⟩ ⟨1, 0⟩))
      (elapsed ⟨1048, 0⟩ ⟨1032, 0⟩)) = ⟨24, 3⟩ := by decide
  have e4 : Num.add ⟨24, 3⟩ (Num.mul (Num.mul ⟨1, 0⟩ (Num.mul ⟨5, 1⟩ ⟨1, 0⟩))
      (elapsed ⟨1064, 0⟩ ⟨1048, 0⟩)) = ⟨32, 3⟩ := by decide
  have e5 : Num.add ⟨32, 3⟩ (Num.mul (Num.mul ⟨1, 0⟩ (Num.mul ⟨5, 1⟩ ⟨1, 0⟩))
      (elapsed ⟨1080, 0⟩ ⟨1064, 0⟩)) = ⟨4, 2⟩ := by decide
  have e6 : Num.add ⟨4, 2⟩ (Num.mul (Num.mul ⟨1, 0⟩ (Num.mul ⟨5, 1⟩ ⟨1, 0⟩))
      (elapsed ⟨1096, 0⟩ ⟨1080, 0⟩)) = ⟨48, 3⟩ := by decide
  have e7 : Num.add ⟨48, 3⟩ (Num.mul (Num.mul ⟨1, 0⟩ (Num.mul ⟨5, 1⟩ ⟨1, 0⟩))
      (elapsed ⟨1112, 0⟩ ⟨1096, 0⟩)) = ⟨56, 3⟩ := by decide
  have e8 : Num.add ⟨56, 3⟩ (Num.mul (Num.mul ⟨1, 0⟩ (Num.mul ⟨5, 1⟩ ⟨1, 0⟩))
      (elapsed ⟨1128, 0⟩ ⟨1112, 0⟩)) = ⟨64, 3⟩ := by decide
  have e9 : Num.add ⟨64, 3⟩ (Num.mul (Num.mul ⟨1, 0⟩ (Num.mul ⟨5, 1⟩ ⟨1, 0⟩))
      (elapsed ⟨1144, 0⟩ ⟨1128, 0⟩)) = ⟨72, 3⟩ := by decide
  have e10 : Num.add ⟨72, 3⟩ (Num.mul (Num.mul ⟨1, 0⟩ (Num.mul ⟨5, 1⟩ ⟨1, 0⟩))
      (elapsed ⟨1160, 0⟩ ⟨1144, 0⟩)) = ⟨8, 2⟩ := by decide
  refine ⟨?_, by norm_num [Num.toRat], rfl⟩
  simp only [animateFrames, frameTimes, animate_orbitState, orbitPlanetAt,
    e1, e2, e3, e4, e5, e6, e7, e8, e9, e10]

/-- C13 (counterexample): with `lastTick` 0 and `time` 50 the true elapsed time is 0.05 s,
below the clamp, and `min((50 - 0)/1000, 0.1)` is 0.05; `animate` first sets the falsy
`lastTick` to `time` and uses `dt` 0. -/
theorem elapsed_zero_lastTick :
    elapsed ⟨50, 0⟩ ⟨0, 0⟩ = ⟨0, 0⟩ ∧
      Num.min (Num.scale (Num.sub ⟨50, 0⟩ ⟨0, 0⟩) 3) ⟨1, 1⟩ = ⟨5, 2⟩ ∧
      (elapsed ⟨50, 0⟩ ⟨0, 0⟩).toRat ≠ min (((⟨50, 0⟩ : Num).toRat - (⟨0, 0⟩ : Num).toRat) / 1000)
        (1 / 10) := by
  refine ⟨by decide, by decide, ?_⟩
  have h0 : elapsed ⟨50, 0⟩ ⟨0, 0⟩ = ⟨0, 0⟩ := by decide
  rw [h0]
  norm_num [Num.toRat]

/-- C13 (amended): when `lastTick` is not zero, the `dt` of one tick is
`min((time - lastTick)/1000, 0.1)` in exact arithmetic, so it equals the true elapsed seconds
whenever that is at most 0.1; when `lastTick` is zero (falsy) it is first replaced by `time`
and `dt` is 0; in both cases `dt` never exceeds 0.1. -/
theorem elapsed_clamped (time lastTick : Num) :
    (lastTick.mant ≠ 0 →
      (elapsed time lastTick).toRat = min ((time.toRat - lastTick.toRat) / 1000) (1 / 10) ∧
      ((time.toRat - lastTick.toRat) / 1000 ≤ 1 / 10 →
        (elapsed time lastTick).toRat = (time.toRat - lastTick.toRat) / 1000)) ∧
      (lastTick.mant = 0 → (elapsed time lastTick).toRat = 0) ∧
      (elapsed time lastTick).toRat ≤ 1 / 10 := by
  have hclamp : ∀ last : Num,
      (Num.min (Num.scale (Num.sub time last) 3) ⟨1, 1⟩).toRat
        = min ((time.toRat - last.toRat) / 1000) (1 / 10) := by
    intro last
    rw [toRat_min, toRat_scale, toRat_sub]
    norm_num [Num.toRat]
  refine ⟨?_, ?_, ?_⟩
  · intro hne
    have he : elapsed time lastTick
        = Num.min (Num.scale (Num.sub time lastTick) 3) ⟨1, 1⟩ := by
      simp [elapsed, Val.truthy, hne]
    rw [he, hclamp]
    exact ⟨rfl, fun hle => min_eq_left hle⟩
  · intro hz
    have he : elapsed time lastTick = Num.min (Num.scale (Num.sub time time) 3) ⟨1, 1⟩ := by
      simp [elapsed, Val.truthy, hz]
    rw [he, hclamp]
    norm_num
  · by_cases hz : lastTick.mant = 0
    · have he : elapsed time lastTick = Num.min (Num.scale (Num.sub time time) 3) ⟨1, 1⟩ := by
        simp [elapsed, Val.truthy, hz]
      rw [he, hclamp]
      exact min_le_right _ _
    · have he : elapsed time lastTick
          = Num.min (Num.scale (Num.sub time lastTick) 3) ⟨1, 1⟩ := by
        simp [elapsed, Val.truthy, hz]
      rw [he, hclamp]
      exact min_le_right _ _

/-- Witness of C13 (amended): a frame 16 ms after the last one, and a frame 4 s after it. -/
theorem elapsed_clamped_witness :
    (⟨1000, 0⟩ : Num).mant ≠ 0 ∧
      (elapsed ⟨1016, 0⟩ ⟨1000, 0⟩).toRat
        = min (((⟨1016, 0⟩ : Num).toRat - (⟨1000, 0⟩ : Num).toRat) / 1000) (1 / 10) ∧
      elapsed ⟨1016, 0⟩ ⟨1000, 0⟩ = ⟨16, 3⟩ ∧ elapsed ⟨5000, 0⟩ ⟨1000, 0⟩ = ⟨1, 1⟩ :=
  ⟨by decide, ((elapsed_clamped ⟨1016, 0⟩ ⟨1000, 0⟩).1 (by decide)).1, by decide, by decide⟩

/-! ## Floating point: lemmas -/

/-- The integer that `roundHalfEven` returns is within one half of the quotient, and is even
when the quotient lies half-way between two integers. -/
theorem roundHalfEven_spec (num den : Nat) (hden : 0 < den) :
    (num : ℚ) / den - 1 / 2 ≤ roundHalfEven num den ∧
      (roundHalfEven num den : ℚ) ≤ (num : ℚ) / den + 1 / 2 ∧
      ((roundHalfEven num den : ℚ) = (num : ℚ) / den + 1 / 2 → roundHalfEven num den % 2 = 0) ∧
      ((roundHalfEven num den : ℚ) = (num : ℚ) / den - 1 / 2 → roundHalfEven num den % 2 = 0) := by
  have hd : (0 : ℚ) < den := by exact_mod_cast hden
  have hsplit : (num : ℚ) / den = (num / den : Nat) + ((num % den : Nat) : ℚ) / den := by
    have h := Nat.div_add_mod num den
    have h2 : (num : ℚ) = (den : ℚ) * (num / den : Nat) + (num % den : Nat) := by
      exact_mod_cast h.symm
    field_simp
    linarith
  have hrem : ((num % den : Nat) : ℚ) < den := by exact_mod_cast Nat.mod_lt num hden
  have hrem0 : (0 : ℚ) ≤ ((num % den : Nat) : ℚ) := by positivity
  generalize hq : num / den = q at hsplit
  generalize hr : num % den = rem at hsplit hrem hrem0
  have hfrac : ((rem : ℚ) / den < 1 / 2 ↔ 2 * rem < den) := by
    rw [div_lt_iff₀ hd]
    constructor
    · intro h; have : (2 : ℚ) * rem < den := by linarith
      exact_mod_cast this
    · intro h; have : (2 : ℚ) * rem < den := by exact_mod_cast h
      linarith
  have hfrac2 : ((1 : ℚ) / 2 < (rem : ℚ) / den ↔ den < 2 * rem) := by
    rw [lt_div_iff₀ hd]
    constructor
    · intro h; have : (den : ℚ) < 2 * rem := by linarith
      exact_mod_cast this
    · intro h; have : (den : ℚ) < 2 * rem := by exact_mod_cast h
      linarith
  unfold roundHalfEven
  rw [hq, hr, hsplit]
  by_cases h1 : 2 * rem < den
  · rw [if_pos h1]
    have := hfrac.2 h1
    have h0 : (0 : ℚ) ≤ (rem : ℚ) / den := by positivity
    refine ⟨by linarith, by linarith, fun h => ?_, fun h => ?_⟩ <;> exfalso <;> linarith
  · rw [if_neg h1]
    by_cases h2 : den < 2 * rem
    · rw [if_pos h2]
      have := hfrac2.2 h2
      have h3 : (rem : ℚ) / den < 1 := by rw [div_lt_one hd]; exact hrem
      push_cast
      refine ⟨by linarith, by linarith, fun h => ?_, fun h => ?_⟩ <;> exfalso <;> linarith
    · rw [if_neg h2]
      have he : 2 * rem = den := by omega
      have hhalf : (rem : ℚ) / den = 1 / 2 := by
        rw [div_eq_iff hd.ne']
        have : (2 : ℚ) * rem = den := by exact_mod_cast he
        linarith
      rw [hhalf]
      by_cases h3 : q % 2 = 0
      · rw [if_pos h3]
        refine ⟨by linarith, by linarith, fun _ => h3, fun _ => h3⟩
      · rw [if_neg h3]
        push_cast
        refine ⟨by linarith, by linarith, fun _ => by omega, fun _ => by omega⟩

/-- Rounding to the nearest integer keeps the order of the quotients. -/
theorem roundHalfEven_mono (n1 d1 n2 d2 : Nat) (h1 : 0 < d1) (h2 : 0 < d2)
    (hle : (n1 : ℚ) / d1 ≤ (n2 : ℚ) / d2) : roundHalfEven n1 d1 ≤ roundHalfEven n2 d2 := by
  obtain ⟨a1, a2, a3, a4⟩ := roundHalfEven_spec n1 d1 h1
  obtain ⟨b1, b2, b3, b4⟩ := roundHalfEven_spec n2 d2 h2
  by_contra hlt
  have hlt2 : roundHalfEven n2 d2 + 1 ≤ roundHalfEven n1 d1 := by omega
  have hq : ((roundHalfEven n2 d2 : ℚ)) + 1 ≤ roundHalfEven n1 d1 := by exact_mod_cast hlt2
  have e1 : (roundHalfEven n1 d1 : ℚ) = (n1 : ℚ) / d1 + 1 / 2 := by linarith
  have e2 : (roundHalfEven n2 d2 : ℚ) = (n2 : ℚ) / d2 - 1 / 2 := by linarith
  have p1 := a3 e1
  have p2 := b4 e2
  have e3 : (roundHalfEven n1 d1 : ℚ) = (roundHalfEven n2 d2 : ℚ) + 1 := by linarith
  have e4 : roundHalfEven n1 d1 = roundHalfEven n2 d2 + 1 := by exact_mod_cast e3
  omega

/-- A quotient that is an integer is its own rounding. -/
theorem roundHalfEven_exact (num den k : Nat) (hden : 0 < den) (hk : (num : ℚ) / den = k) :
    roundHalfEven num den = k := by
  obtain ⟨a1, a2, _, _⟩ := roundHalfEven_spec num den hden
  rw [hk] at a1 a2
  have h1 : (k : ℚ) < (roundHalfEven num den : ℚ) + 1 := by linarith
  have h2 : (roundHalfEven num den : ℚ) < (k : ℚ) + 1 := by linarith
  have h3 : k < roundHalfEven num den + 1 := by exact_mod_cast h1
  have h4 : roundHalfEven num den < k + 1 := by exact_mod_cast h2
  omega

theorem bitLength_spec : ∀ fuel n : Nat, n ≤ fuel → 0 < n →
    2 ^ (bitLength fuel n - 1) ≤ n ∧ n < 2 ^ bitLength fuel n ∧ 0 < bitLength fuel n := by
  intro fuel
  induction fuel with
  | zero => intro n h1 h2; omega
  | succ fuel ih =>
    intro n h1 h2
    unfold bitLength
    rw [if_neg (by omega)]
    by_cases hn : n / 2 = 0
    · have : n = 1 := by omega
      subst this
      have hb : bitLength fuel (1 / 2) = 0 := by
        cases fuel <;> simp [bitLength]
      rw [hb]
      simp
    · obtain ⟨i1, i2, i3⟩ := ih (n / 2) (by omega) (by omega)
      refine ⟨?_, ?_, by omega⟩
      · have : bitLength fuel (n / 2) + 1 - 1 = (bitLength fuel (n / 2) - 1) + 1 := by omega
        rw [this, pow_succ]
        omega
      · rw [pow_succ]
        omega

/-- A power of 2 with an integer exponent, as the quotient of two powers with natural ones. -/
theorem two_zpow_split (t : ℤ) : (2 : ℚ) ^ t = (2 : ℚ) ^ t.toNat / (2 : ℚ) ^ (-t).toNat := by
  rcases le_total 0 t with h | h
  · have h1 : (-t).toNat = 0 := Int.toNat_eq_zero.2 (by omega)
    rw [h1, pow_zero, div_one]
    conv_lhs => rw [← Int.toNat_of_nonneg h]
    exact zpow_natCast 2 t.toNat
  · have h1 : t.toNat = 0 := Int.toNat_eq_zero.2 h
    have h2 : t = -((-t).toNat : ℤ) := by rw [Int.toNat_of_nonneg (by omega)]; ring
    rw [h1, pow_zero]
    conv_lhs => rw [h2]
    rw [zpow_neg, zpow_natCast, one_div]

/-- The binary exponent that `ulpExponent` computes: `2 ^ k ≤ p / d < 2 ^ (k + 1)`. -/
theorem ulpExponent_spec (p d : Nat) (hp : 0 < p) (hd : 0 < d) :
    ∃ k : ℤ, (2 : ℚ) ^ k ≤ (p : ℚ) / d ∧ (p : ℚ) / d < (2 : ℚ) ^ (k + 1) ∧
      ulpExponent p d = max (k - 52) (-1074) := by
  obtain ⟨p1, p2, p3⟩ := bitLength_spec p p le_rfl hp
  obtain ⟨d1, d2, d3⟩ := bitLength_spec d d le_rfl hd
  have hdq : (0 : ℚ) < d := by exact_mod_cast hd
  have hpq : (0 : ℚ) < p := by exact_mod_cast hp
  generalize hbp : bitLength p p = bp at p1 p2 p3
  generalize hbd : bitLength d d = bd at d1 d2 d3
  have p1q : (2 : ℚ) ^ ((bp : ℤ) - 1) ≤ p := by
    have : ((bp : ℤ) - 1) = ((bp - 1 : Nat) : ℤ) := by omega
    rw [this, zpow_natCast]
    exact_mod_cast p1
  have p2q : (p : ℚ) < (2 : ℚ) ^ (bp : ℤ) := by
    rw [zpow_natCast]
    exact_mod_cast p2
  have d1q : (2 : ℚ) ^ ((bd : ℤ) - 1) ≤ d := by
    have : ((bd : ℤ) - 1) = ((bd - 1 : Nat) : ℤ) := by omega
    rw [this, zpow_natCast]
    exact_mod_cast d1
  have d2q : (d : ℚ) < (2 : ℚ) ^ (bd : ℤ) := by
    rw [zpow_natCast]
    exact_mod_cast d2
  have two0 : (2 : ℚ) ≠ 0 := by norm_num
  have hup : (p : ℚ) / d < (2 : ℚ) ^ ((bp : ℤ) - bd + 1) := by
    rw [div_lt_iff₀ hdq]
    have e : (2 : ℚ) ^ ((bp : ℤ) - bd + 1) * (2 : ℚ) ^ ((bd : ℤ) - 1) = (2 : ℚ) ^ (bp : ℤ) := by
      rw [← zpow_add₀ two0]
      congr 1
      ring
    have hpos : (0 : ℚ) < (2 : ℚ) ^ ((bp : ℤ) - bd + 1) := by positivity
    calc (p : ℚ) < (2 : ℚ) ^ (bp : ℤ) := p2q
      _ = (2 : ℚ) ^ ((bp : ℤ) - bd + 1) * (2 : ℚ) ^ ((bd : ℤ) - 1) := e.symm
      _ ≤ (2 : ℚ) ^ ((bp : ℤ) - bd + 1) * d := mul_le_mul_of_nonneg_left d1q hpos.le
  have hlow : (2 : ℚ) ^ ((bp : ℤ) - bd - 1) ≤ (p : ℚ) / d := by
    rw [le_div_iff₀ hdq]
    have e : (2 : ℚ) ^ ((bp : ℤ) - bd - 1) * (2 : ℚ) ^ (bd : ℤ) = (2 : ℚ) ^ ((bp : ℤ) - 1) := by
      rw [← zpow_add₀ two0]
      congr 1
      ring
    have hpos : (0 : ℚ) < (2 : ℚ) ^ ((bp : ℤ) - bd - 1) := by positivity
    calc (2 : ℚ) ^ ((bp : ℤ) - bd - 1) * d
        ≤ (2 : ℚ) ^ ((bp : ℤ) - bd - 1) * (2 : ℚ) ^ (bd : ℤ) :=
          mul_le_mul_of_nonneg_left d2q.le hpos.le
      _ = (2 : ℚ) ^ ((bp : ℤ) - 1) := e
      _ ≤ p := p1q
  have hcond : (d * 2 ^ ((bp : ℤ) - bd).toNat ≤ p * 2 ^ (-((bp : ℤ) - bd)).toNat) ↔
      (2 : ℚ) ^ ((bp : ℤ) - bd) ≤ (p : ℚ) / d := by
    rw [two_zpow_split ((bp : ℤ) - bd), le_div_iff₀ hdq, div_mul_eq_mul_div,
      div_le_iff₀ (by positivity)]
    constructor
    · intro h
      have : ((d * 2 ^ ((bp : ℤ) - bd).toNat : Nat) : ℚ)
          ≤ ((p * 2 ^ (-((bp : ℤ) - bd)).toNat : Nat) : ℚ) := by exact_mod_cast h
      push_cast at this
      linarith
    · intro h
      have : ((d * 2 ^ ((bp : ℤ) - bd).toNat : Nat) : ℚ)
          ≤ ((p * 2 ^ (-((bp : ℤ) - bd)).toNat : Nat) : ℚ) := by
        push_cast
        linarith
      exact_mod_cast this
  unfold ulpExponent
  simp only [hbp, hbd]
  by_cases hc : d * 2 ^ ((bp : ℤ) - bd).toNat ≤ p * 2 ^ (-((bp : ℤ) - bd)).toNat
  · rw [if_pos hc]
    exact ⟨(bp : ℤ) - bd, hcond.1 hc, hup, rfl⟩
  · rw [if_neg hc]
    refine ⟨(bp : ℤ) - bd - 1, hlow, ?_, rfl⟩
    have := not_le.1 (fun h => hc (hcond.2 h))
    have e : (bp : ℤ) - bd - 1 + 1 = (bp : ℤ) - bd := by ring
    rw [e]
    exact this

/-- The value of `roundDouble` on a positive quotient: a natural significand `m` times
`2 ^ e`, where `m` is `p / d / 2 ^ e` rounded to nearest, ties to even. -/
theorem roundDouble_pos (p d : Nat) (hp : 0 < p) (hd : 0 < d) :
    ∃ (k e : ℤ) (m : Nat), (2 : ℚ) ^ k ≤ (p : ℚ) / d ∧ (p : ℚ) / d < (2 : ℚ) ^ (k + 1) ∧
      e = max (k - 52) (-1074) ∧
      (p : ℚ) / d / (2 : ℚ) ^ e - 1 / 2 ≤ m ∧ (m : ℚ) ≤ (p : ℚ) / d / (2 : ℚ) ^ e + 1 / 2 ∧
      ((m : ℚ) = (p : ℚ) / d / (2 : ℚ) ^ e + 1 / 2 → m % 2 = 0) ∧
      ((m : ℚ) = (p : ℚ) / d / (2 : ℚ) ^ e - 1 / 2 → m % 2 = 0) ∧
      (roundDouble (p : ℤ) d).toRat = m * (2 : ℚ) ^ e := by
  obtain ⟨k, hk1, hk2, he⟩ := ulpExponent_spec p d hp hd
  have hdq : (0 : ℚ) < d := by exact_mod_cast hd
  have hden : 0 < d * 2 ^ (ulpExponent p d).toNat := by positivity
  have hx : (((p * 2 ^ (-(ulpExponent p d)).toNat : Nat) : ℚ))
      / ((d * 2 ^ (ulpExponent p d).toNat : Nat) : ℚ)
      = (p : ℚ) / d / (2 : ℚ) ^ (ulpExponent p d) := by
    rw [two_zpow_split (ulpExponent p d)]
    push_cast
    field_simp
  obtain ⟨s1, s2, s3, s4⟩ := roundHalfEven_spec (p * 2 ^ (-(ulpExponent p d)).toNat)
    (d * 2 ^ (ulpExponent p d).toNat) hden
  rw [hx] at s1 s2 s3 s4
  refine ⟨k, ulpExponent p d, _, hk1, hk2, he, s1, s2, s3, s4, ?_⟩
  unfold roundDouble
  have hp0 : ((p : ℤ) = 0 ∨ d = 0) ↔ False := by
    constructor
    · rintro (h | h)
      · omega
      · omega
    · intro h; exact h.elim
  simp only [hp0, if_false, Int.natAbs_ofNat]
  rw [toRat_normDecimal, two_zpow_split (ulpExponent p d)]
  have hs : (p : ℤ).sign = 1 := Int.sign_eq_one_of_pos (by exact_mod_cast hp)
  rw [hs]
  push_cast
  have h10 : (10 : ℚ) ^ (-(ulpExponent p d)).toNat
      = (2 : ℚ) ^ (-(ulpExponent p d)).toNat * (5 : ℚ) ^ (-(ulpExponent p d)).toNat := by
    rw [← mul_pow]; norm_num
  rw [h10]
  field_simp
  ring

/-- The value of `roundDouble` changes sign with the numerator. -/
theorem roundDouble_neg (n : ℤ) (d : Nat) :
    (roundDouble (-n) d).toRat = -(roundDouble n d).toRat := by
  unfold roundDouble
  by_cases h0 : n = 0 ∨ d = 0
  · have h1 : -n = 0 ∨ d = 0 := by
      rcases h0 with h | h
      · left; omega
      · right; exact h
    rw [if_pos h0, if_pos h1]
    simp [Num.toRat]
  · have h1 : ¬(-n = 0 ∨ d = 0) := by
      intro h
      apply h0
      rcases h with h | h
      · left; omega
      · right; exact h
    rw [if_neg h0, if_neg h1]
    simp only [Int.natAbs_neg, Int.sign_neg]
    rw [toRat_normDecimal, toRat_normDecimal]
    push_cast
    ring

theorem roundDouble_zero (d : Nat) : (roundDouble 0 d).toRat = 0 := by
  simp [roundDouble, Num.toRat]

/-- The rounding of a positive quotient is not negative. -/
theorem roundDouble_pos_nonneg (p d : Nat) (hp : 0 < p) (hd : 0 < d) :
    0 ≤ (roundDouble (p : ℤ) d).toRat := by
  obtain ⟨k, e, m, _, _, _, _, _, _, _, hv⟩ := roundDouble_pos p d hp hd
  rw [hv]
  positivity

/-- Rounding keeps the order of two positive quotients. -/
theorem roundDouble_mono_pos (p1 d1 p2 d2 : Nat) (hp1 : 0 < p1) (hd1 : 0 < d1) (hp2 : 0 < p2)
    (hd2 : 0 < d2) (hle : (p1 : ℚ) / d1 ≤ (p2 : ℚ) / d2) :
    (roundDouble (p1 : ℤ) d1).toRat ≤ (roundDouble (p2 : ℤ) d2).toRat := by
  obtain ⟨k1, e1, m1, a1, a2, ae, a3, a4, a5, a6, av⟩ := roundDouble_pos p1 d1 hp1 hd1
  obtain ⟨k2, e2, m2, b1, b2, be, b3, b4, b5, b6, bv⟩ := roundDouble_pos p2 d2 hp2 hd2
  rw [av, bv]
  generalize (p1 : ℚ) / d1 = v at *
  generalize (p2 : ℚ) / d2 = w at *
  have two1 : (1 : ℚ) < 2 := by norm_num
  have two0 : (2 : ℚ) ≠ 0 := by norm_num
  have hk : k1 ≤ k2 := by
    have h : (2 : ℚ) ^ k1 < (2 : ℚ) ^ (k2 + 1) := lt_of_le_of_lt (a1.trans hle) b2
    have := (zpow_lt_zpow_iff_right₀ two1).1 h
    omega
  have hee : e1 ≤ e2 := by
    rw [ae, be]
    exact max_le_max (by omega) le_rfl
  have pe1 : (0 : ℚ) < (2 : ℚ) ^ e1 := by positivity
  have pe2 : (0 : ℚ) < (2 : ℚ) ^ e2 := by positivity
  rcases eq_or_lt_of_le hee with heq | hlt
  · rw [← heq] at b3 b4 b5 b6 ⊢
    have hx : v / (2 : ℚ) ^ e1 ≤ w / (2 : ℚ) ^ e1 := div_le_div_of_nonneg_right hle pe1.le
    have hm : m1 ≤ m2 := by
      by_contra hc
      have hc2 : m2 + 1 ≤ m1 := by omega
      have hq : (m2 : ℚ) + 1 ≤ m1 := by exact_mod_cast hc2
      have c1 : (m1 : ℚ) = v / (2 : ℚ) ^ e1 + 1 / 2 := by linarith
      have c2 : (m2 : ℚ) = w / (2 : ℚ) ^ e1 - 1 / 2 := by linarith
      have q1 := a5 c1
      have q2 := b6 c2
      have c3 : (m1 : ℚ) = (m2 : ℚ) + 1 := by linarith
      have c4 : m1 = m2 + 1 := by exact_mod_cast c3
      omega
    have hmq : (m1 : ℚ) ≤ m2 := by exact_mod_cast hm
    exact mul_le_mul_of_nonneg_right hmq pe1.le
  · have he2 : e2 = k2 - 52 := by
      rw [be]
      apply max_eq_left
      have : -1074 ≤ e1 := by rw [ae]; exact le_max_right _ _
      by_contra hc
      rw [be, max_eq_right (by omega)] at hlt
      omega
    have hk12 : k1 + 1 ≤ k2 := by
      by_contra hc
      have : k1 = k2 := by omega
      rw [ae, be, this] at hlt
      exact lt_irrefl _ hlt
    have hke : e1 ≤ k2 := by omega
    have hmid : (2 : ℚ) ^ k2 = ((2 ^ (k2 - e1).toNat : Nat) : ℚ) * (2 : ℚ) ^ e1 := by
      push_cast
      rw [← zpow_natCast, Int.toNat_of_nonneg (by omega), ← zpow_add₀ two0]
      congr 1
      ring
    have hv : v < (2 : ℚ) ^ k2 :=
      lt_of_lt_of_le a2 ((zpow_le_zpow_iff_right₀ two1).2 hk12)
    have hm1 : m1 ≤ 2 ^ (k2 - e1).toNat := by
      have hx : v / (2 : ℚ) ^ e1 < ((2 ^ (k2 - e1).toNat : Nat) : ℚ) := by
        rw [div_lt_iff₀ pe1, ← hmid]
        exact hv
      have : (m1 : ℚ) < ((2 ^ (k2 - e1).toNat : Nat) : ℚ) + 1 := by linarith
      have : m1 < 2 ^ (k2 - e1).toNat + 1 := by exact_mod_cast this
      omega
    have hT : ((4503599627370496 : Nat) : ℚ) = (2 : ℚ) ^ (52 : ℤ) := by norm_num
    have hT2 : (2 : ℚ) ^ (52 : ℤ) * (2 : ℚ) ^ e2 = (2 : ℚ) ^ k2 := by
      rw [← zpow_add₀ two0, he2]
      congr 1
      ring
    have hm2 : 4503599627370496 ≤ m2 := by
      have hx : ((4503599627370496 : Nat) : ℚ) ≤ w / (2 : ℚ) ^ e2 := by
        rw [le_div_iff₀ pe2, hT, hT2]
        exact b1
      have h1 : ((4503599627370496 : Nat) : ℚ) < (m2 : ℚ) + 1 := by linarith
      have h2 : 4503599627370496 < m2 + 1 := by exact_mod_cast h1
      omega
    have hm1q : (m1 : ℚ) ≤ ((2 ^ (k2 - e1).toNat : Nat) : ℚ) := by exact_mod_cast hm1
    have hm2q : ((4503599627370496 : Nat) : ℚ) ≤ (m2 : ℚ) := by exact_mod_cast hm2
    calc (m1 : ℚ) * (2 : ℚ) ^ e1 ≤ ((2 ^ (k2 - e1).toNat : Nat) : ℚ) * (2 : ℚ) ^ e1 :=
          mul_le_mul_of_nonneg_right hm1q pe1.le
      _ = (2 : ℚ) ^ k2 := hmid.symm
      _ = ((4503599627370496 : Nat) : ℚ) * (2 : ℚ) ^ e2 := by rw [hT, hT2]
      _ ≤ (m2 : ℚ) * (2 : ℚ) ^ e2 := mul_le_mul_of_nonneg_right hm2q pe2.le

/-- Rounding to the nearest double keeps the order. -/
theorem roundDouble_mono (n1 n2 : ℤ) (d1 d2 : Nat) (hd1 : 0 < d1) (hd2 : 0 < d2)
    (hle : (n1 : ℚ) / d1 ≤ (n2 : ℚ) / d2) :
    (roundDouble n1 d1).toRat ≤ (roundDouble n2 d2).toRat := by
  have hd1q : (0 : ℚ) < d1 := by exact_mod_cast hd1
  have hd2q : (0 : ℚ) < d2 := by exact_mod_cast hd2
  have pos_of (n : ℤ) (d : Nat) (hd : 0 < d) (hn : 0 < n) : 0 ≤ (roundDouble n d).toRat := by
    obtain ⟨p, rfl⟩ := Int.eq_ofNat_of_zero_le hn.le
    exact roundDouble_pos_nonneg p d (by exact_mod_cast hn) hd
  have neg_of (n : ℤ) (d : Nat) (hd : 0 < d) (hn : n < 0) : (roundDouble n d).toRat ≤ 0 := by
    have h := pos_of (-n) d hd (by omega)
    rw [roundDouble_neg] at h
    linarith
  rcases lt_trichotomy n1 0 with h1 | h1 | h1
  · rcases lt_trichotomy n2 0 with h2 | h2 | h2
    · obtain ⟨p1, e1⟩ := Int.eq_ofNat_of_zero_le (show 0 ≤ -n1 by omega)
      obtain ⟨p2, e2⟩ := Int.eq_ofNat_of_zero_le (show 0 ≤ -n2 by omega)
      have f1 : n1 = -(p1 : ℤ) := by omega
      have f2 : n2 = -(p2 : ℤ) := by omega
      subst f1 f2
      rw [roundDouble_neg, roundDouble_neg, neg_le_neg_iff]
      apply roundDouble_mono_pos p2 d2 p1 d1 (by omega) hd2 (by omega) hd1
      push_cast at hle
      rw [neg_div, neg_div, neg_le_neg_iff] at hle
      exact hle
    · subst h2
      rw [roundDouble_zero]
      exact neg_of n1 d1 hd1 h1
    · exact (neg_of n1 d1 hd1 h1).trans (pos_of n2 d2 hd2 h2)
  · subst h1
    rw [roundDouble_zero]
    rcases lt_trichotomy n2 0 with h2 | h2 | h2
    · exfalso
      have : (n2 : ℚ) / d2 < 0 := div_neg_of_neg_of_pos (by exact_mod_cast h2) hd2q
      simp at hle
      linarith
    · subst h2; rw [roundDouble_zero]
    · exact pos_of n2 d2 hd2 h2
  · have h2 : 0 < n2 := by
      by_contra hc
      have hn2 : (n2 : ℚ) ≤ 0 := by exact_mod_cast (not_lt.1 hc)
      have : (n2 : ℚ) / d2 ≤ 0 := div_nonpos_of_nonpos_of_nonneg hn2 hd2q.le
      have : (0 : ℚ) < (n1 : ℚ) / d1 := div_pos (by exact_mod_cast h1) hd1q
      linarith
    obtain ⟨p1, rfl⟩ := Int.eq_ofNat_of_zero_le h1.le
    obtain ⟨p2, rfl⟩ := Int.eq_ofNat_of_zero_le h2.le
    push_cast at hle
    exact roundDouble_mono_pos p1 d1 p2 d2 (by exact_mod_cast h1) hd1 (by exact_mod_cast h2) hd2
      hle

/-- A natural number up to `2 ^ 53` is a double. -/
theorem roundDouble_nat (n : ℤ) (d N : Nat) (hd : 0 < d) (hv : (n : ℚ) / d = N)
    (hN : N ≤ 2 ^ 53) : (roundDouble n d).toRat = N := by
  have hdq : (0 : ℚ) < d := by exact_mod_cast hd
  rcases Nat.eq_zero_or_pos N with h0 | hpos
  · subst h0
    have : n = 0 := by
      have h1 : (n : ℚ) = 0 := by
        rw [div_eq_iff hdq.ne'] at hv
        simpa using hv
      exact_mod_cast h1
    subst this
    simpa using roundDouble_zero d
  · have hNq : (0 : ℚ) < N := by exact_mod_cast hpos
    have hn : 0 < n := by
      have h1 : (0 : ℚ) < (n : ℚ) / d := by rw [hv]; exact hNq
      have h2 : (0 : ℚ) < n := by
        by_contra hc
        have := div_nonpos_of_nonpos_of_nonneg (not_lt.1 hc) hdq.le
        linarith
      exact_mod_cast h2
    obtain ⟨p, rfl⟩ := Int.eq_ofNat_of_zero_le hn.le
    have hv2 : (p : ℚ) / d = N := by
      push_cast at hv
      exact hv
    obtain ⟨k, e, m, a1, a2, ae, a3, a4, _, _, av⟩ :=
      roundDouble_pos p d (by exact_mod_cast hn) hd
    rw [av]
    rw [hv2] at a1 a2 a3 a4
    have two1 : (1 : ℚ) < 2 := by norm_num
    have two0 : (2 : ℚ) ≠ 0 := by norm_num
    have e53 : (2 : Nat) ^ 53 = 9007199254740992 := by norm_num
    have z53 : (2 : ℚ) ^ (53 : ℤ) = ((9007199254740992 : Nat) : ℚ) := by norm_num
    rw [e53] at hN
    have pe : (0 : ℚ) < (2 : ℚ) ^ e := by positivity
    have hk0 : 0 ≤ k := by
      have h1 : (1 : ℚ) ≤ N := by exact_mod_cast hpos
      have h2 : (2 : ℚ) ^ (0 : ℤ) < (2 : ℚ) ^ (k + 1) := by
        rw [zpow_zero]; linarith
      have := (zpow_lt_zpow_iff_right₀ two1).1 h2
      omega
    have hk53 : k ≤ 53 := by
      have h1 : (N : ℚ) ≤ (2 : ℚ) ^ (53 : ℤ) := by
        rw [z53]
        exact_mod_cast hN
      exact (zpow_le_zpow_iff_right₀ two1).1 (a1.trans h1)
    have he : e = k - 52 := by rw [ae]; exact max_eq_left (by omega)
    -- the quotient by the unit in the last place is a natural number
    have hX : ∃ X : Nat, (N : ℚ) / (2 : ℚ) ^ e = X := by
      rcases le_or_lt e 0 with hle | hgt
      · refine ⟨N * 2 ^ (-e).toNat, ?_⟩
        push_cast
        rw [← zpow_natCast, Int.toNat_of_nonneg (by omega), zpow_neg]
        field_simp
      · have hk : k = 53 := by omega
        have he1 : e = 1 := by omega
        have hN2 : N = 2 ^ 53 := by
          have h1 : ((9007199254740992 : Nat) : ℚ) ≤ N := by
            rw [hk, z53] at a1
            exact_mod_cast a1
          have : 9007199254740992 ≤ N := by exact_mod_cast h1
          omega
        refine ⟨4503599627370496, ?_⟩
        rw [he1, hN2]
        norm_num
    obtain ⟨X, hX⟩ := hX
    rw [hX] at a3 a4
    have hmX : m = X := by
      have h1 : (X : ℚ) < (m : ℚ) + 1 := by linarith
      have h2 : (m : ℚ) < (X : ℚ) + 1 := by linarith
      have h3 : X < m + 1 := by exact_mod_cast h1
      have h4 : m < X + 1 := by exact_mod_cast h2
      omega
    rw [hmX, ← hX]
    field_simp

/-- Reading a number as a double keeps the order. -/
theorem nearestDouble_mono (a b : Num) (h : a.toRat ≤ b.toRat) :
    (nearestDouble a).toRat ≤ (nearestDouble b).toRat := by
  unfold nearestDouble
  apply roundDouble_mono _ _ _ _ (by positivity) (by positivity)
  unfold Num.toRat at h
  push_cast
  exact h

/-- A natural number up to `2 ^ 53` is read as itself. -/
theorem nearestDouble_nat (a : Num) (N : Nat) (h : a.toRat = N) (hN : N ≤ 2 ^ 53) :
    (nearestDouble a).toRat = N := by
  unfold nearestDouble
  apply roundDouble_nat _ _ _ (by positivity) _ hN
  unfold Num.toRat at h
  push_cast
  exact h

/-- The IEEE 754 arithmetic of `doubleHost` rounds as `Host.Rounds` asks. -/
theorem doubleHost_rounds (sample : Num) : (doubleHost sample).Rounds where
  add_exact := by
    intro a b m n ha hb hmn
    show (nearestDouble (Num.add (nearestDouble a) (nearestDouble b))).toRat = _
    have h1 := nearestDouble_nat a m ha (by omega)
    have h2 := nearestDouble_nat b n hb (by omega)
    have h3 := nearestDouble_nat (Num.add (nearestDouble a) (nearestDouble b)) (m + n)
      (by rw [toRat_add, h1, h2]; push_cast; rfl) hmn
    rw [h3]
    push_cast
    rfl
  mul_exact := by
    intro a b m n ha hb hmn
    show (nearestDouble (Num.mul (nearestDouble a) (nearestDouble b))).toRat = _
    have hval : (Num.mul (nearestDouble a) (nearestDouble b)).toRat = ((m * n : Nat) : ℚ) := by
      rw [toRat_mul]
      rcases Nat.eq_zero_or_pos m with hm | hm
      · subst hm
        rw [nearestDouble_nat a 0 ha (by positivity)]
        simp
      · rcases Nat.eq_zero_or_pos n with hn | hn
        · subst hn
          rw [nearestDouble_nat b 0 hb (by positivity)]
          simp
        · have hm2 : m ≤ 2 ^ 53 := le_trans (Nat.le_mul_of_pos_right m hn) hmn
          have hn2 : n ≤ 2 ^ 53 := le_trans (Nat.le_mul_of_pos_left n hm) hmn
          rw [nearestDouble_nat a m ha hm2, nearestDouble_nat b n hb hn2]
          push_cast
          rfl
    rw [nearestDouble_nat _ (m * n) hval hmn]
    push_cast
    rfl
  add_mono := by
    intro a b c hbc
    show (nearestDouble (Num.add (nearestDouble a) (nearestDouble b))).toRat
      ≤ (nearestDouble (Num.add (nearestDouble a) (nearestDouble c))).toRat
    apply nearestDouble_mono
    rw [toRat_add, toRat_add]
    have := nearestDouble_mono b c hbc
    linarith
  mul_mono := by
    intro a b c hc hab
    show (nearestDouble (Num.mul (nearestDouble a) (nearestDouble c))).toRat
      ≤ (nearestDouble (Num.mul (nearestDouble b) (nearestDouble c))).toRat
    apply nearestDouble_mono
    rw [toRat_mul, toRat_mul]
    have h0 : (0 : ℚ) ≤ (nearestDouble c).toRat := by
      have hz : (⟨0, 0⟩ : Num).toRat = ((0 : Nat) : ℚ) := by simp [Num.toRat]
      have h1 := nearestDouble_mono ⟨0, 0⟩ c (by rw [hz]; simpa using hc)
      rw [nearestDouble_nat ⟨0, 0⟩ 0 hz (by positivity)] at h1
      simpa using h1
    exact mul_le_mul_of_nonneg_right (nearestDouble_mono a b hab) h0

/-! ## Placement: lemmas -/

theorem coercible_of_toNumber (h : Host) (v : Val) (n : Num) (hv : v.toNumber? = some n) :
    h.coercible v = true := by
  cases v <;> simp_all [Val.toNumber?, Host.coercible, toStringJs]

/-- The inner loop returns on placeable planets, and a candidate that it lets through keeps
the margin to every planet whose distance is a number. -/
theorem overlapsAny_spec (h : Host) (sizePx x y : Num) :
    ∀ items : List Val, items.all placeable = true →
      ∃ b, overlapsAny h sizePx x y items = .ok b ∧
        (b = false → ∀ other ∈ items, ∀ pct ox oy d : Num,
          ((other.get "sizePercent").orElse (.int 18)).toNumber? = some pct →
          ((other.get "x").orElse (.int 0)).toNumber? = some ox →
          ((other.get "y").orElse (.int 0)).toNumber? = some oy →
          h.hypot (.num (h.sub x ox)) (.num (h.sub y oy)) = some d →
          (minDist h sizePx (calculateSize h pct)).toRat ≤ d.toRat) := by
  intro items
  induction items with
  | nil => intro _; exact ⟨false, rfl, fun _ o ho => absurd ho (List.not_mem_nil o)⟩
  | cons p ps ih =>
    intro hall
    simp only [List.all_cons, Bool.and_eq_true] at hall
    obtain ⟨hp, hps⟩ := hall
    obtain ⟨b, hb, hclear⟩ := ih hps
    unfold placeable at hp
    simp only [Bool.and_eq_true, Bool.not_eq_true'] at hp
    obtain ⟨⟨⟨hpn, hpct⟩, hox⟩, hoy⟩ := hp
    obtain ⟨pct, hpct⟩ := Option.isSome_iff_exists.1 hpct
    obtain ⟨ox, hox⟩ := Option.isSome_iff_exists.1 hox
    obtain ⟨oy, hoy⟩ := Option.isSome_iff_exists.1 hoy
    have c1 := coercible_of_toNumber h _ _ hpct
    have c2 := coercible_of_toNumber h _ _ hox
    have c3 := coercible_of_toNumber h _ _ hoy
    cases hd : h.hypot (.num (h.sub x ox)) (.num (h.sub y oy)) with
    | none =>
      refine ⟨b, ?_, ?_⟩
      · unfold overlapsAny
        simp only [hpn, Bool.false_eq_true, if_false, c1, c2, c3, Bool.and_self, Bool.not_true,
          hpct, hox, hoy, hd]
        exact hb
      · intro hbf other hother pct2 ox2 oy2 d h1 h2 h3 h4
        rcases List.mem_cons.1 hother with heq | hmem
        · subst heq
          rw [hox] at h2
          rw [hoy] at h3
          simp only [Option.some.injEq] at h2 h3
          subst h2 h3
          rw [hd] at h4
          cases h4
        · exact hclear hbf other hmem pct2 ox2 oy2 d h1 h2 h3 h4
    | some dist =>
      by_cases hlt : Num.lt dist (minDist h sizePx (calculateSize h pct)) = true
      · refine ⟨true, ?_, fun hc => by cases hc⟩
        unfold overlapsAny
        simp only [hpn, Bool.false_eq_true, if_false, c1, c2, c3, Bool.and_self, Bool.not_true,
          hpct, hox, hoy, hd, hlt, if_true]
      · refine ⟨b, ?_, ?_⟩
        · unfold overlapsAny
          simp only [hpn, Bool.false_eq_true, if_false, c1, c2, c3, Bool.and_self, Bool.not_true,
            hpct, hox, hoy, hd, hlt]
          exact hb
        · intro hbf other hother pct2 ox2 oy2 d h1 h2 h3 h4
          rcases List.mem_cons.1 hother with heq | hmem
          · subst heq
            rw [hpct] at h1
            rw [hox] at h2
            rw [hoy] at h3
            simp only [Option.some.injEq] at h1 h2 h3
            subst h1 h2 h3
            rw [hd] at h4
            simp only [Option.some.injEq] at h4
            subst h4
            rw [lt_iff_toRat, not_lt] at hlt
            exact hlt
          · exact hclear hbf other hmem pct2 ox2 oy2 d h1 h2 h3 h4

/-- The attempts from `attempt` on, when the radius follows the schedule of the loop: either
an attempt `k` is the first not rejected and its candidate is returned, or all remaining
attempts are rejected and the fallback is returned. -/
theorem placeLoop_spec (h : Host) (existing : List Val) (sizePx : Num) (r : Nat)
    (hall : existing.all placeable = true) :
    ∀ fuel attempt : Nat,
      (∃ k, attempt ≤ k ∧ k < attempt + fuel ∧
        (∀ j, attempt ≤ j → j < k →
          overlapsAny h sizePx (candidate h (radiusAt h j) (r + 2 * j)).1
            (candidate h (radiusAt h j) (r + 2 * j)).2 existing = .ok true) ∧
        overlapsAny h sizePx (candidate h (radiusAt h k) (r + 2 * k)).1
          (candidate h (radiusAt h k) (r + 2 * k)).2 existing = .ok false ∧
        placeLoop h existing sizePx fuel attempt (radiusAt h attempt) (r + 2 * attempt)
          = .ok (point (candidate h (radiusAt h k) (r + 2 * k)).1
              (candidate h (radiusAt h k) (r + 2 * k)).2, r + 2 * (k + 1))) ∨
      ((∀ j, attempt ≤ j → j < attempt + fuel →
          overlapsAny h sizePx (candidate h (radiusAt h j) (r + 2 * j)).1
            (candidate h (radiusAt h j) (r + 2 * j)).2 existing = .ok true) ∧
        placeLoop h existing sizePx fuel attempt (radiusAt h attempt) (r + 2 * attempt)
          = .ok (point (radiusAt h (attempt + fuel)) ⟨0, 0⟩, r + 2 * (attempt + fuel))) := by
  intro fuel
  induction fuel with
  | zero =>
    intro attempt
    right
    exact ⟨fun j h1 h2 => absurd h2 (by omega), rfl⟩
  | succ fuel ih =>
    intro attempt
    obtain ⟨b, hb, _⟩ := overlapsAny_spec h sizePx
      (candidate h (radiusAt h attempt) (r + 2 * attempt)).1
      (candidate h (radiusAt h attempt) (r + 2 * attempt)).2 existing hall
    cases b with
    | false =>
      left
      refine ⟨attempt, le_refl _, by omega, fun j h1 h2 => absurd h2 (by omega), hb, ?_⟩
      simp only [placeLoop, hb]
      rfl
    | true =>
      have hstep : placeLoop h existing sizePx (fuel + 1) attempt (radiusAt h attempt)
          (r + 2 * attempt)
          = placeLoop h existing sizePx fuel (attempt + 1) (radiusAt h (attempt + 1))
            (r + 2 * (attempt + 1)) := by
        simp only [placeLoop, hb]
        rfl
      rcases ih (attempt + 1) with ⟨k, hk1, hk2, hrej, hacc, hres⟩ | ⟨hrej, hres⟩
      · left
        refine ⟨k, by omega, by omega, ?_, hacc, by rw [hstep, hres]⟩
        intro j h1 h2
        by_cases hj : j = attempt
        · subst hj; exact hb
        · exact hrej j (by omega) h2
      · right
        refine ⟨?_, by rw [hstep, hres, Nat.add_assoc, Nat.add_comm 1 fuel]⟩
        intro j h1 h2
        by_cases hj : j = attempt
        · subst hj; exact hb
        · exact hrej j (by omega) (by omega)

set_option maxRecDepth 100000 in
/-- On a drawing area 330 px wide, `calculateSize(35)` is 115 in IEEE 754 arithmetic: the
quotient `35/100` is the double next below 0.35, the product `330*(35/100)` is the double
`115.49999999999998...`, and `Math.round` takes it to 115, where the exact product 115.5 would
go to 116. -/
theorem calculateSize_rounds_double_product :
    calculateSize { doubleHost ⟨0, 0⟩ with spaceWidth := ⟨330, 0⟩, spaceHeight := ⟨330, 0⟩ }
        ⟨35, 0⟩ = ⟨115, 0⟩ ∧
      (doubleHost ⟨0, 0⟩).mul ⟨330, 0⟩ ((doubleHost ⟨0, 0⟩).div ⟨35, 0⟩ ⟨100, 0⟩)
        = ⟨1154999999999999857891452847979962825775146484375, 46⟩ ∧
      Num.round (Num.mul ⟨330, 0⟩ ⟨35, 2⟩) = ⟨116, 0⟩ := by
  refine ⟨by rfl, by rfl, by decide⟩

/-! ## Claims on placement -/

set_option maxRecDepth 100000 in
/-- C14 (counterexamples).  The file `{"systems": {"a": S}}`, whose system `S` holds one planet
with an orbit and with `x` the object `{"toString": 1}`, is migrated to the system `S` as it
is, and `findNonOverlapping` on `S` raises a TypeError instead of returning a point.  In
IEEE 754 arithmetic with every random sample 0, for a candidate 144 px wide and one planet of
144 px at `(-(27 - 2 ^ -48), -15)`, whose coordinates are doubles, the function returns
the first candidate `(125, -15)`: the difference `125 - x` is rounded to 152, which is the
margin `(144 + 144)/2 + 8`, while the distance between the two points is `152 - 2 ^ -48`,
below the margin. -/
theorem findNonOverlapping_raises_or_rounds :
    ((migrateLoaded sampleHost (fileOf (systemOf objectXPlanet)) 0).map fun res =>
        (res.1.get "systems").get "a") = .ok (systemOf objectXPlanet) ∧
      findNonOverlapping sampleHost (systemOf objectXPlanet) ⟨144, 0⟩ 0 = .error .typeError ∧
      nearestDouble aboveMinus27 = aboveMinus27 ∧
      calculateSize (doubleHost ⟨0, 0⟩) ⟨18, 0⟩ = ⟨144, 0⟩ ∧
      minDist (doubleHost ⟨0, 0⟩) ⟨144, 0⟩ ⟨144, 0⟩ = ⟨152, 0⟩ ∧
      findNonOverlapping (doubleHost ⟨0, 0⟩) (systemOf (planetAt "p" (.num aboveMinus27)))
          ⟨144, 0⟩ 0
        = .ok (point ⟨125, 0⟩ ⟨-15, 0⟩, 2) ∧
      (doubleHost ⟨0, 0⟩).sub ⟨125, 0⟩ aboveMinus27 = ⟨152, 0⟩ ∧
      Num.sub ⟨-15, 0⟩ ⟨-15, 0⟩ = ⟨0, 0⟩ ∧
      Num.lt (Num.sub ⟨125, 0⟩ aboveMinus27) ⟨152, 0⟩ = true :=
  ⟨rfl, rfl, by decide, by decide, by decide, rfl, by decide, by decide, by decide⟩

/-- C14 (amended): for a system whose `planets` is an array of entries with numeric size and
position, every candidate size and every sequence of random samples, `findNonOverlapping`
returns.  Either some attempt `k < 800` is the first that is not rejected, after `k + 1`
attempts, and the result is its candidate: for every existing planet the distance `dist` that
`Math.hypot` returns for the differences the host computes, when it is a number, is not below
the value `minDist` that the host computes for `(sizePx + otherSizePx)/2 + 8`.  Or all 800
attempts were rejected and the result is the fallback `(radius, 0)`, with `y = 0` and the
radius reached by then. -/
theorem findNonOverlapping_places (h : Host) (sys : Val) (sizePx : Num) (r : Nat)
    (items : List Val) (props : Props)
    (hplanets : sys.get "planets" = .arr items props)
    (hitems : items.all placeable = true) :
    (∃ k, k < 800 ∧
      findNonOverlapping h sys sizePx r
        = .ok (point (candidate h (radiusAt h k) (r + 2 * k)).1
            (candidate h (radiusAt h k) (r + 2 * k)).2, r + 2 * (k + 1)) ∧
      (∀ j, j < k →
        overlapsAny h sizePx (candidate h (radiusAt h j) (r + 2 * j)).1
          (candidate h (radiusAt h j) (r + 2 * j)).2 items = .ok true) ∧
      ∀ other ∈ items, ∀ pct ox oy d : Num,
        ((other.get "sizePercent").orElse (.int 18)).toNumber? = some pct →
        ((other.get "x").orElse (.int 0)).toNumber? = some ox →
        ((other.get "y").orElse (.int 0)).toNumber? = some oy →
        h.hypot (.num (h.sub (candidate h (radiusAt h k) (r + 2 * k)).1 ox))
          (.num (h.sub (candidate h (radiusAt h k) (r + 2 * k)).2 oy)) = some d →
        (minDist h sizePx (calculateSize h pct)).toRat ≤ d.toRat) ∨
    ((∀ j, j < 800 →
        overlapsAny h sizePx (candidate h (radiusAt h j) (r + 2 * j)).1
          (candidate h (radiusAt h j) (r + 2 * j)).2 items = .ok true) ∧
      findNonOverlapping h sys sizePx r = .ok (point (radiusAt h 800) ⟨0, 0⟩, r + 1600)) := by
  have hobj : sys.isObject = true :=
    isObject_of_get_truthy sys "planets" (by rw [hplanets]; rfl)
  have htruthy : sys.truthy = true := by
    cases sys <;> simp_all [Val.isObject, Val.truthy]
  have hfind : findNonOverlapping h sys sizePx r
      = placeLoop h items sizePx 800 0 (radiusAt h 0) (r + 2 * 0) := by
    unfold findNonOverlapping
    rw [htruthy, hplanets]
    rfl
  rcases placeLoop_spec h items sizePx r hitems 800 0 with
    ⟨k, _, hk2, hrej, hacc, hres⟩ | ⟨hrej, hres⟩
  · left
    refine ⟨k, by omega, by rw [hfind, hres], fun j hj => hrej j (Nat.zero_le j) hj, ?_⟩
    obtain ⟨b, hb, hclear⟩ := overlapsAny_spec h sizePx
      (candidate h (radiusAt h k) (r + 2 * k)).1
      (candidate h (radiusAt h k) (r + 2 * k)).2 items hitems
    rw [hacc] at hb
    simp only [Except.ok.injEq] at hb
    exact hclear hb.symm
  · right
    refine ⟨fun j hj => hrej j (Nat.zero_le j) (by omega), ?_⟩
    rw [hfind, hres]

/-- Witness of C14: the system with one planet at `(125, -15)` and a candidate 144 px wide. -/
theorem findNonOverlapping_places_witness :
    blockedSystem.get "planets" = .arr [planetOnAxis "p" 125] [] ∧
      [planetOnAxis "p" 125].all placeable = true ∧
      ((∃ k, k < 800 ∧
        findNonOverlapping sampleHost blockedSystem ⟨144, 0⟩ 0
          = .ok (point (candidate sampleHost (radiusAt sampleHost k) (0 + 2 * k)).1
              (candidate sampleHost (radiusAt sampleHost k) (0 + 2 * k)).2, 0 + 2 * (k + 1))) ∨
        findNonOverlapping sampleHost blockedSystem ⟨144, 0⟩ 0
          = .ok (point (radiusAt sampleHost 800) ⟨0, 0⟩, 0 + 1600)) :=
  ⟨rfl, by decide,
    (findNonOverlapping_places sampleHost blockedSystem ⟨144, 0⟩ 0 [planetOnAxis "p" 125] [] rfl
      (by decide)).imp (fun hk => hk.imp fun _ hk2 => ⟨hk2.1, hk2.2.1⟩) (fun hf => hf.2)⟩

/-- C15 (evaluation at the failing input): one planet of size 18 % sits at `(125, -15)`, the
candidate is 144 px wide and every random sample is 0, so that a candidate sampled at radius
`R` is `(R - 15, -15)` and is rejected when `R - 140 < 152`.  After the rejected attempts 0
and 1 the radius is already 180 (the two-iteration run of the loop falls back to it), and
the function returns the candidate `(285, -15)` of radius 300 at attempt 91, after 92
attempts; with the claimed schedule attempt 91 would sample at `140 + 40 * floor(91/30)`,
which is 260, and its candidate `(245, -15)` is rejected. -/
theorem findNonOverlapping_radius_grows_early :
    findNonOverlapping sampleHost blockedSystem ⟨144, 0⟩ 0
        = .ok (point ⟨285, 0⟩ ⟨-15, 0⟩, 184) ∧
      candidate sampleHost ⟨300, 0⟩ 182 = (⟨285, 0⟩, ⟨-15, 0⟩) ∧
      140 + 40 * (91 / 30) = 260 ∧
      candidate sampleHost ⟨260, 0⟩ 182 = (⟨245, 0⟩, ⟨-15, 0⟩) ∧
      overlapsAny sampleHost ⟨144, 0⟩ ⟨245, 0⟩ ⟨-15, 0⟩ [planetOnAxis "p" 125] = .ok true ∧
      placeLoop sampleHost [planetOnAxis "p" 125] ⟨144, 0⟩ 2 0 ⟨140, 0⟩ 0
        = .ok (point ⟨180, 0⟩ ⟨0, 0⟩, 4) :=
  ⟨rfl, by decide, by decide, by decide, rfl, rfl⟩

/-! ## Auto-arrange: lemmas -/

theorem toRat_ofNat (n : Nat) : (⟨(n : Nat), 0⟩ : Num).toRat = n := by
  simp [Num.toRat]

/-- Exact arithmetic rounds as `Host.Rounds` asks. -/
theorem sampleHost_rounds : sampleHost.Rounds where
  add_exact := by
    intro a b m n ha hb _
    show (Num.add a b).toRat = _
    rw [toRat_add, ha, hb]
  mul_exact := by
    intro a b m n ha hb _
    show (Num.mul a b).toRat = _
    rw [toRat_mul, ha, hb]
  add_mono := by
    intro a b c hbc
    show (Num.add a b).toRat ≤ (Num.add a c).toRat
    rw [toRat_add, toRat_add]
    linarith
  mul_mono := by
    intro a b c hc hab
    show (Num.mul a c).toRat ≤ (Num.mul b c).toRat
    rw [toRat_mul, toRat_mul]
    exact mul_le_mul_of_nonneg_right hab hc

/-- The radius `base + ring*gap + (Math.random()*30)` of `autoArrange` lies between
`180 + 70 * ring` and `180 + 70 * ring + 30`, both included, for a sample in `[0, 1]`. -/
theorem radius_bounds (h : Host) (hf : h.Rounds) (ring : Nat) (hring : ring < 2 ^ 32) (s : Num)
    (h0 : 0 ≤ s.toRat) (h1 : s.toRat ≤ 1) :
    180 + 70 * (ring : ℚ)
        ≤ (h.add (h.add ⟨180, 0⟩ (h.mul ⟨(ring : Nat), 0⟩ ⟨70, 0⟩)) (h.mul s ⟨30, 0⟩)).toRat ∧
      (h.add (h.add ⟨180, 0⟩ (h.mul ⟨(ring : Nat), 0⟩ ⟨70, 0⟩)) (h.mul s ⟨30, 0⟩)).toRat
        ≤ 180 + 70 * (ring : ℚ) + 30 := by
  have e53 : (2 : Nat) ^ 53 = 9007199254740992 := by norm_num
  have e32 : (2 : Nat) ^ 32 = 4294967296 := by norm_num
  rw [e32] at hring
  have c180 : (⟨180, 0⟩ : Num).toRat = (180 : Nat) := by simp [Num.toRat]
  have c70 : (⟨70, 0⟩ : Num).toRat = (70 : Nat) := by simp [Num.toRat]
  have c30 : (⟨30, 0⟩ : Num).toRat = (30 : Nat) := by simp [Num.toRat]
  have c1 : (⟨1, 0⟩ : Num).toRat = (1 : Nat) := by simp [Num.toRat]
  have c0 : (⟨0, 0⟩ : Num).toRat = (0 : Nat) := by simp [Num.toRat]
  have hmul : (h.mul ⟨(ring : Nat), 0⟩ ⟨70, 0⟩).toRat = ((ring * 70 : Nat) : ℚ) := by
    rw [hf.mul_exact _ _ ring 70 (toRat_ofNat ring) c70 (by rw [e53]; omega)]
    push_cast
    ring
  have hbase : (h.add ⟨180, 0⟩ (h.mul ⟨(ring : Nat), 0⟩ ⟨70, 0⟩)).toRat
      = ((180 + ring * 70 : Nat) : ℚ) := by
    rw [hf.add_exact _ _ 180 (ring * 70) c180 hmul (by rw [e53]; omega)]
    push_cast
    ring
  have ht0 : 0 ≤ (h.mul s ⟨30, 0⟩).toRat := by
    have hm := hf.mul_mono ⟨0, 0⟩ s ⟨30, 0⟩ (by rw [c30]; positivity) (by rw [c0]; simpa using h0)
    rw [hf.mul_exact _ _ 0 30 c0 c30 (by rw [e53]; omega)] at hm
    simpa using hm
  have ht1 : (h.mul s ⟨30, 0⟩).toRat ≤ 30 := by
    have hm := hf.mul_mono s ⟨1, 0⟩ ⟨30, 0⟩ (by rw [c30]; positivity) (by rw [c1]; simpa using h1)
    rw [hf.mul_exact _ _ 1 30 c1 c30 (by rw [e53]; omega)] at hm
    simpa using hm
  constructor
  · have hm := hf.add_mono (h.add ⟨180, 0⟩ (h.mul ⟨(ring : Nat), 0⟩ ⟨70, 0⟩)) ⟨0, 0⟩
      (h.mul s ⟨30, 0⟩) (by rw [c0]; simpa using ht0)
    rw [hf.add_exact _ _ (180 + ring * 70) 0 hbase c0 (by rw [e53]; omega)] at hm
    push_cast at hm
    linarith
  · have hm := hf.add_mono (h.add ⟨180, 0⟩ (h.mul ⟨(ring : Nat), 0⟩ ⟨70, 0⟩))
      (h.mul s ⟨30, 0⟩) ⟨30, 0⟩ (by rw [c30]; simpa using ht1)
    rw [hf.add_exact _ _ (180 + ring * 70) 30 hbase c30 (by rw [e53]; omega)] at hm
    push_cast at hm
    linarith

/-- The callback of `autoArrange` on an arrangeable planet. -/
theorem arrangePlanet_spec (h : Host) (adv : Val) (count i : Nat) (p : Val) (r : Nat)
    (hadv : adv.isNullish = false) (hp : arrangeable p = true) :
    ∃ q angle radius, arrangePlanet h adv count i p r = .ok q ∧
      (q.get "orbit").get "angle" = .num angle ∧
      angle = h.add (h.mul ⟨(i : Nat), 0⟩ (h.div (h.mul ⟨2, 0⟩ h.pi) ⟨(min 8 count : Nat), 0⟩))
        (h.mul ⟨(i / 8 : Nat), 0⟩ ⟨3, 1⟩) ∧
      (q.get "orbit").get "radius" = .num radius ∧
      radius = h.add (h.add ⟨180, 0⟩ (h.mul ⟨(i / 8 : Nat), 0⟩ ⟨70, 0⟩))
        (h.mul (h.random r) ⟨30, 0⟩) ∧
      q.get "x" = .num (h.mul (h.cos angle) radius) ∧
      q.get "y" = .num (h.mul (h.sin angle) radius) ∧
      q.get "id" = p.get "id" := by
  unfold arrangeable at hp
  simp only [Bool.and_eq_true, Bool.or_eq_true, Bool.not_eq_true'] at hp
  obtain ⟨hpo, horb⟩ := hp
  have hpn : p.isNullish = false := by
    cases p <;> simp_all [Val.isObject, Val.isNullish]
  generalize hang : h.add (h.mul ⟨(i : Nat), 0⟩
    (h.div (h.mul ⟨2, 0⟩ h.pi) ⟨(min 8 count : Nat), 0⟩))
    (h.mul ⟨((i / 8 : Nat) : Nat), 0⟩ ⟨3, 1⟩) = angle
  generalize hrad : h.add (h.add ⟨180, 0⟩ (h.mul ⟨((i / 8 : Nat) : Nat), 0⟩ ⟨70, 0⟩))
    (h.mul (h.random r) ⟨30, 0⟩) = radius
  generalize hlit : Val.obj
      [("radius", .num radius),
       ("angle", .num angle),
       ("speed", .num ⟨2, 1⟩),
       ("rotating", .bool (!(adv.get "disableOrbits").truthy)),
       ("reverse", .bool false),
       ("showRing", .bool false)] = lit
  have hlito : lit.isObject = true := by rw [← hlit]; rfl
  have ho0 : ((p.get "orbit").orElse lit).isObject = true := by
    unfold Val.orElse
    rcases horb with hf | ho
    · rw [hf]; exact hlito
    · by_cases ht : (p.get "orbit").truthy = true
      · rw [if_pos ht]; exact ho
      · rw [if_neg ht]; exact hlito
  have hon : ((p.get "orbit").orElse lit).isNullish = false := by
    cases hv : (p.get "orbit").orElse lit <;> simp_all [Val.isObject, Val.isNullish]
  have hrun : arrangePlanet h adv count i p r
      = .ok (((p.set "orbit" ((p.get "orbit").orElse lit)).set "orbit"
          ((((p.get "orbit").orElse lit).set "radius" (.num radius)).set "angle"
            (.num angle))).set "x" (.num (h.mul (h.cos angle) radius)) |>.set "y"
          (.num (h.mul (h.sin angle) radius))) := by
    unfold arrangePlanet
    simp only [hpn, hadv, Bool.and_false, Bool.false_eq_true, if_false, hang, hrad, hlit,
      get_set_same _ _ _ hpo, hon]
  refine ⟨_, angle, radius, hrun, ?_, rfl, ?_, rfl, ?_, ?_, ?_⟩
  · rw [get_set_ne _ _ _ _ (by decide), get_set_ne _ _ _ _ (by decide),
      get_set_same _ _ _ (by rw [isObject_set]; exact hpo),
      get_set_same _ _ _ (by rw [isObject_set]; exact ho0)]
  · rw [get_set_ne _ _ _ _ (by decide), get_set_ne _ _ _ _ (by decide),
      get_set_same _ _ _ (by rw [isObject_set]; exact hpo),
      get_set_ne _ _ _ _ (by decide), get_set_same _ _ _ ho0]
  · rw [get_set_ne _ _ _ _ (by decide),
      get_set_same _ _ _ (by rw [isObject_set, isObject_set]; exact hpo)]
  · rw [get_set_same _ _ _ (by rw [isObject_set, isObject_set, isObject_set]; exact hpo)]
  · rw [get_set_ne _ _ _ _ (by decide), get_set_ne _ _ _ _ (by decide),
      get_set_ne _ _ _ _ (by decide), get_set_ne _ _ _ _ (by decide)]

/-- The loop of `autoArrange` returns, draws one random number per planet, and works planet
by planet. -/
theorem arrangeFrom_spec (h : Host) (adv : Val) (count : Nat) (hadv : adv.isNullish = false) :
    ∀ (items : List Val) (start r : Nat), items.all arrangeable = true →
      ∃ items1, arrangeFrom h adv count start items r = .ok (items1, r + items.length) ∧
        items1.length = items.length ∧
        ∀ (j : Nat) (p : Val), items[j]? = some p →
          ∃ q, items1[j]? = some q ∧
            arrangePlanet h adv count (start + j) p (r + j) = .ok q := by
  intro items
  induction items with
  | nil => intro start r _; exact ⟨[], rfl, rfl, by simp⟩
  | cons p ps ih =>
    intro start r hall
    simp only [List.all_cons, Bool.and_eq_true] at hall
    obtain ⟨q, _, _, hq, _⟩ := arrangePlanet_spec h adv count start p r hadv hall.1
    obtain ⟨qs, hqs, hlen, hidx⟩ := ih (start + 1) (r + 1) hall.2
    refine ⟨q :: qs, ?_, by simp [hlen], ?_⟩
    · simp only [arrangeFrom, hq, hqs, List.length_cons]
      congr 2
      omega
    · intro j p2 hj
      cases j with
      | zero =>
        simp only [List.getElem?_cons_zero, Option.some.injEq] at hj
        subst hj
        exact ⟨q, by simp, hq⟩
      | succ j =>
        simp only [List.getElem?_cons_succ] at hj
        obtain ⟨q2, hq2, hstep⟩ := hidx j p2 hj
        refine ⟨q2, by simpa using hq2, ?_⟩
        have e1 : start + (j + 1) = start + 1 + j := by omega
        have e2 : r + (j + 1) = r + 1 + j := by omega
        rw [e1, e2]
        exact hstep

/-! ## Claims on auto-arrange -/

set_option maxRecDepth 100000 in
/-- C16 (counterexamples).  The file `{"systems": {"a": S}}`, whose system `S` holds one planet
with `orbit` the string `"x"`, is migrated to the system `S` as it is, and `autoArrange` on `S`
leaves that `orbit` as it is: the planet has no `orbit.angle` and no `orbit.radius` afterwards.
In IEEE 754 arithmetic, when `Math.random()` returns the largest double below 1, the product
`Math.random()*30` is `30 - 2 ^ -48` and the sum `180 + 0*70 + (30 - 2 ^ -48)` is rounded to
210: the planet at index 0 gets `orbit.radius` 210, which is not below `180 + 30`. -/
theorem autoArrange_text_orbit_or_radius_210 :
    ((migrateLoaded sampleHost (fileOf (systemOf textOrbitPlanet)) 0).map fun res =>
        (res.1.get "systems").get "a") = .ok (systemOf textOrbitPlanet) ∧
      ((autoArrange sampleHost (.obj DEFAULT_ADV) (systemOf textOrbitPlanet) 0).map fun res =>
          (planetItems res.1).map fun q =>
            (q.get "orbit", (q.get "orbit").get "angle", (q.get "orbit").get "radius"))
        = .ok [(.str "x", .undefined, .undefined)] ∧
      nearestDouble belowOne = belowOne ∧
      Num.le ⟨0, 0⟩ belowOne = true ∧ Num.lt belowOne ⟨1, 0⟩ = true ∧
      (doubleHost belowOne).mul belowOne ⟨30, 0⟩
        = ⟨29999999999999996447286321199499070644378662109375, 48⟩ ∧
      ((autoArrange (doubleHost belowOne) (.obj DEFAULT_ADV)
            (systemOf (planetAt "p" (.int 125))) 0).map fun res =>
          (planetItems res.1).map fun q => (q.get "orbit").get "radius")
        = .ok [.int 210] :=
  ⟨rfl, rfl, by decide, by decide, by decide, by decide, rfl⟩

/-- C16 (amended): for a system whose `planets` is an array of `n` entries, `1 ≤ n < 2 ^ 32`,
each an object whose `orbit` is missing, falsy or itself an object, while `state.adv` is not
`null`, in a host whose floating point rounds as IEEE 754 does and whose random samples are
in `[0, 1)`, `autoArrange` returns the system with as many planets, after one random draw per
planet.  The planet at index `i` keeps its `id` and gets as `orbit.angle` the value that the
host computes for `i * (2*PI / min(8, n)) + 0.3 * floor(i/8)`, as `orbit.radius` the value that
it computes for `180 + 70*floor(i/8) + 30*sample`, which lies in the closed interval from
`180 + 70*floor(i/8)` to `180 + 70*floor(i/8) + 30`, and `x = cos(angle) * radius`,
`y = sin(angle) * radius` as the host computes them. -/
theorem autoArrange_layout (h : Host) (adv sys : Val) (r : Nat) (items : List Val)
    (props : Props)
    (hplanets : sys.get "planets" = .arr items props) (hne : items ≠ [])
    (hlen : items.length < 2 ^ 32)
    (hadv : adv.isNullish = false) (hitems : items.all arrangeable = true)
    (hfloat : h.Rounds)
    (hrand : ∀ n, Num.le ⟨0, 0⟩ (h.random n) = true ∧ Num.lt (h.random n) ⟨1, 0⟩ = true) :
    ∃ items1,
      autoArrange h adv sys r = .ok (sys.set "planets" (.arr items1 props), r + items.length) ∧
      (sys.set "planets" (.arr items1 props)).get "planets" = .arr items1 props ∧
      items1.length = items.length ∧
      ∀ (i : Nat) (p : Val), items[i]? = some p →
        ∃ q angle radius, items1[i]? = some q ∧
          (q.get "orbit").get "angle" = .num angle ∧
          angle = h.add
            (h.mul ⟨(i : Nat), 0⟩ (h.div (h.mul ⟨2, 0⟩ h.pi) ⟨(min 8 items.length : Nat), 0⟩))
            (h.mul ⟨(i / 8 : Nat), 0⟩ ⟨3, 1⟩) ∧
          (q.get "orbit").get "radius" = .num radius ∧
          radius = h.add (h.add ⟨180, 0⟩ (h.mul ⟨(i / 8 : Nat), 0⟩ ⟨70, 0⟩))
            (h.mul (h.random (r + i)) ⟨30, 0⟩) ∧
          180 + 70 * ((i / 8 : Nat) : ℚ) ≤ radius.toRat ∧
          radius.toRat ≤ 180 + 70 * ((i / 8 : Nat) : ℚ) + 30 ∧
          q.get "x" = .num (h.mul (h.cos angle) radius) ∧
          q.get "y" = .num (h.mul (h.sin angle) radius) ∧
          q.get "id" = p.get "id" := by
  have hobj : sys.isObject = true :=
    isObject_of_get_truthy sys "planets" (by rw [hplanets]; rfl)
  have hsn : sys.isNullish = false := by
    cases sys <;> simp_all [Val.isObject, Val.isNullish]
  have hemp : items.isEmpty = false := by
    cases items with
    | nil => exact absurd rfl hne
    | cons _ _ => rfl
  obtain ⟨items1, hrun, hlen1, hidx⟩ :=
    arrangeFrom_spec h adv items.length hadv items 0 r hitems
  refine ⟨items1, ?_, get_set_same _ _ _ hobj, hlen1, ?_⟩
  · unfold autoArrange
    simp only [hsn, Bool.false_eq_true, if_false, hplanets, hemp, hrun]
  · intro i p hi
    obtain ⟨q, hq, hstep⟩ := hidx i p hi
    have hmem : p ∈ items := List.mem_iff_getElem?.2 ⟨i, hi⟩
    have hp : arrangeable p = true := (List.all_eq_true.1 hitems) p hmem
    have hi2 : i < items.length := by
      rcases List.getElem?_eq_some_iff.1 hi with ⟨hlt, _⟩
      exact hlt
    obtain ⟨q2, angle, radius, hq2, ha1, ha2, hr1, hr2, hx, hy, hid⟩ :=
      arrangePlanet_spec h adv items.length (0 + i) p (r + i) hadv hp
    rw [hstep] at hq2
    simp only [Except.ok.injEq] at hq2
    subst hq2
    rw [Nat.zero_add] at ha2 hr2
    have h0 : (0 : ℚ) ≤ (h.random (r + i)).toRat := by
      have := (le_iff_toRat _ _).1 (hrand (r + i)).1
      simpa [Num.toRat] using this
    have h1 : (h.random (r + i)).toRat ≤ 1 := by
      have := (lt_iff_toRat _ _).1 (hrand (r + i)).2
      have h2 : (h.random (r + i)).toRat < 1 := by simpa [Num.toRat] using this
      exact h2.le
    have hb := radius_bounds h hfloat (i / 8) (by omega) (h.random (r + i)) h0 h1
    rw [← hr2] at hb
    exact ⟨q, angle, radius, hq, ha1, ha2, hr1, hr2, hb.1, hb.2, hx, hy, hid⟩

/-- Witness of C16: the system of two planets, one of them without an orbit, in IEEE 754
arithmetic when every random sample is the largest double below 1. -/
theorem autoArrange_layout_witness :
    ∃ items1,
      autoArrange (doubleHost belowOne) (.obj DEFAULT_ADV) pairSystem 0
        = .ok (pairSystem.set "planets" (.arr items1 []), 0 + 2) ∧
      items1.length = 2 :=
  (autoArrange_layout (doubleHost belowOne) (.obj DEFAULT_ADV) pairSystem 0
    [orbitPlanet (.int 200) (.int 0) ⟨5, 1⟩ ⟨0, 0⟩,
      .obj [("id", .str "q"), ("x", .int 0), ("y", .int 0)]] [] rfl (by decide) (by norm_num)
    (by decide) (by decide) (doubleHost_rounds belowOne) (fun _ => ⟨rfl, rfl⟩)).imp
    fun _ hx => ⟨hx.1, hx.2.2.1⟩

/-! ## Claims on dragging and on system actions -/

/-- C17 (evaluation at the failing input): in edit mode with `adv.lockLayout` on, a pointer
move during the drag of the planet at `(200, 0)` returns the planet at `(250, 0)` with
`orbit.radius` 250, and the "Lock layout" listener does not even fire, because
`window.dragging` is `undefined`; it would fire for a truthy `window.dragging`, and then only
show a toast. -/
theorem mouseMove_moves_locked_planet :
    (lockedState (orbitPlanet (.int 200) (.int 0) ⟨5, 1⟩ ⟨0, 0⟩)).editMode = .bool true ∧
      (lockedState (orbitPlanet (.int 200) (.int 0) ⟨5, 1⟩ ⟨0, 0⟩)).adv.get "lockLayout"
        = .bool true ∧
      ((mouseMove sampleHost (lockedState (orbitPlanet (.int 200) (.int 0) ⟨5, 1⟩ ⟨0, 0⟩))
          samplePointer (orbitPlanet (.int 200) (.int 0) ⟨5, 1⟩ ⟨0, 0⟩)).map fun r =>
        (r.1.get "x", r.1.get "y", (r.1.get "orbit").get "radius",
          (r.1.get "orbit").get "angle", r.2))
        = .ok (.int 250, .int 0, .int 250, .int 0, false) ∧
      lockGuardFires (lockedState (orbitPlanet (.int 200) (.int 0) ⟨5, 1⟩ ⟨0, 0⟩))
        (orbitPlanet (.int 200) (.int 0) ⟨5, 1⟩ ⟨0, 0⟩) = true :=
  ⟨rfl, rfl, rfl, rfl⟩

/-- C18 (evaluation at the failing input): after the import of a file whose first system is
stored under the empty key and whose `current` is `b`, the confirmed deletion of the system
`b` leaves one system, under the empty key, and sets `current` to `null`. -/
theorem deleteSystem_current_null :
    ((importSystems sampleHost sampleApp fileEmptyKey).map fun a =>
        (a.state.current, keysOf (ownProps a.state.systems),
          lookupProp (ownProps a.state.systems) "b"))
        = .ok (.str "b", ["", "b"], some systemB) ∧
      (((importSystems sampleHost sampleApp fileEmptyKey).bind fun a =>
          deleteSystem sampleHost a systemB).map fun a =>
        (a.state.current, keysOf (ownProps a.state.systems))) = .ok (.null, [""]) :=
  ⟨rfl, rfl⟩

/-- C19 (evaluation at the failing inputs): on a state whose first system, under the key `a`,
has no `id` and whose `current` is dangling, `repairSystems` selects `a` and then drops that
system, so that `current` is `a` while the only key of `systems` is `b`.  After the import of
a file whose first system is stored under the empty key and whose second system has an `id`
other than its key, a click on the tab of the second system calls `repairSystems`, which
leaves `current` `null` while `systems` holds the system `b`. -/
theorem repairSystems_current_dangling :
    ((repairSystems sampleHost (appWith missingIdSystems (.str "gone"))).map fun a =>
        (a.state.current, keysOf (ownProps a.state.systems))) = .ok (.str "a", ["b"]) ∧
      ((importSystems sampleHost sampleApp fileForeignId).map fun a =>
        (a.state.current, keysOf (ownProps a.state.systems),
          lookupProp (ownProps a.state.systems) "b"))
        = .ok (.str "", ["", "b"], some systemZzz) ∧
      (((importSystems sampleHost sampleApp fileForeignId).bind fun a =>
          selectTab sampleHost a systemZzz).map fun a =>
        (a.state.current, keysOf (ownProps a.state.systems))) = .ok (.null, ["b"]) :=
  ⟨rfl, rfl, rfl⟩

/-! ## Export and import: lemmas -/

theorem save_state (app : App) : (save app).state = app.state := by
  unfold save __snapshot
  dsimp only
  split
  · rfl
  · split <;> rfl

theorem stableSystem_of_valid (h : Host) (adv : Val) (k : String) (v : Val)
    (hv : ValidSystem k v) : StableSystem h adv k v := by
  obtain ⟨hk, ps, i, qs, hvps, hps, hid, hi, hpl, hqs⟩ := hv
  have hplj : (Val.arr qs []).isJson = true := isJson_of_lookupProp ps "planets" _ hps hpl
  have hqj : ∀ q ∈ qs, q.isJson = true := by
    simp only [Val.isJson, Bool.and_eq_true] at hplj
    exact (isJsonItems_iff qs).1 hplj.1
  have hform : v = .obj (setProp ps "planets" (.arr qs [])) := by
    rw [hvps, setProp_same ps "planets" _ hpl]
  rw [hform]
  exact stableSystem_obj h adv k ps i qs hk hps hid (orElse_of_truthy i _ hi)
    (fun q hq => ⟨hqs q hq, hqj q hq⟩)

/-- The fields and the other properties of a state object give the state back. -/
theorem stateOfObject_stateObject (st : AppState)
    (hnd : (keysOf (stateObject st)).Nodup) : stateOfObject (.obj (stateObject st)) = st := by
  have hex : ∀ e ∈ st.extra, stateFields.contains e.1 = false := by
    intro e he
    have hmem : e.1 ∈ keysOf st.extra := List.mem_map_of_mem Prod.fst he
    simp only [stateObject, keysOf, List.map_append, List.map_cons, List.map_nil] at hnd
    have hdis := (List.nodup_append.1 hnd).2.2
    cases hc : stateFields.contains e.1 with
    | false => rfl
    | true =>
      exfalso
      have hin : e.1 ∈ ["systems", "current", "editMode", "linkMode", "adv"] := by
        simpa [stateFields] using hc
      exact hdis hin hmem
  have hfilter : (st.extra.filter fun kv => !stateFields.contains kv.1) = st.extra := by
    apply List.filter_eq_self.2
    intro e he
    have := hex e he
    simpa using this
  have hf2 : ((ownProps (.obj (stateObject st))).filter fun kv => !stateFields.contains kv.1)
      = st.extra := by
    simp only [ownProps, stateObject, List.filter_append]
    rw [hfilter]
    rfl
  unfold stateOfObject
  rw [hf2]
  cases st with
  | mk systems current editMode linkMode adv extra =>
    simp [Val.get, stateObject, lookupProp]

/-- The migration of the exported text of a valid state returns the state object and
generates no id. -/
theorem migrateLoaded_valid (h : Host) (st : AppState) (n : Nat) (hv : ValidState st) :
    migrateLoaded h (jsonParse (exportSystems st)) n = .ok (.obj (stateObject st), n) := by
  obtain ⟨hMj, hcanon, hproto, PA, L, c, hadv, hPAcanon, hPAproto, hsys, hLcanon, hLvalid,
    hcur, hcne, hcin⟩ := hv
  have hexp : jsonParse (exportSystems st) = .obj (stateObject st) := by
    unfold jsonParse exportSystems
    exact jsonStringify_of_isJson _ (by simpa [Val.isJson] using hMj)
  rw [hexp]
  have hladv : lookupProp (stateObject st) "adv" = some (.obj PA) := by
    simp [stateObject, lookupProp, hadv]
  have hlsys : lookupProp (stateObject st) "systems" = some (.obj L) := by
    simp [stateObject, lookupProp, hsys]
  have hlcur : lookupProp (stateObject st) "current" = some (.str c) := by
    simp [stateObject, lookupProp, hcur]
  have hLj : isJsonMembers L = true := by
    have := isJson_of_lookupProp _ _ _ hMj hlsys
    simpa [Val.isJson] using this
  have hstable : ∀ e ∈ L, StableSystem h (.obj PA) e.1 e.2 :=
    fun e he => stableSystem_of_valid h (.obj PA) e.1 e.2 (hLvalid e he)
  have hM0 : objectAssign (objectAssign [] DEFAULT_STATE)
      (ownProps ((Val.obj (stateObject st)).orElse (.obj []))) = stateObject st := by
    rw [objectAssign_nil_DEFAULT_STATE]
    exact objectAssign_rebuild DEFAULT_STATE (stateObject st) hcanon hproto
  have hPA : objectAssign (objectAssign [] DEFAULT_ADV)
      (ownProps (((Val.obj (stateObject st)).andAlso ((Val.obj (stateObject st)).get "adv")).orElse
        (.obj []))) = PA := by
    have hand : (Val.obj (stateObject st)).andAlso ((Val.obj (stateObject st)).get "adv")
        = .obj PA := by
      simp [Val.andAlso, Val.truthy, Val.get, hladv]
    rw [objectAssign_nil_DEFAULT_ADV, hand]
    exact objectAssign_rebuild _ _ hPAcanon hPAproto
  have hrebuild : objectAssign [] (renormalised L) = renormalised L := by
    apply objectAssign_rebuild
    · rw [keysOf_renormalised]; exact hLcanon
    · rw [keysOf_renormalised]
      intro hmem
      simp only [keysOf, List.mem_map] at hmem
      obtain ⟨e, he, hek⟩ := hmem
      exact (hLvalid e he).1 hek
  have hcs : collectSystems h (.obj (stateObject st)) = .ok (renormalised L) := by
    have hand : (Val.obj (stateObject st)).andAlso ((Val.obj (stateObject st)).get "systems")
        = .obj L := by
      simp [Val.andAlso, Val.truthy, Val.get, hlsys]
    unfold collectSystems
    rw [hand]
    show collectMapping L [] = _
    have := collectMapping_stable h (.obj PA) L [] hstable
    rw [jsonMembers_of_isJson L hLj] at this
    rw [this, hrebuild]
  have hvs : validateSystems h (.obj PA) (renormalised L) n = .ok (L, n) :=
    validateSystems_stable h (.obj PA) L n hstable
  have hback : setProp (setProp (stateObject st) "adv" (.obj PA)) "systems" (.obj L)
      = stateObject st := by
    rw [setProp_same _ _ _ hladv, setProp_same _ _ _ hlsys]
  have hec : ensureCurrent h
      ((lookupProp (setProp (setProp (stateObject st) "adv" (.obj PA)) "systems" (.obj L))
        "current").getD .undefined) L = .ok (.str c) := by
    rw [hback, hlcur]
    obtain ⟨v, hlv⟩ := Option.isSome_iff_exists.1 hcin
    have hvt : v.truthy = true := by
      obtain ⟨_, ps, _, _, hvps, _⟩ := hLvalid (c, v) (mem_of_lookupProp L c v hlv)
      simp only at hvps
      rw [hvps]; rfl
    have hct : (Val.str c).truthy = true := by simp [Val.truthy, hcne]
    have hat : truthyAt L c = true := by
      unfold truthyAt
      rw [hlv]
      exact hvt
    simp only [Option.getD_some]
    unfold ensureCurrent
    simp only [hct, Bool.not_true, Bool.false_eq_true, if_false, Host.toPropertyKey,
      toStringJs, hat, if_true]
  rw [migrateLoaded_eq_of_steps h _ n n _ PA (renormalised L) L (.str c) hM0 hPA hcs hvs hec]
  rw [hback, setProp_same _ _ _ hlcur]

/-! ## Claims on export and import -/

/-- C20: for every already-valid state, the import of the text that export writes for it
installs a state equal to the original (systems with their planets, ids, positions and
orbits, `current`, the mode flags, `adv` and any further property), and generates no id. -/
theorem import_export_round_trip (h : Host) (app : App) (st : AppState) (hv : ValidState st) :
    ∃ app1, importSystems h app (exportSystems st) = .ok app1 ∧ app1.state = st ∧
      app1.uidCount = app.uidCount := by
  have hmig := migrateLoaded_valid h st app.uidCount hv
  obtain ⟨hMj, hcanon, hproto, PA, L, c, hadv, hPAcanon, hPAproto, hsys, hLcanon, hLvalid,
    hcur, hcne, hcin⟩ := hv
  have hexp : jsonParse (exportSystems st) = .obj (stateObject st) := by
    unfold jsonParse exportSystems
    exact jsonStringify_of_isJson _ (by simpa [Val.isJson] using hMj)
  have hnd : (keysOf (stateObject st)).Nodup := by
    obtain ⟨_, _, _, _, _, _, hnodup⟩ := hcanon
    exact hnodup
  have hstate := stateOfObject_stateObject st hnd
  have hguard : ((Val.obj (stateObject st)).andAlso
      ((Val.obj (stateObject st)).get "systems")).truthy = true := by
    simp [Val.andAlso, Val.truthy, Val.get, stateObject, lookupProp, hsys]
  have hcurT : st.current.orElse (firstKey (ownProps st.systems)) = st.current := by
    apply orElse_of_truthy
    rw [hcur]
    simp [Val.truthy, hcne]
  have hLne : (ownProps st.systems).isEmpty = false := by
    rw [hsys]
    cases L with
    | nil => simp [lookupProp] at hcin
    | cons _ _ => rfl
  have hsysT : st.systems.truthy = true := by rw [hsys]; rfl
  have hrender : ∀ a : App, a.state = st → renderAll h a = a := by
    intro a ha
    unfold renderAll renderTabs
    rw [ha, hsysT, hLne]
    rfl
  have himp : importSystems h app (exportSystems st)
      = if h.renderRaises st then .ok { app with state := st }
        else .ok (save { app with state := st }) := by
    unfold importSystems
    simp only [hexp] at hmig ⊢
    simp only [hguard, Bool.not_true, Bool.false_eq_true, if_false, hmig, hstate, hcurT]
    have hst : ({ st with current := st.current } : AppState) = st := rfl
    rw [hst, hrender { app with state := st, uidCount := app.uidCount } rfl]
  by_cases hr : h.renderRaises st = true
  · exact ⟨{ app with state := st }, by rw [himp, if_pos hr], rfl, rfl⟩
  · refine ⟨save { app with state := st }, by rw [himp, if_neg hr], save_state _, ?_⟩
    unfold save __snapshot
    dsimp only
    split
    · rfl
    · split <;> rfl

/-- The fixture state with one system and one planet on an orbit is valid. -/
theorem validState_orbitState :
    ValidState (orbitState (orbitPlanet (.int 200) (.int 0) ⟨5, 1⟩ ⟨0, 0⟩)) := by
  refine ⟨by decide, canonKeys_DEFAULT_STATE, by decide, DEFAULT_ADV,
    [("a", .obj [("id", .str "a"), ("name", .str "S"),
      ("planets", .arr [orbitPlanet (.int 200) (.int 0) ⟨5, 1⟩ ⟨0, 0⟩] [])])], "a",
    rfl, canonKeys_DEFAULT_ADV, by decide, rfl, ?_, ?_, rfl, by decide, by decide⟩
  · exact ⟨[], ["a"], rfl, by simp, List.Pairwise.nil, by decide, by decide⟩
  · intro e he
    simp only [List.mem_singleton] at he
    subst he
    refine ⟨by decide, _, .str "a", [orbitPlanet (.int 200) (.int 0) ⟨5, 1⟩ ⟨0, 0⟩], rfl,
      by decide, rfl, rfl, rfl, ?_⟩
    intro q hq
    simp only [List.mem_singleton] at hq
    subst hq
    exact ⟨_, .str "p", .int 18, _, rfl, rfl, rfl, rfl, rfl, rfl, rfl⟩

/-- Witness of C20: the state with one system and one planet on an orbit. -/
theorem import_export_round_trip_witness :
    ∃ app1,
      importSystems sampleHost sampleApp
        (exportSystems (orbitState (orbitPlanet (.int 200) (.int 0) ⟨5, 1⟩ ⟨0, 0⟩))) = .ok app1 ∧
      app1.state = orbitState (orbitPlanet (.int 200) (.int 0) ⟨5, 1⟩ ⟨0, 0⟩) ∧
      app1.uidCount = sampleApp.uidCount :=
  import_export_round_trip sampleHost sampleApp
    (orbitState (orbitPlanet (.int 200) (.int 0) ⟨5, 1⟩ ⟨0, 0⟩)) validState_orbitState

/-! ## Migration: planets, mode flags and ids -/

theorem lookupProp_objectAssign_of_not_mem (src : Props) (k : String) :
    ∀ t : Props, k ∉ keysOf src → lookupProp (objectAssign t src) k = lookupProp t k := by
  induction src with
  | nil => intro t _; rfl
  | cons kv rest ih =>
    obtain ⟨k2, v2⟩ := kv
    intro t hk
    simp only [keysOf, List.map_cons, List.mem_cons, not_or] at hk
    have hrest : k ∉ keysOf rest := hk.2
    have hstep : objectAssign t ((k2, v2) :: rest) = objectAssign (assignStep t (k2, v2)) rest :=
      rfl
    rw [hstep, ih _ hrest]
    unfold assignStep
    split
    · rfl
    · exact lookupProp_setProp_ne t k2 k v2 hk.1

theorem lookupProp_objectAssign_of_mem (src : Props) (k : String) (v : Val)
    (hk : k ≠ "__proto__") :
    ∀ t : Props, (keysOf src).Nodup → lookupProp src k = some v →
      lookupProp (objectAssign t src) k = some v := by
  induction src with
  | nil => intro t _ hl; simp [lookupProp] at hl
  | cons kv rest ih =>
    obtain ⟨k2, v2⟩ := kv
    intro t hnd hl
    simp only [keysOf, List.map_cons, List.nodup_cons] at hnd
    have hstep : objectAssign t ((k2, v2) :: rest) = objectAssign (assignStep t (k2, v2)) rest :=
      rfl
    rw [hstep]
    by_cases hkk : k2 = k
    · subst hkk
      simp only [lookupProp, if_true, Option.some.injEq] at hl
      subst hl
      rw [lookupProp_objectAssign_of_not_mem rest k2 _ hnd.1]
      simp only [assignStep, hk, if_false]
      exact lookupProp_setProp_same t k2 v2
    · simp only [lookupProp, hkk, if_false] at hl
      exact ih _ hnd.2 hl

/-- A field of the state object that `migrateLoaded` returns, other than `adv`, `systems` and
`current`: the input's own value, or the default. -/
theorem migrateLoaded_field (h : Host) (loaded m : Val) (n n1 : Nat) (k : String) (d : Val)
    (hnd : (keysOf (ownProps (loaded.orElse (.obj [])))).Nodup)
    (hrun : migrateLoaded h loaded n = .ok (m, n1))
    (hk1 : k ≠ "adv") (hk2 : k ≠ "systems") (hk3 : k ≠ "current") (hk4 : k ≠ "__proto__")
    (hd : lookupProp DEFAULT_STATE k = some d) :
    m.get k = (lookupProp (ownProps (loaded.orElse (.obj []))) k).getD d := by
  obtain ⟨L, L1, cur, _, _, _, hm⟩ := migrateLoaded_steps h loaded m n n1 hrun
  rw [hm]
  simp only [Val.get]
  rw [lookupProp_setProp_ne _ _ _ _ hk3, lookupProp_setProp_ne _ _ _ _ hk2,
    lookupProp_setProp_ne _ _ _ _ hk1, objectAssign_nil_DEFAULT_STATE]
  cases hl : lookupProp (ownProps (loaded.orElse (.obj []))) k with
  | none =>
    rw [lookupProp_objectAssign_of_not_mem _ _ _ ((lookupProp_eq_none_iff _ _).1 hl), hd]
    rfl
  | some v =>
    rw [lookupProp_objectAssign_of_mem _ _ v hk4 _ hnd hl]
    rfl

/-! ## Claims on planets, mode flags and ids after migration -/

/-- C21 (evaluation at the failing input): for sequence-shaped `systems` whose system has a
mapping of planets, `migrateLoaded` returns that system with an empty `planets` sequence;
for the same system in mapping-shaped `systems` it returns the sequence of the mapping's
values. -/
theorem migrateLoaded_sequence_drops_planet_mapping :
    ((migrateLoaded sampleHost blobSequenceMappingPlanets 0).map fun r => planetsOf r.1 "a")
        = .ok (.arr [] []) ∧
      ((migrateLoaded sampleHost blobMappingMappingPlanets 0).map fun r => planetsOf r.1 "a")
        = .ok (.arr [migratedPlanetP] []) :=
  ⟨rfl, rfl⟩

/-- C22 (counterexample): on the blob `{"editMode": true}` the state that `migrateLoaded`
returns has both `editMode` and `linkMode` true. -/
theorem migrateLoaded_both_modes_true :
    ((migrateLoaded sampleHost blobEditOnly 0).map fun r =>
      (r.1.get "editMode", r.1.get "linkMode")) = .ok (.bool true, .bool true) :=
  rfl

/-- C22 (amended): in every state that `migrateLoaded` returns, for an input whose keys are
distinct, `editMode` and `linkMode` are the input's own values where the input has the
property, and the defaults `false` and `true` where it has not; so when the input sets
neither flag, exactly `linkMode` is true. -/
theorem migrateLoaded_copies_modes (h : Host) (loaded m : Val) (n n1 : Nat)
    (hnd : (keysOf (ownProps (loaded.orElse (.obj [])))).Nodup)
    (hrun : migrateLoaded h loaded n = .ok (m, n1)) :
    m.get "editMode"
        = (lookupProp (ownProps (loaded.orElse (.obj []))) "editMode").getD (.bool false) ∧
      m.get "linkMode"
        = (lookupProp (ownProps (loaded.orElse (.obj []))) "linkMode").getD (.bool true) ∧
      (lookupProp (ownProps (loaded.orElse (.obj []))) "editMode" = none →
        lookupProp (ownProps (loaded.orElse (.obj []))) "linkMode" = none →
        m.get "editMode" = .bool false ∧ m.get "linkMode" = .bool true) := by
  have he := migrateLoaded_field h loaded m n n1 "editMode" (.bool false) hnd hrun
    (by decide) (by decide) (by decide) (by decide) rfl
  have hl := migrateLoaded_field h loaded m n n1 "linkMode" (.bool true) hnd hrun
    (by decide) (by decide) (by decide) (by decide) rfl
  refine ⟨he, hl, fun h1 h2 => ?_⟩
  rw [he, hl, h1, h2]
  exact ⟨rfl, rfl⟩

/-- Witness of C22 (amended): a blob that sets `linkMode` only; both flags are false in the
state returned. -/
theorem migrateLoaded_copies_modes_witness :
    (keysOf (ownProps (blobLinkOff.orElse (.obj [])))).Nodup ∧
      migrateLoaded sampleHost blobLinkOff 0 = .ok (migratedLinkOff, 0) ∧
      migratedLinkOff.get "editMode" = .bool false ∧
      migratedLinkOff.get "linkMode" = .bool false :=
  ⟨by decide, rfl,
    (migrateLoaded_copies_modes sampleHost blobLinkOff migratedLinkOff 0 0 (by decide) rfl).1,
    (migrateLoaded_copies_modes sampleHost blobLinkOff migratedLinkOff 0 0 (by decide) rfl).2.1⟩

/-! ## Ids of systems: lemmas -/

/-- The `id` of a system after the final validation loop. -/
theorem validateSystem_id (h : Host) (adv : Val) (k : String) (v v1 : Val) (n n1 : Nat)
    (hobj : v.isObject = true) (hrun : validateSystem h adv k v n = .ok (v1, n1)) :
    v1.get "id" = (v.get "id").orElse (.str k) := by
  have hvn : v.isNullish = false := by
    cases v <;> simp_all [Val.isObject, Val.isNullish]
  unfold validateSystem at hrun
  simp only [hvn, Bool.false_eq_true, if_false] at hrun
  split at hrun
  · split at hrun
    · cases hrun
    · simp only [Except.ok.injEq, Prod.mk.injEq] at hrun
      rw [← hrun.1, get_set_ne _ _ _ _ (by decide), get_set_same _ _ _ hobj]
  · simp only [Except.ok.injEq, Prod.mk.injEq] at hrun
    rw [← hrun.1, get_set_ne _ _ _ _ (by decide), get_set_same _ _ _ hobj]

/-- Every entry that the final validation loop returns comes from an entry under the same
key. -/
theorem validateSystems_pointwise (h : Host) (adv : Val) :
    ∀ (l l1 : Props) (n n1 : Nat), validateSystems h adv l n = .ok (l1, n1) →
      ∀ e ∈ l1, ∃ v a b, (e.1, v) ∈ l ∧ validateSystem h adv e.1 v a = .ok (e.2, b) := by
  intro l
  induction l with
  | nil =>
    intro l1 n n1 hrun e he
    simp only [validateSystems, Except.ok.injEq, Prod.mk.injEq] at hrun
    rw [← hrun.1] at he
    cases he
  | cons kv rest ih =>
    obtain ⟨k, v⟩ := kv
    intro l1 n n1 hrun e he
    unfold validateSystems at hrun
    cases hv : validateSystem h adv k v n with
    | error err => rw [hv] at hrun; cases hrun
    | ok r =>
      obtain ⟨v1, n2⟩ := r
      rw [hv] at hrun
      dsimp only at hrun
      cases hr : validateSystems h adv rest n2 with
      | error err => rw [hr] at hrun; cases hrun
      | ok r2 =>
        obtain ⟨rest1, n3⟩ := r2
        rw [hr] at hrun
        simp only [Except.ok.injEq, Prod.mk.injEq] at hrun
        rw [← hrun.1] at he
        rcases List.mem_cons.1 he with heq | hmem
        · subst heq
          exact ⟨v, n, n2, List.mem_cons_self _ _, hv⟩
        · obtain ⟨v0, a, b, hin, hval⟩ := ih rest1 n2 n3 hr e hmem
          exact ⟨v0, a, b, List.mem_cons_of_mem _ hin, hval⟩

/-- The sequence loop stores every system under the property key of its truthy `id`. -/
theorem collectArray_keyed (h : Host) :
    ∀ (items : List Val) (acc l : Props), collectArray h items acc = .ok l →
      (∀ e ∈ acc, h.toPropertyKey (e.2.get "id") = some e.1 ∧ (e.2.get "id").truthy = true) →
      ∀ e ∈ l, h.toPropertyKey (e.2.get "id") = some e.1 ∧ (e.2.get "id").truthy = true := by
  intro items
  induction items with
  | nil =>
    intro acc l hrun hall
    simp only [collectArray, Except.ok.injEq] at hrun
    rw [← hrun]
    exact hall
  | cons s rest ih =>
    intro acc l hrun hall
    unfold collectArray at hrun
    by_cases hs : (s.andAlso (s.get "id")).truthy = true
    · rw [if_pos hs] at hrun
      cases hkey : h.toPropertyKey (s.get "id") with
      | none => rw [hkey] at hrun; cases hrun
      | some k =>
        rw [hkey] at hrun
        dsimp only at hrun
        split at hrun
        · cases hrun
        · refine ih _ l hrun ?_
          intro e he
          rcases mem_setProp acc k s e he with heq | hmem
          · rw [heq]
            refine ⟨hkey, ?_⟩
            unfold Val.andAlso at hs
            by_cases hst : s.truthy = true
            · rw [if_pos hst] at hs; exact hs
            · rw [if_neg hst] at hs; exact absurd hs hst
          · exact hall e hmem
    · rw [if_neg hs] at hrun
      exact ih _ l hrun hall

/-- The mapping loop stores under each key the normalised form of a truthy input entry of
that key. -/
theorem collectMapping_from (src : Props) :
    ∀ (ps acc l : Props), collectMapping ps acc = .ok l → (∀ e ∈ ps, e ∈ src) →
      (∀ e ∈ acc, ∃ v0, (e.1, v0) ∈ src ∧ v0.truthy = true ∧ e.2 = normaliseSystem e.1 v0) →
      ∀ e ∈ l, ∃ v0, (e.1, v0) ∈ src ∧ v0.truthy = true ∧ e.2 = normaliseSystem e.1 v0 := by
  intro ps
  induction ps with
  | nil =>
    intro acc l hrun _ hall
    simp only [collectMapping, Except.ok.injEq] at hrun
    rw [← hrun]
    exact hall
  | cons kv rest ih =>
    obtain ⟨k, v⟩ := kv
    intro acc l hrun hsub hall
    have hrestsub : ∀ e ∈ rest, e ∈ src := fun e he => hsub e (List.mem_cons_of_mem _ he)
    unfold collectMapping at hrun
    by_cases hv : v.truthy = true
    · simp only [hv, Bool.not_true, Bool.false_eq_true, if_false] at hrun
      split at hrun
      · split at hrun
        · cases hrun
        · exact ih _ l hrun hrestsub hall
      · refine ih _ l hrun hrestsub ?_
        intro e he
        rcases mem_setProp acc k _ e he with heq | hmem
        · rw [heq]
          exact ⟨v, hsub (k, v) (List.mem_cons_self _ _), hv, rfl⟩
        · exact hall e hmem
    · have hvf : v.truthy = false := by simpa using hv
      simp only [hvf, Bool.not_false, if_true] at hrun
      exact ih _ l hrun hrestsub hall

theorem normaliseSystem_id (k : String) (v : Val) (hobj : v.isObject = true) :
    (normaliseSystem k v).isObject = true ∧
      (normaliseSystem k v).get "id" = (v.get "id").orElse (.str k) := by
  unfold normaliseSystem
  refine ⟨by rw [isObject_set, isObject_set]; exact hobj, ?_⟩
  rw [get_set_ne _ _ _ _ (by decide), get_set_same _ _ _ hobj]

/-- The `systems` of the state object that a run of `migrateLoaded` returned. -/
theorem migrateLoaded_systems (h : Host) (x m : Val) (n n1 : Nat)
    (hrun : migrateLoaded h x n = .ok (m, n1)) :
    ∃ L L1, collectSystems h x = .ok L ∧ m.get "systems" = .obj L1 ∧
      ∀ e ∈ L1, ∃ v a b, (e.1, v) ∈ L ∧
        validateSystem h (.obj (objectAssign (objectAssign [] DEFAULT_ADV)
          (ownProps ((x.andAlso (x.get "adv")).orElse (.obj []))))) e.1 v a = .ok (e.2, b) := by
  obtain ⟨L, L1, cur, hcs, hvs, _, hm⟩ := migrateLoaded_steps h x m n n1 hrun
  refine ⟨L, L1, hcs, ?_, validateSystems_pointwise h _ L L1 n n1 hvs⟩
  rw [hm]
  simp only [Val.get]
  rw [lookupProp_setProp_ne _ _ _ _ (by decide), lookupProp_setProp_same]
  rfl

theorem renderAll_systems_nonempty (h : Host) (app : App) (L : Props)
    (hs : app.state.systems = .obj L) (hne : L ≠ []) : renderAll h app = app := by
  unfold renderAll renderTabs
  rw [hs]
  cases L with
  | nil => exact absurd rfl hne
  | cons _ _ => rfl

theorem setProp_ne_nil (ps : Props) (k : String) (v : Val) : setProp ps k v ≠ [] := by
  intro hnil
  have hl := lookupProp_setProp_same ps k v
  rw [hnil] at hl
  simp [lookupProp] at hl

/-! ## Claims on the ids of systems -/

/-- C23 (counterexample): on the mapping-shaped blob `{"systems": {"k": {"id": "other"}}}`
`migrateLoaded` returns the system with `id` `other` stored under the key `k`; and the state
that `createDefaultSystems` builds stores its two systems under the keys `u0` and `u1` while
their `id` fields are `u2` and `u3`. -/
theorem systems_key_differs_from_id :
    ((migrateLoaded sampleHost blobForeignId 0).map fun r => r.1.get "systems")
        = .ok (.obj [("k", .obj [("id", .str "other"), ("planets", .arr [] [])])]) ∧
      (ownProps (defaultSystemsState sampleHost 0 0).1.systems).map
        (fun e => (e.1, e.2.get "id")) = [("u0", .str "u2"), ("u1", .str "u3")] :=
  ⟨rfl, rfl⟩

/-- C23 (amended): in a state that `migrateLoaded` returns for sequence-shaped `systems`,
every entry is stored under the property key of its own `id`; for mapping-shaped `systems`,
every entry comes from a truthy input entry of the same key and, when that entry is an
object, its `id` is the input's `id` if truthy and the key otherwise; and `duplicateSystem`
keeps every entry stored under the key of its `id`, the copy included. -/
theorem systems_keyed_by_id (h : Host) :
    (∀ (x m : Val) (n n1 : Nat) (items : List Val) (props : Props),
      x.get "systems" = .arr items props → migrateLoaded h x n = .ok (m, n1) →
      ∃ L1, m.get "systems" = .obj L1 ∧ KeyedById h L1) ∧
    (∀ (x m : Val) (n n1 : Nat) (ps : Props),
      x.get "systems" = .obj ps → migrateLoaded h x n = .ok (m, n1) →
      ∃ L1, m.get "systems" = .obj L1 ∧
        ∀ e ∈ L1, ∃ v0, (e.1, v0) ∈ ps ∧ v0.truthy = true ∧
          (v0.isObject = true → e.2.get "id" = (v0.get "id").orElse (.str e.1))) ∧
    (∀ (app app1 : App) (id : Val) (L : Props),
      app.state.systems = .obj L → KeyedById h L → duplicateSystem h app id = .ok app1 →
      ∃ L1, app1.state.systems = .obj L1 ∧ KeyedById h L1) := by
  refine ⟨?_, ?_, ?_⟩
  · intro x m n n1 items props hsys hrun
    obtain ⟨L, L1, hcs, hm, hpt⟩ := migrateLoaded_systems h x m n n1 hrun
    have hxo : x.isObject = true := isObject_of_get_truthy x "systems" (by rw [hsys]; rfl)
    have hxt : x.truthy = true := by cases x <;> simp_all [Val.isObject, Val.truthy]
    have hcoll : collectArray h items [] = .ok L := by
      unfold collectSystems at hcs
      simp only [Val.andAlso, hxt, if_true, hsys] at hcs
      exact hcs
    have hkeyed := collectArray_keyed h items [] L hcoll (fun e he => by cases he)
    refine ⟨L1, hm, ?_⟩
    intro e he
    obtain ⟨v, a, b, hin, hval⟩ := hpt e he
    obtain ⟨hkey, hidt⟩ := hkeyed (e.1, v) hin
    have hvo : v.isObject = true := isObject_of_get_truthy v "id" hidt
    rw [validateSystem_id h _ e.1 v e.2 a b hvo hval, orElse_of_truthy _ _ hidt]
    exact hkey
  · intro x m n n1 ps hsys hrun
    obtain ⟨L, L1, hcs, hm, hpt⟩ := migrateLoaded_systems h x m n n1 hrun
    have hxo : x.isObject = true := isObject_of_get_truthy x "systems" (by rw [hsys]; rfl)
    have hxt : x.truthy = true := by cases x <;> simp_all [Val.isObject, Val.truthy]
    have hcoll : collectMapping ps [] = .ok L := by
      unfold collectSystems at hcs
      simp only [Val.andAlso, hxt, if_true, hsys] at hcs
      exact hcs
    have hfrom := collectMapping_from ps ps [] L hcoll (fun e he => he) (fun e he => by cases he)
    refine ⟨L1, hm, ?_⟩
    intro e he
    obtain ⟨v, a, b, hin, hval⟩ := hpt e he
    obtain ⟨v0, hv0in, hv0t, hnorm⟩ := hfrom (e.1, v) hin
    refine ⟨v0, hv0in, hv0t, fun hv0o => ?_⟩
    simp only at hnorm
    obtain ⟨hno, hnid⟩ := normaliseSystem_id e.1 v0 hv0o
    rw [hnorm] at hval
    rw [validateSystem_id h _ e.1 _ e.2 a b hno hval, hnid, orElse_orElse]
  · intro app app1 id L hsys hkeyed hrun
    unfold duplicateSystem at hrun
    rw [hsys] at hrun
    dsimp only at hrun
    have hsame : app1 = app → ∃ L1, app1.state.systems = .obj L1 ∧ KeyedById h L1 :=
      fun he => ⟨L, by rw [he, hsys], hkeyed⟩
    split at hrun
    · cases hrun
    · split at hrun
      · split at hrun
        · cases hrun
        · simp only [Except.ok.injEq] at hrun
          exact hsame hrun.symm
      · split at hrun
        · simp only [Except.ok.injEq] at hrun
          exact hsame hrun.symm
        · split at hrun
          · cases hrun
          · split at hrun
            · split at hrun
              · cases hrun
              · rename_i key hkey
                split at hrun
                · cases hrun
                · generalize hc : Val.set _ "planets" _ = copy3 at hrun hkey
                  have hk2 : KeyedById h (setProp L key copy3) := by
                    intro e he
                    rcases mem_setProp L key copy3 e he with heq | hmem
                    · rw [heq]; exact hkey
                    · exact hkeyed e hmem
                  have hren : ∀ a : App, a.state.systems = .obj (setProp L key copy3) →
                      renderAll h a = a :=
                    fun a ha => renderAll_systems_nonempty h a _ ha (setProp_ne_nil L key copy3)
                  rw [hren _ rfl] at hrun
                  split at hrun
                  · simp only [Except.ok.injEq] at hrun
                    exact ⟨setProp L key copy3, by rw [← hrun], hk2⟩
                  · simp only [Except.ok.injEq] at hrun
                    exact ⟨setProp L key copy3, by rw [← hrun, save_state], hk2⟩
            · cases hrun

/-- Witness of C23 (amended): sequence-shaped `systems` with a string `id` and a numeric
`id`. -/
theorem systems_keyed_by_id_witness :
    blobSequenceIds.get "systems"
        = .arr [.obj [("id", .str "a"), ("name", .str "S")],
            .obj [("id", .int 5), ("name", .str "T")]] [] ∧
      migrateLoaded sampleHost blobSequenceIds 0 = .ok (migratedSequenceIds, 0) ∧
      ∃ L1, migratedSequenceIds.get "systems" = .obj L1 ∧ KeyedById sampleHost L1 :=
  ⟨rfl, rfl, (systems_keyed_by_id sampleHost).1 blobSequenceIds migratedSequenceIds 0 0 _ [] rfl
    rfl⟩

/-! ## Undo right after a save: lemmas -/

theorem lookupProp_of_mem_nodup (ps : Props) (hnd : (keysOf ps).Nodup) :
    ∀ e ∈ ps, lookupProp ps e.1 = some e.2 := by
  induction ps with
  | nil => intro e he; cases he
  | cons kv rest ih =>
    obtain ⟨k, v⟩ := kv
    intro e he
    simp only [keysOf, List.map_cons, List.nodup_cons] at hnd
    rcases List.mem_cons.1 he with heq | hmem
    · rw [heq]; simp [lookupProp]
    · have hne : k ≠ e.1 := by
        intro hk
        exact hnd.1 (hk ▸ List.mem_map_of_mem Prod.fst hmem)
      simp only [lookupProp, hne, if_false]
      exact ih hnd.2 e hmem

theorem objectAssign_present (src : Props) :
    ∀ t : Props, (∀ e ∈ src, lookupProp t e.1 = some e.2) → objectAssign t src = t := by
  induction src with
  | nil => intro t _; rfl
  | cons kv rest ih =>
    obtain ⟨k, v⟩ := kv
    intro t hall
    have hstep : objectAssign t ((k, v) :: rest) = objectAssign (assignStep t (k, v)) rest := rfl
    have hs : assignStep t (k, v) = t := by
      unfold assignStep
      split
      · rfl
      · exact setProp_same t k v (hall (k, v) (List.mem_cons_self _ _))
    rw [hstep, hs]
    exact ih t (fun e he => hall e (List.mem_cons_of_mem _ he))

/-- Applying the parsed snapshot of a state of JSON values gives the state back. -/
theorem applyParsed_own_snapshot (st : AppState) (L PA : Props)
    (hsys : st.systems = .obj L) (hct : st.current.truthy = true)
    (hadv : st.adv = .obj PA) (hcanon : CanonKeys [] (keysOf PA))
    (hproto : "__proto__" ∉ keysOf PA) :
    applyParsed st (.obj [("systems", st.systems), ("current", st.current), ("adv", st.adv)])
      = st := by
  have hnd : (keysOf PA).Nodup := by
    obtain ⟨_, _, _, _, _, _, hnodup⟩ := hcanon
    exact hnodup
  have h1 : objectAssign [] PA = PA := objectAssign_rebuild [] PA hcanon hproto
  have h2 : objectAssign PA PA = PA :=
    objectAssign_present PA PA (lookupProp_of_mem_nodup PA hnd)
  cases st with
  | mk systems current editMode linkMode adv extra =>
    simp only at hsys hct hadv
    subst hsys hadv
    have g1 : (Val.obj [("systems", Val.obj L), ("current", current),
        ("adv", Val.obj PA)]).get "systems" = .obj L := rfl
    have g2 : (Val.obj [("systems", Val.obj L), ("current", current),
        ("adv", Val.obj PA)]).get "current" = current := rfl
    have g3 : (Val.obj [("systems", Val.obj L), ("current", current),
        ("adv", Val.obj PA)]).get "adv" = .obj PA := rfl
    unfold applyParsed
    simp only [g1, g2, g3]
    rw [orElse_of_truthy current _ hct, orElse_of_truthy (.obj L) _ rfl,
      orElse_of_truthy (.obj PA) _ rfl]
    simp only [ownProps, h1, h2]

/-! ## Claims on undo right after a save -/

/-- C24 (counterexample): right after a save of the state whose only planet entry is an
array carrying `id`, `sizePercent` and `orbit`, `performUndo` replaces the live `systems` by
its parsed snapshot, in which that planet is an empty array; and right after a save of the
state whose `current` is the empty key of its only system, `performUndo` sets `current` to
`null` and leaves a history whose entry is not the one before the call. -/
theorem performUndo_after_save_changes_state :
    (savedApp (stateOfObject (migratedArrayPlanet "u0"))).__history.getLast?
        = some (snapshotText (stateOfObject (migratedArrayPlanet "u0"))) ∧
      (performUndo sampleHost (savedApp (stateOfObject (migratedArrayPlanet "u0")))).state.systems
        = .obj [("a", .obj [("planets", .arr [.arr [] []] []), ("id", .str "a")])] ∧
      (performUndo sampleHost (savedApp (stateOfObject (migratedArrayPlanet "u0")))).state.systems
        ≠ (stateOfObject (migratedArrayPlanet "u0")).systems ∧
      lookupProp (ownProps emptyKeyState.systems) "" ≠ none ∧
      (performUndo sampleHost (savedApp emptyKeyState)).state.current = .null ∧
      (performUndo sampleHost (savedApp emptyKeyState)).__history
        ≠ (savedApp emptyKeyState).__history := by
  refine ⟨rfl, rfl, by decide, by decide, rfl, by decide⟩

/-- C24 (amended): when the top of the history is the snapshot of the live state and the
entry under it differs from it, the history holds at most 50 entries, drawing the state does
not raise, and the live `systems`, `current` and `adv` are JSON values (`systems` a
non-empty object, `current` truthy, `adv` an object with ordered, distinct keys), then
`performUndo` leaves the state unchanged, leaves the history with the same entries, and
leaves `future` empty. -/
theorem performUndo_after_save (h : Host) (app : App) (L PA : Props)
    (htop : app.__history.getLast? = some (snapshotText app.state))
    (hadj : app.__history.dropLast.getLast? ≠ some (snapshotText app.state))
    (hlen : app.__history.length ≤ __HIST_MAX)
    (hren : h.renderRaises app.state = false)
    (hsys : app.state.systems = .obj L) (hne : L ≠ []) (hsj : isJsonMembers L = true)
    (hct : app.state.current.truthy = true) (hcj : app.state.current.isJson = true)
    (hadv : app.state.adv = .obj PA) (haj : isJsonMembers PA = true)
    (hcanon : CanonKeys [] (keysOf PA)) (hproto : "__proto__" ∉ keysOf PA) :
    (performUndo h app).state = app.state ∧
      (performUndo h app).__history = app.__history ∧
      (performUndo h app).__future = [] := by
  have hsnap : snapshotText app.state
      = .obj [("systems", app.state.systems), ("current", app.state.current),
          ("adv", app.state.adv)] := by
    unfold snapshotText
    apply jsonStringify_of_isJson
    simp [Val.isJson, isJsonMembers, hsys, hadv, hsj, haj, hcj]
  have happly := applyParsed_own_snapshot app.state L PA hsys hct hadv hcanon hproto
  have hback : app.__history.dropLast ++ [snapshotText app.state] = app.__history :=
    List.dropLast_append_getLast? _ htop
  have hpushlen : ¬ (app.__history.dropLast ++ [snapshotText app.state]).length > __HIST_MAX := by
    rw [hback]
    omega
  have hrun : performUndo h app
      = { app with
          state := app.state,
          __history := app.__history.dropLast ++ [snapshotText app.state],
          __future := [],
          __suppressHistory := false } := by
    unfold performUndo
    rw [htop]
    dsimp only
    unfold applySnapshot
    have hnn : (jsonParse (snapshotText app.state)).isNullish = false := by
      rw [hsnap]; rfl
    simp only [hnn, Bool.false_eq_true, if_false]
    have hst : applyParsed app.state (jsonParse (snapshotText app.state)) = app.state := by
      unfold jsonParse
      rw [hsnap]
      exact happly
    rw [hst]
    have hrender : ∀ a : App, a.state = app.state → renderAll h a = a :=
      fun a ha => renderAll_systems_nonempty h a L (by rw [ha]; exact hsys) hne
    have hr2 := hrender
      { app with
        __history := app.__history.dropLast,
        __future := app.__future ++ [snapshotText app.state],
        __suppressHistory := true } rfl
    rw [hr2]
    simp only [hren, Bool.false_eq_true, if_false]
    unfold save __snapshot
    simp only [Bool.false_eq_true, if_false, hadj, hpushlen]
  rw [hrun, hback]
  exact ⟨rfl, rfl, rfl⟩

/-- Witness of C24 (amended): the application after two edits, each followed by a save. -/
theorem performUndo_after_save_witness :
    (performUndo sampleHost sampleTimeline).state = sampleTimeline.state ∧
      (performUndo sampleHost sampleTimeline).__history = sampleTimeline.__history ∧
      (performUndo sampleHost sampleTimeline).__future = [] :=
  performUndo_after_save sampleHost sampleTimeline
    [("a", .obj [("id", .str "a"), ("name", .str "S2"), ("planets", .arr [] [])])] DEFAULT_ADV
    (by decide) (by decide) (by decide) rfl rfl (by decide) (by decide) (by decide) (by decide)
    rfl (by decide) ⟨[], keysOf DEFAULT_ADV, rfl, by simp, List.Pairwise.nil, by decide, by decide⟩
    (by decide)

end Galaxy
